import Mathlib

/-! QUEUEASE queue engine

A shallow embedding of the token controllers of the QUEUEASE backend
(`backend/controllers/tokenController.js`, `backend/controllers/doctorController.js`)
over the two mongoose models `Token` and `DoctorConfig`.

* The `Token` collection is a list of documents in insertion order; documents are never
  deleted, `Token.create` appends one with a fresh `_id`.
* The `DoctorConfig` singleton is a record; the lazily created document of
  `DoctorConfig.getConfig` is the record of schema defaults.
* Instants (`Date`) are milliseconds as natural numbers; every handler receives the
  instant `now` that `new Date()` yields during the call.
* `doc.save()` writes the modified paths of the document with that `_id`.
-/

namespace Queuease

/-! ## Data model -/

/-- Shift enum of `tokenSchema.shift`. -/
inductive Shift where
  | morning
  | evening
  deriving DecidableEq, Repr

/-- Status enum of `tokenSchema.status`. -/
inductive Status where
  | pending
  | serving
  | completed
  | missed
  deriving DecidableEq, Repr

/-- Text of a shift as it is interpolated into messages. -/
def Shift.text : Shift → String
  | .morning => "morning"
  | .evening => "evening"

/-- Document of `models/Token.js`. The mongoose bookkeeping stamp `updatedAt` is read by no
controller and is left out. -/
structure Token where
  id : Nat
  patientId : Nat
  tokenNumber : String
  shift : Shift
  date : Nat
  status : Status
  isEmergency : Bool
  emergencyNumber : Option Nat
  generatedAt : Nat
  servedAt : Option Nat
  missedAt : Option Nat
  createdAt : Nat
  deriving DecidableEq, Repr

/-- Document of `models/DoctorConfig.js`. -/
structure DoctorConfig where
  maxTokensMorning : Int
  maxTokensEvening : Int
  isPaused : Bool
  currentTokenId : Option Nat
  lastUpdated : Nat
  deriving DecidableEq, Repr

/-- Schema defaults of `doctorConfigSchema`, the document `getConfig` creates on first access
(`created` is the instant of that creation). -/
def DoctorConfig.defaults (created : Nat) : DoctorConfig :=
  { maxTokensMorning := 30, maxTokensEvening := 30, isPaused := false,
    currentTokenId := none, lastUpdated := created }

/-- Persistent state: the token collection and the configuration singleton. -/
structure State where
  tokens : List Token
  config : DoctorConfig
  deriving DecidableEq, Repr

/-- The empty ledger with the default configuration. -/
def State.empty : State :=
  { tokens := [], config := DoctorConfig.defaults 0 }

/-- JSON body sent by a handler together with the HTTP status. -/
structure Response where
  status : Nat
  message : String
  token : Option Token
  nextToken : Option Token
  config : Option DoctorConfig
  isPaused : Option Bool
  deriving DecidableEq, Repr

/-- Response that carries only a status code and a message. -/
def Response.msg (status : Nat) (message : String) : Response :=
  { status := status, message := message, token := none, nextToken := none,
    config := none, isPaused := none }

/-! ## Day bounds -/

/-- Milliseconds of a day. -/
def msPerDay : Nat := 86400000

/-- Result of `getDayBounds`. -/
structure DayBounds where
  start : Nat
  stop : Nat
  deriving DecidableEq, Repr

/-- Helper `getDayBounds`: `start` is the day's 00:00:00.000, `stop` its 23:59:59.999. -/
def getDayBounds (date : Nat) : DayBounds :=
  { start := date - date % msPerDay, stop := date - date % msPerDay + (msPerDay - 1) }

/-- The query condition `date: { $gte: start, $lte: end }`. -/
def inDay (b : DayBounds) (t : Token) : Bool :=
  decide (b.start ≤ t.date) && decide (t.date ≤ b.stop)

/-! ## Collection primitives -/

/-- Query `Token.findById`. -/
def findById (tokens : List Token) (tokenId : Nat) : Option Token :=
  tokens.find? (fun t => decide (t.id = tokenId))

/-- Effect of `doc.save()` after assignments `f` to the document with this `_id`. -/
def updateById (tokens : List Token) (tokenId : Nat) (f : Token → Token) : List Token :=
  tokens.map (fun t => if t.id = tokenId then f t else t)

/-- A fresh `_id` for `Token.create`. -/
def freshId (tokens : List Token) : Nat :=
  (tokens.map (fun t => t.id)).foldr max 0 + 1

/-- JavaScript `Array.prototype.findIndex`: the first index satisfying `p`, or `-1`. -/
def findIndex (p : Token → Bool) (l : List Token) : Int :=
  if l.findIdx p < l.length then (l.findIdx p : Int) else -1

/-! ## Sort order `{ isEmergency: -1, emergencyNumber: 1, tokenNumber: 1, createdAt: 1 }` -/

/-- Key `isEmergency: -1`: `true` sorts before `false`. -/
def cmpEmergencyDesc (a b : Bool) : Ordering :=
  compare b.toNat a.toNat

/-- Key `emergencyNumber: 1`: `null` sorts before every number. -/
def cmpEmergencyNumber : Option Nat → Option Nat → Ordering
  | none, none => .eq
  | none, some _ => .lt
  | some _, none => .gt
  | some x, some y => compare x y

/-- Key `tokenNumber: 1`: the field is a `String`, compared as text, character by character
(the order `<` of `String`, see `cmpTokenNumber_lt_iff`). -/
def cmpTokenNumber (a b : String) : Ordering :=
  if a.toList < b.toList then .lt else if a = b then .eq else .gt

/-- Lexicographic comparison of the four sort keys. -/
def sortCmp (a b : Token) : Ordering :=
  (cmpEmergencyDesc a.isEmergency b.isEmergency).then
    ((cmpEmergencyNumber a.emergencyNumber b.emergencyNumber).then
      ((cmpTokenNumber a.tokenNumber b.tokenNumber).then
        (compare a.createdAt b.createdAt)))

/-- Token `a` does not sort after `b`. -/
def sortLe (a b : Token) : Prop :=
  sortCmp a b ≠ .gt

instance : DecidableRel sortLe := fun a b => by
  unfold sortLe; exact inferInstance

/-- Query result sorted by the four keys (documents with equal keys keep collection order). -/
def sortTokens (l : List Token) : List Token :=
  l.insertionSort sortLe

/-- Query `Token.find` on a shift and the day bounds, followed by `.sort` on the four keys. -/
def findSorted (tokens : List Token) (b : DayBounds) (shift : Shift) : List Token :=
  sortTokens (tokens.filter (fun t => decide (t.shift = shift) && inDay b t))

/-! ## Token generation (`tokenController.generateToken`) -/

/-- Handler `generateToken`. The request carries the authenticated `patientId`, the body's
`shift` (`none` when absent or not one of the two shift names) and the truthiness of the
body's `isEmergency`. -/
def generateToken (st : State) (now : Nat) (patientId : Nat) (shift : Option Shift)
    (isEmergency : Bool) : Response × State :=
  match shift with
  | none => (Response.msg 400 "Valid shift (morning/evening) is required", st)
  | some shift =>
    let today := now
    let b := getDayBounds today
    -- one token per patient per shift per day
    let existingToken := st.tokens.find? (fun t =>
      decide (t.patientId = patientId) && decide (t.shift = shift) && inDay b t)
    match existingToken with
    | some existing =>
      if existing.status = Status.missed then
        (Response.msg 400 "You missed your token for this shift. Cannot generate a new token.", st)
      else
        (Response.msg 400 "You already have a token for this shift today", st)
    | none =>
      -- only one emergency token per day
      let existingEmergency := st.tokens.find? (fun t =>
        decide (t.patientId = patientId) && t.isEmergency && inDay b t)
      if isEmergency = true ∧ existingEmergency.isSome = true then
        (Response.msg 400 "You already have an emergency token today", st)
      else
        let config := st.config
        let maxTokens : Int :=
          if shift = Shift.morning then config.maxTokensMorning else config.maxTokensEvening
        let todayTokens := st.tokens.filter (fun t =>
          decide (t.shift = shift) && !t.isEmergency && inDay b t)
        let todayEmergencyTokens := st.tokens.filter (fun t =>
          decide (t.shift = shift) && t.isEmergency && inDay b t)
        if isEmergency = false ∧ maxTokens ≤ (todayTokens.length : Int) then
          (Response.msg 400
            ("Maximum tokens (" ++ toString maxTokens ++ ") for " ++ shift.text ++ " shift reached"),
            st)
        else
          let emergencyNumber : Option Nat :=
            if isEmergency then some (todayEmergencyTokens.length + 1) else none
          let tokenNumber : String :=
            if isEmergency then "E-" ++ toString (todayEmergencyTokens.length + 1)
            else toString (todayTokens.length + 1)
          let token : Token :=
            { id := freshId st.tokens, patientId := patientId, tokenNumber := tokenNumber,
              shift := shift, date := today, status := Status.pending,
              isEmergency := isEmergency, emergencyNumber := emergencyNumber,
              generatedAt := now, servedAt := none, missedAt := none, createdAt := now }
          let tokens1 := st.tokens ++ [token]
          -- auto-assign first serving token
          let allTokens := findSorted tokens1 b shift
          let currentlyServing := allTokens.find? (fun t => decide (t.status = Status.serving))
          let firstPending := allTokens.find? (fun t => decide (t.status = Status.pending))
          let resp : Response :=
            { status := 201, message := "Token generated successfully", token := some token,
              nextToken := none, config := none, isPaused := none }
          match currentlyServing, firstPending with
          | none, some fp =>
            (resp,
              { tokens := updateById tokens1 fp.id (fun t => { t with status := Status.serving }),
                config := { config with currentTokenId := some fp.id, lastUpdated := now } })
          | _, _ => (resp, { tokens := tokens1, config := config })

/-! ## Doctor operations (`doctorController`) -/

/-- Loop of `markComplete` over the documents before `currentIndex`: each one still
`pending` is saved as `missed` with `missedAt` stamped. -/
def markMissed (tokens : List Token) (before : List Token) (now : Nat) : List Token :=
  before.foldl (fun db t =>
    if t.status = Status.pending then
      updateById db t.id (fun x => { x with status := Status.missed, missedAt := some now })
    else db) tokens

/-- Handler `markComplete`; `tokenId` is `none` when the body has no token id. -/
def markComplete (st : State) (now : Nat) (tokenId : Option Nat) : Response × State :=
  match tokenId with
  | none => (Response.msg 400 "Token ID is required", st)
  | some tokenId =>
    match findById st.tokens tokenId with
    | none => (Response.msg 404 "Token not found", st)
    | some token =>
      if token.status = Status.completed then
        (Response.msg 400 "Token already completed", st)
      else
        -- mark current token as completed
        let done : Token := { token with status := Status.completed, servedAt := some now }
        let tokens1 := updateById st.tokens tokenId
          (fun t => { t with status := Status.completed, servedAt := some now })
        let today := now
        let b := getDayBounds today
        let allTokens := findSorted tokens1 b token.shift
        let currentIndex := findIndex (fun t => decide (t.id = tokenId)) allTokens
        -- mark all pending tokens before the completed one as missed
        let tokens2 := markMissed tokens1 (allTokens.take currentIndex.toNat) now
        -- next token to serve: the first one at an index above currentIndex
        let nextToken := (allTokens.drop (currentIndex + 1).toNat).find? (fun t =>
          decide (t.status = Status.pending) || decide (t.status = Status.serving))
        match nextToken with
        | some next =>
          ({ status := 200, message := "Token marked as completed", token := some done,
             nextToken := some { next with status := Status.serving },
             config := none, isPaused := none },
           { tokens := updateById tokens2 next.id (fun t => { t with status := Status.serving }),
             config := { st.config with currentTokenId := some next.id, lastUpdated := now } })
        | none =>
          ({ status := 200, message := "Token marked as completed", token := some done,
             nextToken := none, config := none, isPaused := none },
           { tokens := tokens2,
             config := { st.config with currentTokenId := none, lastUpdated := now } })

/-- Handler `pauseResume`. -/
def pauseResume (st : State) (now : Nat) : Response × State :=
  let config := { st.config with isPaused := !st.config.isPaused, lastUpdated := now }
  ({ status := 200,
     message := if config.isPaused then "Checkups paused" else "Checkups resumed",
     token := none, nextToken := none, config := none, isPaused := some config.isPaused },
   { st with config := config })

/-- Handler `updateConfig`; a body field is `none` when it is `undefined`. -/
def updateConfig (st : State) (now : Nat) (maxTokensMorning maxTokensEvening : Option Int) :
    Response × State :=
  let config := st.config
  match maxTokensMorning with
  | some m =>
    if m < 1 then (Response.msg 400 "Max tokens must be at least 1", st)
    else
      let config := { config with maxTokensMorning := m }
      match maxTokensEvening with
      | some e =>
        if e < 1 then (Response.msg 400 "Max tokens must be at least 1", st)
        else
          let config := { config with maxTokensEvening := e, lastUpdated := now }
          ({ status := 200, message := "Configuration updated", token := none,
             nextToken := none, config := some config, isPaused := none },
           { st with config := config })
      | none =>
        let config := { config with lastUpdated := now }
        ({ status := 200, message := "Configuration updated", token := none,
           nextToken := none, config := some config, isPaused := none },
         { st with config := config })
  | none =>
    match maxTokensEvening with
    | some e =>
      if e < 1 then (Response.msg 400 "Max tokens must be at least 1", st)
      else
        let config := { config with maxTokensEvening := e, lastUpdated := now }
        ({ status := 200, message := "Configuration updated", token := none,
           nextToken := none, config := some config, isPaused := none },
         { st with config := config })
    | none =>
      let config := { config with lastUpdated := now }
      ({ status := 200, message := "Configuration updated", token := none,
         nextToken := none, config := some config, isPaused := none },
       { st with config := config })

/-! ## Operation sequences -/

/-- One request to the backend, with the instant at which it is handled. -/
inductive Op where
  | generate (now : Nat) (patientId : Nat) (shift : Option Shift) (isEmergency : Bool)
  | complete (now : Nat) (tokenId : Option Nat)
  | pause (now : Nat)
  | configure (now : Nat) (maxTokensMorning maxTokensEvening : Option Int)
  deriving DecidableEq, Repr

/-- Instant at which a request is handled. -/
def Op.now : Op → Nat
  | .generate now _ _ _ => now
  | .complete now _ => now
  | .pause now => now
  | .configure now _ _ => now

/-- State after one request. -/
def step (st : State) : Op → State
  | .generate now patientId shift isEmergency =>
    (generateToken st now patientId shift isEmergency).2
  | .complete now tokenId => (markComplete st now tokenId).2
  | .pause now => (pauseResume st now).2
  | .configure now m e => (updateConfig st now m e).2

/-- State after a sequence of requests handled one after the other. -/
def run (st : State) (ops : List Op) : State :=
  ops.foldl step st

/-! ## Auxiliary notions used in the statements -/

/-- Assignments of `markComplete` to the completed document. -/
def setCompleted (now : Nat) (t : Token) : Token :=
  { t with status := Status.completed, servedAt := some now }

/-- Assignments of the missed loop of `markComplete`. -/
def setMissed (now : Nat) (t : Token) : Token :=
  { t with status := Status.missed, missedAt := some now }

/-- Assignment of a promotion. -/
def setServing (t : Token) : Token :=
  { t with status := Status.serving }

/-- The fields of a token that no handler assigns after creation (the mutable ones are reset). -/
def Token.core (t : Token) : Token :=
  { t with status := Status.pending, servedAt := none, missedAt := none }

/-- A document update that leaves the creation-time fields alone. -/
def KeepsCore (g : Token → Token) : Prop :=
  ∀ t, (g t).core = t.core

/-- The ids of a collection are pairwise different (`_id` is unique). -/
def UniqueIds (tokens : List Token) : Prop :=
  (tokens.map (fun t => t.id)).Nodup

/-- The document `Token.create` stores in `generateToken`. -/
def newToken (st : State) (now : Nat) (patientId : Nat) (shift : Shift) (isEmergency : Bool) :
    Token :=
  let b := getDayBounds now
  let todayTokens := st.tokens.filter (fun t =>
    decide (t.shift = shift) && !t.isEmergency && inDay b t)
  let todayEmergencyTokens := st.tokens.filter (fun t =>
    decide (t.shift = shift) && t.isEmergency && inDay b t)
  { id := freshId st.tokens, patientId := patientId,
    tokenNumber :=
      if isEmergency then "E-" ++ toString (todayEmergencyTokens.length + 1)
      else toString (todayTokens.length + 1),
    shift := shift, date := now, status := Status.pending,
    isEmergency := isEmergency,
    emergencyNumber := if isEmergency then some (todayEmergencyTokens.length + 1) else none,
    generatedAt := now, servedAt := none, missedAt := none, createdAt := now }

/-- Capacity of a shift in the configuration. -/
def capacity (config : DoctorConfig) (shift : Shift) : Int :=
  if shift = Shift.morning then config.maxTokensMorning else config.maxTokensEvening

/-- Number of regular tokens of the shift on the day of `now`. -/
def regularCount (tokens : List Token) (now : Nat) (shift : Shift) : Nat :=
  (tokens.filter (fun t =>
    decide (t.shift = shift) && !t.isEmergency && inDay (getDayBounds now) t)).length

/-- The patient's token for the shift on the day of `now`, as `generateToken` looks it up. -/
def existingToken (tokens : List Token) (now : Nat) (patientId : Nat) (shift : Shift) :
    Option Token :=
  tokens.find? (fun t =>
    decide (t.patientId = patientId) && decide (t.shift = shift) && inDay (getDayBounds now) t)

/-- The patient's emergency token on the day of `now`, as `generateToken` looks it up. -/
def existingEmergency (tokens : List Token) (now : Nat) (patientId : Nat) : Option Token :=
  tokens.find? (fun t =>
    decide (t.patientId = patientId) && t.isEmergency && inDay (getDayBounds now) t)

/-- State after `generateToken` has stored the new document and run the auto-assignment of the
first serving token. -/
def issueState (st : State) (now : Nat) (patientId : Nat) (shift : Shift) (isEmergency : Bool) :
    State :=
  let tokens1 := st.tokens ++ [newToken st now patientId shift isEmergency]
  let allTokens := findSorted tokens1 (getDayBounds now) shift
  match allTokens.find? (fun t => decide (t.status = Status.serving)),
        allTokens.find? (fun t => decide (t.status = Status.pending)) with
  | none, some fp =>
    { tokens := updateById tokens1 fp.id (fun t => { t with status := Status.serving }),
      config := { st.config with currentTokenId := some fp.id, lastUpdated := now } }
  | _, _ => { tokens := tokens1, config := st.config }

/-- The 201 response of `generateToken`. -/
def issueResponse (st : State) (now : Nat) (patientId : Nat) (shift : Shift)
    (isEmergency : Bool) : Response :=
  { status := 201, message := "Token generated successfully",
    token := some (newToken st now patientId shift isEmergency),
    nextToken := none, config := none, isPaused := none }

/-- The 400 response of `generateToken` when the shift is full. -/
def capacityResponse (config : DoctorConfig) (shift : Shift) : Response :=
  Response.msg 400
    ("Maximum tokens (" ++ toString (capacity config shift) ++ ") for " ++ shift.text ++
      " shift reached")

instance (l : List Token) : Decidable (UniqueIds l) := by
  unfold UniqueIds; exact inferInstance

/-- The sorted list `allTokens` that `markComplete` reads after saving the completed token. -/
def completeAllTokens (st : State) (now tokenId : Nat) (shift : Shift) : List Token :=
  findSorted
    (updateById st.tokens tokenId
      (fun t => { t with status := Status.completed, servedAt := some now }))
    (getDayBounds now) shift

/-- The value `currentIndex` of `markComplete`. -/
def completeIndex (st : State) (now tokenId : Nat) (shift : Shift) : Int :=
  findIndex (fun t => decide (t.id = tokenId)) (completeAllTokens st now tokenId shift)

/-- Ids of the documents the missed loop of `markComplete` saves. -/
def completeMissedIds (st : State) (now tokenId : Nat) (shift : Shift) : List Nat :=
  (((completeAllTokens st now tokenId shift).take
      (completeIndex st now tokenId shift).toNat).filter
    (fun t => decide (t.status = Status.pending))).map (fun t => t.id)

/-- The value `nextToken` of `markComplete` (before it is saved as serving). -/
def completeNextToken (st : State) (now tokenId : Nat) (shift : Shift) : Option Token :=
  ((completeAllTokens st now tokenId shift).drop
      (completeIndex st now tokenId shift + 1).toNat).find?
    (fun t => decide (t.status = Status.pending) || decide (t.status = Status.serving))

/-- What the three writes of `markComplete` make of one stored document. -/
def completeMap (now tokenId : Nat) (missedIds : List Nat) (next : Option Nat) (t : Token) :
    Token :=
  let t1 := if t.id = tokenId then setCompleted now t else t
  let t2 := if t.id ∈ missedIds then setMissed now t1 else t1
  if some t.id = next then setServing t2 else t2

/-- A patient has at most one token per day and shift. -/
def OnePerShift (tokens : List Token) : Prop :=
  ∀ (patientId : Nat) (shift : Shift) (day : Nat),
    tokens.countP (fun t => decide (t.patientId = patientId) && decide (t.shift = shift) &&
      inDay (getDayBounds day) t) ≤ 1

/-- A patient has at most one emergency token per day, over both shifts. -/
def OneEmergencyPerDay (tokens : List Token) : Prop :=
  ∀ (patientId : Nat) (day : Nat),
    tokens.countP (fun t => decide (t.patientId = patientId) && t.isEmergency &&
      inDay (getDayBounds day) t) ≤ 1

/-! ## Sample data -/

/-- A regular morning token of patient 1, being served. -/
def sampleA : Token :=
  { id := 1, patientId := 1, tokenNumber := "1", shift := Shift.morning, date := 1000,
    status := Status.serving, isEmergency := false, emergencyNumber := none,
    generatedAt := 1000, servedAt := none, missedAt := none, createdAt := 1000 }

/-- A regular morning token of patient 2, pending. -/
def sampleB : Token :=
  { id := 2, patientId := 2, tokenNumber := "2", shift := Shift.morning, date := 2000,
    status := Status.pending, isEmergency := false, emergencyNumber := none,
    generatedAt := 2000, servedAt := none, missedAt := none, createdAt := 2000 }

/-- A regular morning token of patient 3, pending. -/
def sampleC : Token :=
  { id := 3, patientId := 3, tokenNumber := "3", shift := Shift.morning, date := 3000,
    status := Status.pending, isEmergency := false, emergencyNumber := none,
    generatedAt := 3000, servedAt := none, missedAt := none, createdAt := 3000 }

/-- An emergency morning token of patient 4, missed. -/
def sampleE : Token :=
  { id := 4, patientId := 4, tokenNumber := "E-1", shift := Shift.morning, date := 3500,
    status := Status.missed, isEmergency := true, emergencyNumber := some 1,
    generatedAt := 3500, servedAt := none, missedAt := some 3600, createdAt := 3500 }

/-- A ledger with three regular morning tokens and the default configuration. -/
def sampleState : State :=
  { tokens := [sampleA, sampleB, sampleC], config := DoctorConfig.defaults 0 }

/-- The ledger of `sampleState` with a missed emergency token added. -/
def sampleStateE : State :=
  { tokens := [sampleA, sampleB, sampleC, sampleE], config := DoctorConfig.defaults 0 }

/-- The ledger of `sampleState` with morning capacity 3. -/
def sampleStateFull : State :=
  { tokens := [sampleA, sampleB, sampleC],
    config := { DoctorConfig.defaults 0 with maxTokensMorning := 3 } }

/-- Requests of three patients for regular morning tokens, one after the other. -/
def sampleOps : List Op :=
  [Op.generate 1000 1 (some Shift.morning) false, Op.generate 2000 2 (some Shift.morning) false,
   Op.generate 3000 3 (some Shift.morning) false]

/-- An emergency evening token of patient 4, pending. -/
def sampleF : Token :=
  { id := 5, patientId := 4, tokenNumber := "E-1", shift := Shift.evening, date := 3700,
    status := Status.pending, isEmergency := true, emergencyNumber := some 1,
    generatedAt := 3700, servedAt := none, missedAt := none, createdAt := 3700 }

/-- A ledger in which patient 4 holds an emergency evening token. -/
def sampleStateF : State :=
  { tokens := [sampleA, sampleB, sampleF], config := DoctorConfig.defaults 0 }

/-- Numbers carried by the regular tokens of a shift, in the order of issuance. -/
def regularNumbers (tokens : List Token) (shift : Shift) : List String :=
  (tokens.filter (fun t => decide (t.shift = shift) && !t.isEmergency)).map
    (fun t => t.tokenNumber)

/-- Emergency numbers carried by the emergency tokens of a shift, in the order of issuance. -/
def emergencyNumbers (tokens : List Token) (shift : Shift) : List (Option Nat) :=
  (tokens.filter (fun t => decide (t.shift = shift) && t.isEmergency)).map
    (fun t => t.emergencyNumber)

/-- Display numbers carried by the emergency tokens of a shift, in the order of issuance. -/
def emergencyLabels (tokens : List Token) (shift : Shift) : List String :=
  (tokens.filter (fun t => decide (t.shift = shift) && t.isEmergency)).map
    (fun t => t.tokenNumber)

/-- Every token of the ledger belongs to day number `d`. -/
def AllInDay (d : Nat) (tokens : List Token) : Prop :=
  ∀ t ∈ tokens, t.date / msPerDay = d

/-- The numbers of every partition of the ledger are `1, 2, …` in the order of issuance. -/
def Dense (tokens : List Token) : Prop :=
  ∀ shift : Shift,
    regularNumbers tokens shift =
      (List.range (regularNumbers tokens shift).length).map (fun i => toString (i + 1)) ∧
    emergencyNumbers tokens shift =
      (List.range (emergencyNumbers tokens shift).length).map (fun i => some (i + 1)) ∧
    emergencyLabels tokens shift =
      (List.range (emergencyLabels tokens shift).length).map
        (fun i => "E-" ++ toString (i + 1))

/-- Value of a list of decimal digit characters, most significant first. -/
def digitsValue : List Char → Nat
  | [] => 0
  | c :: cs => (c.toNat - 48) * 10 ^ cs.length + digitsValue cs

/-- Scenario: patients 1, 2 and 3 draw regular morning tokens, then the doctor completes the
pending token of patient 2 while the token of patient 1 is being served. -/
def scenarioCompletePending : List Op :=
  [Op.generate 1000 1 (some Shift.morning) false, Op.generate 2000 2 (some Shift.morning) false,
   Op.generate 3000 3 (some Shift.morning) false, Op.complete 4000 (some 2)]

/-- Scenario: patient 1 draws a regular morning token, patient 2 an emergency morning token,
then the doctor completes the token of patient 1. -/
def scenarioEmergency : List Op :=
  [Op.generate 1000 1 (some Shift.morning) false, Op.generate 2000 2 (some Shift.morning) true,
   Op.complete 3000 (some 1)]

/-- Scenario: ten patients draw regular morning tokens. -/
def scenarioTen : List Op :=
  (List.range 10).map (fun i => Op.generate (1000 + i) (i + 1) (some Shift.morning) false)

/-- Scenario: after `scenarioEmergency` the doctor also completes the missed emergency token
of patient 2. -/
def scenarioCompleteMissed : List Op :=
  scenarioEmergency ++ [Op.complete 4000 (some 2)]

/-! ## Queue status (`tokenController.calculateQueueStatus`) -/

/-- The object `{ tokenNumber, isEmergency }` reported as `currentServing`. -/
structure ServingInfo where
  tokenNumber : String
  isEmergency : Bool
  deriving DecidableEq, Repr

/-- Result object of `calculateQueueStatus` (`null` is `none`). -/
structure QueueStatus where
  currentServing : Option ServingInfo
  totalTokens : Nat
  waitingPosition : Option Nat
  estimatedWait : String
  deriving DecidableEq, Repr

/-- The constant `AVG_TIME`: `Number(process.env.AVG_SERVICE_MINUTES) || 5`, where the
environment value is `none` when it is unset or not a number (only whole numbers are
modelled). -/
def avgTime (avgServiceMinutes : Option Int) : Int :=
  match avgServiceMinutes with
  | some n => if n = 0 then 5 else n
  | none => 5

/-- Helper `calculateQueueStatus` of `tokenController`; `patientToken` is `none` for the
default `null`. -/
def calculateQueueStatus (st : State) (now : Nat) (avgServiceMinutes : Option Int)
    (shift : Shift) (patientToken : Option Token) : QueueStatus :=
  let today := now
  let b := getDayBounds today
  let AVG_TIME := avgTime avgServiceMinutes
  let allTokens := findSorted st.tokens b shift
  let currentServing :=
    (allTokens.find? (fun t => decide (t.status = Status.serving))).or
      ((allTokens.find? (fun t => decide (t.status = Status.pending) && t.isEmergency)).or
        (allTokens.find? (fun t => decide (t.status = Status.pending))))
  let waiting : Option Nat × String :=
    match patientToken with
    | none => (none, "Queue not started")
    | some patientToken =>
      if patientToken.isEmergency then (some 1, "Immediate")
      else
        let patientIndex := findIndex (fun t => decide (t.id = patientToken.id)) allTokens
        if patientIndex ≠ -1 then
          let beforePatient := (allTokens.take patientIndex.toNat).filter (fun t =>
            decide (t.status = Status.pending) || decide (t.status = Status.serving))
          (some (beforePatient.length + 1),
            toString ((beforePatient.length : Int) * AVG_TIME) ++ " minutes")
        else (none, "Queue not started")
  { currentServing := currentServing.map (fun t =>
      { tokenNumber := t.tokenNumber, isEmergency := t.isEmergency }),
    totalTokens := allTokens.length,
    waitingPosition := waiting.1,
    estimatedWait := waiting.2 }

/-- The current-serving token in the words of the specification: the serving one; else the
first pending emergency token; else the first pending regular token; else none. -/
def currentServingSpec (ordered : List Token) : Option Token :=
  match ordered.find? (fun t => decide (t.status = Status.serving)) with
  | some t => some t
  | none =>
    match ordered.find? (fun t => decide (t.status = Status.pending) && t.isEmergency) with
    | some t => some t
    | none => ordered.find? (fun t => decide (t.status = Status.pending) && !t.isEmergency)

/-- A regular morning token of patient 5, pending. -/
def sampleD : Token :=
  { id := 6, patientId := 5, tokenNumber := "4", shift := Shift.morning, date := 3800,
    status := Status.pending, isEmergency := false, emergencyNumber := none,
    generatedAt := 3800, servedAt := none, missedAt := none, createdAt := 3800 }

/-- The ledger of `sampleState` with the token of patient 5 behind three waiting tokens. -/
def sampleStateD : State :=
  { tokens := [sampleA, sampleB, sampleC, sampleD], config := DoctorConfig.defaults 0 }

/-- The state with the pause flag set to `b` and everything else as it is. -/
def withPaused (b : Bool) (st : State) : State :=
  { st with config := { st.config with isPaused := b } }

/-- The pointer `currentTokenId`, when set, names a stored token that is serving. -/
def PointerValid (st : State) : Prop :=
  ∀ i, st.config.currentTokenId = some i →
    ∃ t ∈ st.tokens, t.id = i ∧ t.status = Status.serving

/-- Scenario: patient 1 draws a morning token on day 0; on day 1 patient 2 draws a regular and
patient 3 an emergency morning token; then, still on day 1, the doctor completes the token of
day 0. -/
def scenarioOtherDay : List Op :=
  [Op.generate 1000 1 (some Shift.morning) false,
   Op.generate 86401000 2 (some Shift.morning) false,
   Op.generate 86402000 3 (some Shift.morning) true,
   Op.complete 86403000 (some 1)]

/-- Scenario: patient 1 draws a morning token, patient 2 an evening token, and the doctor
completes the evening token. -/
def scenarioTwoShifts : List Op :=
  [Op.generate 1000 1 (some Shift.morning) false, Op.generate 2000 2 (some Shift.evening) false,
   Op.complete 3000 (some 2)]

/-- Scenario of the capacity example: morning capacity 2, then patients 1, 2 and 3 ask for a
regular morning token. -/
def scenarioCapacityTwo : List Op :=
  [Op.configure 500 (some 2) none, Op.generate 1000 1 (some Shift.morning) false,
   Op.generate 2000 2 (some Shift.morning) false]

/-- Two states with the same ledger, the same capacities and the same `currentTokenId` (they
may differ in the pause flag and in `lastUpdated`). -/
def SameQueue (a b : State) : Prop :=
  a.tokens = b.tokens ∧ a.config.maxTokensMorning = b.config.maxTokensMorning ∧
    a.config.maxTokensEvening = b.config.maxTokensEvening ∧
    a.config.currentTokenId = b.config.currentTokenId

/-- The queue of a shift on the day of `now` is settled: one of its tokens is serving, or none
of them is pending. -/
def Settled (tokens : List Token) (now : Nat) (shift : Shift) : Prop :=
  (∃ t ∈ tokens, t.shift = shift ∧ inDay (getDayBounds now) t = true ∧
    t.status = Status.serving) ∨
  (∀ t ∈ tokens, t.shift = shift → inDay (getDayBounds now) t = true →
    t.status ≠ Status.pending)

/-- The requests are handled at instants that do not decrease. -/
def TimeOrdered (ops : List Op) : Prop :=
  ops.Pairwise (fun a b => a.now ≤ b.now)

instance (ops : List Op) : Decidable (TimeOrdered ops) := by
  unfold TimeOrdered; exact inferInstance

/-- Invariant of the states reached by requests handled up to the instant `n`: ids are unique,
no token is dated after `n`, and every shift of the day of `n` is settled. -/
def QueueInv (n : Nat) (st : State) : Prop :=
  UniqueIds st.tokens ∧ (∀ t ∈ st.tokens, t.date ≤ n) ∧ ∀ shift, Settled st.tokens n shift

/-- Scenario: three patients draw regular morning tokens (the requests of `sampleOps`) after
the morning capacity was set to 3. -/
def scenarioFull : List Op :=
  Op.configure 500 (some 3) none :: sampleOps

/-- The empty ledger after the morning capacity was set to 2. -/
def capacityTwoStart : State :=
  run State.empty (scenarioCapacityTwo.take 1)

/-! ## Queue status helper of `doctorController` -/

/-- Comparison by the three sort keys `{ isEmergency: -1, emergencyNumber: 1, tokenNumber: 1 }`
of the helper `calculateQueueStatus` in `doctorController`. -/
def sortCmpDoctor (a b : Token) : Ordering :=
  (cmpEmergencyDesc a.isEmergency b.isEmergency).then
    ((cmpEmergencyNumber a.emergencyNumber b.emergencyNumber).then
      (cmpTokenNumber a.tokenNumber b.tokenNumber))

/-- Token `a` does not sort after `b` by the three keys. -/
def sortLeDoctor (a b : Token) : Prop :=
  sortCmpDoctor a b ≠ .gt

instance : DecidableRel sortLeDoctor := fun a b => by
  unfold sortLeDoctor; exact inferInstance

/-- Query of the doctor helper: the tokens of the shift and day sorted by the three keys
(documents with equal keys keep collection order). -/
def findSortedDoctor (tokens : List Token) (b : DayBounds) (shift : Shift) : List Token :=
  (tokens.filter (fun t => decide (t.shift = shift) && inDay b t)).insertionSort sortLeDoctor

/-- Result object of the helper `calculateQueueStatus` in `doctorController`. -/
structure DoctorQueueStatus where
  currentServing : Option ServingInfo
  totalTokens : Nat
  deriving DecidableEq, Repr

/-- The choice `find(serving) || find(pending && isEmergency) || find(pending)` on a list,
reported as `{ tokenNumber, isEmergency }`. -/
def servingChoice (allTokens : List Token) : Option ServingInfo :=
  ((allTokens.find? (fun t => decide (t.status = Status.serving))).or
    ((allTokens.find? (fun t => decide (t.status = Status.pending) && t.isEmergency)).or
      (allTokens.find? (fun t => decide (t.status = Status.pending))))).map
    (fun t => { tokenNumber := t.tokenNumber, isEmergency := t.isEmergency })

/-- Helper `calculateQueueStatus` of `doctorController`. -/
def doctorCalculateQueueStatus (st : State) (now : Nat) (shift : Shift) : DoctorQueueStatus :=
  let today := now
  let b := getDayBounds today
  let allTokens := findSortedDoctor st.tokens b shift
  let currentServing :=
    (allTokens.find? (fun t => decide (t.status = Status.serving))).or
      ((allTokens.find? (fun t => decide (t.status = Status.pending) && t.isEmergency)).or
        (allTokens.find? (fun t => decide (t.status = Status.pending))))
  { currentServing := currentServing.map (fun t =>
      { tokenNumber := t.tokenNumber, isEmergency := t.isEmergency }),
    totalTokens := allTokens.length }

/-! ## Sort keys as elements of a linear order -/

/-- Rank of the key `isEmergency: -1`: emergency tokens first. -/
def emergencyRank (e : Bool) : Nat :=
  if e then 0 else 1

/-- Rank of the key `emergencyNumber: 1`: `null` first, then the numbers in ascending order. -/
def numberRank (n : Option Nat) : Nat :=
  match n with
  | none => 0
  | some k => k + 1

/-- The four sort keys of a token, ordered lexicographically. -/
def sortKey (t : Token) : Lex (Nat × Lex (Nat × Lex (List Char × Nat))) :=
  toLex (emergencyRank t.isEmergency,
    toLex (numberRank t.emergencyNumber, toLex (t.tokenNumber.toList, t.createdAt)))

/-- The three sort keys of the doctor helper, ordered lexicographically. -/
def sortKeyDoctor (t : Token) : Lex (Nat × Lex (Nat × List Char)) :=
  toLex (emergencyRank t.isEmergency, toLex (numberRank t.emergencyNumber, t.tokenNumber.toList))

/-! ## Serving tokens of a shift -/

/-- Number of stored tokens of a shift whose status is serving. -/
def servingCount (tokens : List Token) (shift : Shift) : Nat :=
  tokens.countP (fun t => decide (t.shift = shift) && decide (t.status = Status.serving))

/-- The request `op` is handled on day `d` and is either a `generateToken` call or a
`markComplete` call on a stored token whose status is serving in the state `st`. -/
def servingOnlyOp (d : Nat) (st : State) (op : Op) : Bool :=
  decide (op.now / msPerDay = d) &&
  match op with
  | .generate _ _ _ _ => true
  | .complete _ (some i) =>
    match findById st.tokens i with
    | some T => decide (T.status = Status.serving)
    | none => false
  | _ => false

/-- Every request of the sequence, handled one after the other from `st`, is a
`generateToken` call or a `markComplete` call on a token that is serving at that moment, and
all of them are handled on day `d`. -/
def servingOnly (d : Nat) : State → List Op → Bool
  | _, [] => true
  | st, op :: ops => servingOnlyOp d st op && servingOnly d (step st op) ops

/-- Invariant of the single-day runs: ids are unique, every token is dated on day `d`, and no
shift has two serving tokens. -/
def OneServing (d : Nat) (st : State) : Prop :=
  UniqueIds st.tokens ∧ AllInDay d st.tokens ∧ ∀ shift, servingCount st.tokens shift ≤ 1

/-- Scenario: patients 1, 2 and 3 draw regular morning tokens, patient 4 an evening token, then
the doctor completes the serving token of patient 1 and the then serving token of patient 2. -/
def scenarioServingOnly : List Op :=
  [Op.generate 1000 1 (some Shift.morning) false, Op.generate 2000 2 (some Shift.morning) false,
   Op.generate 3000 3 (some Shift.morning) false, Op.generate 3500 4 (some Shift.evening) false,
   Op.complete 4000 (some 1), Op.complete 5000 (some 2)]

/-! ## `generateToken` as two phases of database operations -/

/-- Reads of `generateToken`, the queries the handler awaits before `Token.create`: `none` when
one of the guards answers 400, else the document the call is going to create, its numbers
computed from the ledger as it is read. -/
def generateReads (st : State) (now patientId : Nat) (shift : Shift) (isEmergency : Bool) :
    Option Token :=
  match existingToken st.tokens now patientId shift with
  | some _ => none
  | none =>
    if isEmergency = true ∧ (existingEmergency st.tokens now patientId).isSome = true then none
    else if isEmergency = false ∧
        capacity st.config shift ≤ (regularCount st.tokens now shift : Int) then none
    else some (newToken st now patientId shift isEmergency)

/-- Writes of `generateToken` on the ledger as it is when they happen: `Token.create` of the
prepared document, which receives its `_id` then, followed by the auto-assignment of the first
serving token. -/
def generateWrites (st : State) (now : Nat) (doc : Token) : State :=
  let tokens1 := st.tokens ++ [{ doc with id := freshId st.tokens }]
  let allTokens := findSorted tokens1 (getDayBounds now) doc.shift
  match allTokens.find? (fun t => decide (t.status = Status.serving)),
        allTokens.find? (fun t => decide (t.status = Status.pending)) with
  | none, some fp =>
    { tokens := updateById tokens1 fp.id (fun t => { t with status := Status.serving }),
      config := { st.config with currentTokenId := some fp.id, lastUpdated := now } }
  | _, _ => { tokens := tokens1, config := st.config }

/-- Two concurrent `generateToken` calls on the empty ledger, by patients 1 and 2 for regular
morning tokens, interleaved so that both calls finish their reads before either creates its
document: the state after both writes. -/
def interleavedPair : Option State :=
  (generateReads State.empty 1000 1 Shift.morning false).bind (fun docA =>
    (generateReads State.empty 1001 2 Shift.morning false).map (fun docB =>
      generateWrites (generateWrites State.empty 1000 docA) 1001 docB))

/-- Requests of the two queue operations only. -/
def Op.isQueueOp : Op → Bool
  | .generate _ _ _ _ => true
  | .complete _ _ => true
  | _ => false


/-! ## Basic facts about the collection primitives -/

theorem inDay_getDayBounds (a : Nat) (t : Token) :
    inDay (getDayBounds a) t = decide (t.date / msPerDay = a / msPerDay) := by
  unfold inDay getDayBounds msPerDay
  rw [← Bool.decide_and]
  apply decide_eq_decide.mpr
  dsimp only
  constructor <;> intro h <;> omega

theorem cmpTokenNumber_lt_iff (a b : String) : cmpTokenNumber a b = .lt ↔ a < b := by
  unfold cmpTokenNumber
  rw [String.lt_iff_toList_lt]
  by_cases h : a.toList < b.toList
  · simp [h]
  · simp only [h, if_false, iff_false]
    split <;> simp


theorem updateById_length (l : List Token) (i : Nat) (f : Token → Token) :
    (updateById l i f).length = l.length := by
  simp [updateById]

theorem keepsCore_update (i : Nat) (f : Token → Token) (hf : KeepsCore f) :
    KeepsCore (fun t => if t.id = i then f t else t) := by
  intro t
  by_cases h : t.id = i
  · simp only [h, if_true]; exact hf t
  · simp only [h, if_false]

theorem keepsCore_comp (f g : Token → Token) (hf : KeepsCore f) (hg : KeepsCore g) :
    KeepsCore (f ∘ g) := by
  intro t
  show (f (g t)).core = t.core
  rw [hf, hg]

theorem keepsCore_id : KeepsCore (fun t => t) := fun _ => rfl

theorem keepsCore_setCompleted (now : Nat) : KeepsCore (setCompleted now) := fun _ => rfl

theorem keepsCore_setMissed (now : Nat) : KeepsCore (setMissed now) := fun _ => rfl

theorem keepsCore_setServing : KeepsCore setServing := fun _ => rfl

theorem KeepsCore.id_eq {g : Token → Token} (hg : KeepsCore g) (t : Token) :
    (g t).id = t.id := by
  have h := congrArg Token.id (hg t)
  exact h

/-- The missed loop is one pass over the collection. -/
theorem markMissed_eq_map (before : List Token) (now : Nat) (l : List Token) :
    markMissed l before now =
      l.map (fun x =>
        if x.id ∈ (before.filter (fun t => decide (t.status = Status.pending))).map (fun t => t.id)
        then setMissed now x else x) := by
  induction before generalizing l with
  | nil => simp [markMissed]
  | cons t ts ih =>
    have hstep : markMissed l (t :: ts) now =
        markMissed (if t.status = Status.pending then
          updateById l t.id (fun x => { x with status := Status.missed, missedAt := some now })
          else l) ts now := by
      simp [markMissed]
    rw [hstep, ih]
    by_cases hp : t.status = Status.pending
    · simp only [hp, if_true, updateById, List.map_map, decide_True, List.filter_cons_of_pos,
        List.map_cons, List.mem_cons]
      apply List.map_congr_left
      intro x _
      by_cases hx : x.id = t.id
      · simp [hx, setMissed]
      · simp only [Function.comp_apply, if_neg hx]
        by_cases hm : x.id ∈ List.map (fun t => t.id)
            (List.filter (fun t => decide (t.status = Status.pending)) ts)
        · rw [if_pos hm, if_pos (Or.inr hm)]
        · rw [if_neg hm, if_neg (fun h => h.elim hx hm)]
    · simp only [hp, if_false, decide_False]
      rw [List.filter_cons_of_neg (by simp [hp])]

/-! ## The sorted query and document updates -/

theorem sortCmp_core (a b : Token) : sortCmp a.core b.core = sortCmp a b := rfl

theorem sortLe_keepsCore {g : Token → Token} (hg : KeepsCore g) (a b : Token) :
    sortLe a b ↔ sortLe (g a) (g b) := by
  unfold sortLe
  rw [← sortCmp_core (g a) (g b), hg a, hg b, sortCmp_core]

theorem inDay_core (b : DayBounds) (t : Token) : inDay b t.core = inDay b t := rfl

theorem inDay_keepsCore {g : Token → Token} (hg : KeepsCore g) (b : DayBounds) (t : Token) :
    inDay b (g t) = inDay b t := by
  rw [← inDay_core b (g t), hg t, inDay_core]

theorem KeepsCore.shift_eq {g : Token → Token} (hg : KeepsCore g) (t : Token) :
    (g t).shift = t.shift := by
  have h := congrArg Token.shift (hg t)
  exact h

theorem KeepsCore.patientId_eq {g : Token → Token} (hg : KeepsCore g) (t : Token) :
    (g t).patientId = t.patientId := by
  have h := congrArg Token.patientId (hg t)
  exact h

theorem KeepsCore.isEmergency_eq {g : Token → Token} (hg : KeepsCore g) (t : Token) :
    (g t).isEmergency = t.isEmergency := by
  have h := congrArg Token.isEmergency (hg t)
  exact h

theorem KeepsCore.tokenNumber_eq {g : Token → Token} (hg : KeepsCore g) (t : Token) :
    (g t).tokenNumber = t.tokenNumber := by
  have h := congrArg Token.tokenNumber (hg t)
  exact h

theorem KeepsCore.emergencyNumber_eq {g : Token → Token} (hg : KeepsCore g) (t : Token) :
    (g t).emergencyNumber = t.emergencyNumber := by
  have h := congrArg Token.emergencyNumber (hg t)
  exact h

theorem KeepsCore.date_eq {g : Token → Token} (hg : KeepsCore g) (t : Token) :
    (g t).date = t.date := by
  have h := congrArg Token.date (hg t)
  exact h

/-- Sorting commutes with an update of the mutable fields. -/
theorem findSorted_map {g : Token → Token} (hg : KeepsCore g) (l : List Token) (b : DayBounds)
    (shift : Shift) : findSorted (l.map g) b shift = (findSorted l b shift).map g := by
  unfold findSorted sortTokens
  rw [List.filter_map]
  have hp : ((fun t : Token => decide (t.shift = shift) && inDay b t) ∘ g) =
      (fun t : Token => decide (t.shift = shift) && inDay b t) := by
    funext t
    simp only [Function.comp_apply, hg.shift_eq, inDay_keepsCore hg]
  rw [hp]
  exact (List.map_insertionSort sortLe sortLe g _ (fun a _ b _ => sortLe_keepsCore hg a b)).symm

theorem findSorted_perm (l : List Token) (b : DayBounds) (shift : Shift) :
    (findSorted l b shift).Perm (l.filter (fun t => decide (t.shift = shift) && inDay b t)) :=
  List.perm_insertionSort _ _

theorem mem_findSorted {l : List Token} {b : DayBounds} {shift : Shift} {t : Token} :
    t ∈ findSorted l b shift ↔ t ∈ l ∧ t.shift = shift ∧ inDay b t = true := by
  rw [(findSorted_perm l b shift).mem_iff, List.mem_filter]
  simp

theorem uniqueIds_findSorted {l : List Token} (h : UniqueIds l) (b : DayBounds)
    (shift : Shift) : UniqueIds (findSorted l b shift) := by
  unfold UniqueIds at *
  rw [((findSorted_perm l b shift).map _).nodup_iff]
  exact h.sublist ((List.filter_sublist l).map _)

theorem UniqueIds.eq_of_id {l : List Token} (h : UniqueIds l) {a b : Token} (ha : a ∈ l)
    (hb : b ∈ l) (hab : a.id = b.id) : a = b :=
  List.inj_on_of_nodup_map h ha hb hab

theorem findById_some {l : List Token} {i : Nat} {t : Token} (h : findById l i = some t) :
    t ∈ l ∧ t.id = i := by
  unfold findById at h
  refine ⟨List.mem_of_find?_eq_some h, ?_⟩
  simpa using List.find?_some h

theorem findById_of_mem {l : List Token} (h : UniqueIds l) {t : Token} (ht : t ∈ l) :
    findById l t.id = some t := by
  cases hf : findById l t.id with
  | none =>
    unfold findById at hf
    rw [List.find?_eq_none] at hf
    exact absurd (by simp) (hf t ht)
  | some u =>
    have hu := findById_some hf
    rw [h.eq_of_id hu.1 ht hu.2]

theorem uniqueIds_map {g : Token → Token} (hg : KeepsCore g) {l : List Token}
    (h : UniqueIds l) : UniqueIds (l.map g) := by
  unfold UniqueIds at *
  rw [List.map_map]
  have : ((fun t : Token => t.id) ∘ g) = (fun t : Token => t.id) := by
    funext t; exact hg.id_eq t
  rw [this]; exact h

/-- Lookup after an update of the mutable fields of a collection with unique ids. -/
theorem findById_map {g : Token → Token} (hg : KeepsCore g) {l : List Token}
    (h : UniqueIds l) {t : Token} (ht : t ∈ l) : findById (l.map g) t.id = some (g t) := by
  have := findById_of_mem (uniqueIds_map hg h) (List.mem_map_of_mem g ht)
  rwa [hg.id_eq] at this

/-! ## The writes of `markComplete` -/

theorem keepsCore_completeMap (now tokenId : Nat) (missedIds : List Nat) (next : Option Nat) :
    KeepsCore (completeMap now tokenId missedIds next) := by
  intro t
  unfold completeMap
  dsimp only
  split_ifs <;> rfl

/-- An accepted `markComplete`, written with the named intermediate values. -/
theorem markComplete_eq {st : State} {now tokenId : Nat} {T : Token}
    (hfind : findById st.tokens tokenId = some T) (hst : T.status ≠ Status.completed) :
    markComplete st now (some tokenId) =
      match completeNextToken st now tokenId T.shift with
      | some next =>
        ({ status := 200, message := "Token marked as completed",
           token := some (setCompleted now T), nextToken := some (setServing next),
           config := none, isPaused := none },
         { tokens := updateById
             (markMissed (updateById st.tokens tokenId (setCompleted now))
               ((completeAllTokens st now tokenId T.shift).take
                 (completeIndex st now tokenId T.shift).toNat) now)
             next.id setServing,
           config := { st.config with currentTokenId := some next.id, lastUpdated := now } })
      | none =>
        ({ status := 200, message := "Token marked as completed",
           token := some (setCompleted now T), nextToken := none,
           config := none, isPaused := none },
         { tokens := markMissed (updateById st.tokens tokenId (setCompleted now))
               ((completeAllTokens st now tokenId T.shift).take
                 (completeIndex st now tokenId T.shift).toNat) now,
           config := { st.config with currentTokenId := none, lastUpdated := now } }) := by
  unfold markComplete
  simp only [hfind, hst, if_false]
  rfl

/-- The ledger after an accepted `markComplete` is the old one, document by document, under
`completeMap`. -/
theorem markComplete_tokens {st : State} {now tokenId : Nat} {T : Token}
    (hfind : findById st.tokens tokenId = some T) (hst : T.status ≠ Status.completed) :
    (markComplete st now (some tokenId)).2.tokens =
      st.tokens.map (completeMap now tokenId (completeMissedIds st now tokenId T.shift)
        ((completeNextToken st now tokenId T.shift).map (fun t => t.id))) := by
  rw [markComplete_eq hfind hst]
  cases hn : completeNextToken st now tokenId T.shift with
  | none =>
    simp only [Option.map_none']
    rw [markMissed_eq_map]
    simp only [updateById, List.map_map]
    apply List.map_congr_left
    intro x _
    simp only [Function.comp_apply, completeMap]
    have hid : (if x.id = tokenId then setCompleted now x else x).id = x.id := by
      split_ifs <;> rfl
    rw [hid]
    simp only [completeMissedIds, reduceCtorEq, if_false]
  | some n =>
    simp only [Option.map_some']
    rw [markMissed_eq_map]
    simp only [updateById, List.map_map]
    apply List.map_congr_left
    intro x _
    simp only [Function.comp_apply, completeMap]
    have hid : (if x.id = tokenId then setCompleted now x else x).id = x.id := by
      split_ifs <;> rfl
    have hid2 : ∀ y : Token, (if x.id ∈ completeMissedIds st now tokenId T.shift
        then setMissed now y else y).id = y.id := by
      intro y; split_ifs <;> rfl
    rw [hid]
    have hm : completeMissedIds st now tokenId T.shift = List.map (fun t => t.id)
        (List.filter (fun t => decide (t.status = Status.pending))
          (List.take (completeIndex st now tokenId T.shift).toNat
            (completeAllTokens st now tokenId T.shift))) := rfl
    rw [← hm, hid2, hid]
    simp only [Option.some.injEq]

theorem completeAllTokens_eq_map (st : State) (now tokenId : Nat) (shift : Shift) :
    completeAllTokens st now tokenId shift =
      (findSorted st.tokens (getDayBounds now) shift).map
        (fun t => if t.id = tokenId then setCompleted now t else t) := by
  unfold completeAllTokens updateById
  exact findSorted_map (keepsCore_update tokenId _ (keepsCore_setCompleted now)) _ _ _

/-- A document of the sorted list that is not completed is a stored document other than the
one being completed. -/
theorem mem_completeAllTokens {st : State} {now tokenId : Nat} {shift : Shift} {u : Token}
    (hu : u ∈ completeAllTokens st now tokenId shift) (hs : u.status ≠ Status.completed) :
    u ∈ st.tokens ∧ u.id ≠ tokenId ∧ u.shift = shift ∧ inDay (getDayBounds now) u = true := by
  rw [completeAllTokens_eq_map, List.mem_map] at hu
  obtain ⟨x, hx, hxu⟩ := hu
  by_cases h : x.id = tokenId
  · rw [if_pos h] at hxu
    subst hxu
    exact absurd rfl hs
  · rw [if_neg h] at hxu
    subst hxu
    have := mem_findSorted.mp hx
    exact ⟨this.1, h, this.2.1, this.2.2⟩

theorem mem_completeMissedIds {st : State} {now tokenId : Nat} {shift : Shift} {i : Nat}
    (hi : i ∈ completeMissedIds st now tokenId shift) :
    ∃ u ∈ st.tokens, u.id = i ∧ u.status = Status.pending ∧ u.id ≠ tokenId ∧
      u.shift = shift ∧ inDay (getDayBounds now) u = true := by
  unfold completeMissedIds at hi
  rw [List.mem_map] at hi
  obtain ⟨u, hu, hui⟩ := hi
  rw [List.mem_filter] at hu
  have hp : u.status = Status.pending := by simpa using hu.2
  have hmem := mem_completeAllTokens (List.mem_of_mem_take hu.1) (by rw [hp]; decide)
  exact ⟨u, hmem.1, hui, hp, hmem.2.1, hmem.2.2.1, hmem.2.2.2⟩

theorem completeNextToken_some {st : State} {now tokenId : Nat} {shift : Shift} {n : Token}
    (hn : completeNextToken st now tokenId shift = some n) :
    n ∈ st.tokens ∧ (n.status = Status.pending ∨ n.status = Status.serving) ∧
      n.id ≠ tokenId ∧ n.shift = shift ∧ inDay (getDayBounds now) n = true := by
  unfold completeNextToken at hn
  have hp := List.find?_some hn
  have hps : n.status = Status.pending ∨ n.status = Status.serving := by simpa using hp
  have hmem := mem_completeAllTokens (List.mem_of_mem_drop (List.mem_of_find?_eq_some hn))
    (by rcases hps with h | h <;> rw [h] <;> decide)
  exact ⟨hmem.1, hps, hmem.2.1, hmem.2.2.1, hmem.2.2.2⟩

/-! ### The position of the completed token -/

theorem findIndex_split (p : Token → Bool) (pre post : List Token) (t : Token)
    (hpre : ∀ u ∈ pre, p u = false) (ht : p t = true) :
    findIndex p (pre ++ t :: post) = (pre.length : Int) := by
  have h : (pre ++ t :: post).findIdx p = pre.length := by
    rw [List.findIdx_append, List.findIdx_eq_length_of_false hpre]
    simp [List.findIdx_cons, ht]
  unfold findIndex
  rw [h]
  simp

/-- Facts about the split of the sorted list of a ledger with unique ids at the token `T`. -/
theorem split_ids {l pre post : List Token} {T : Token} (hu : UniqueIds l)
    (hsplit : l = pre ++ T :: post) :
    (∀ u ∈ pre, u.id ≠ T.id) ∧ (∀ u ∈ post, u.id ≠ T.id) ∧
      (∀ u ∈ pre, ∀ v ∈ post, u.id ≠ v.id) := by
  unfold UniqueIds at hu
  rw [hsplit, List.map_append, List.map_cons, List.nodup_append, List.nodup_cons] at hu
  obtain ⟨_, ⟨hT, _⟩, hdis⟩ := hu
  refine ⟨?_, ?_, ?_⟩
  · intro u hup h
    exact hdis (List.mem_map_of_mem (fun t => t.id) hup) (by rw [h]; exact List.mem_cons_self _ _)
  · intro u hup h
    exact hT (by rw [← h]; exact List.mem_map_of_mem (fun t => t.id) hup)
  · intro u hup v hvp h
    exact hdis (List.mem_map_of_mem (fun t => t.id) hup)
      (by rw [h]; exact List.mem_cons_of_mem _ (List.mem_map_of_mem (fun t => t.id) hvp))

theorem completeAllTokens_split {st : State} {now tokenId : Nat} {T : Token}
    {pre post : List Token} (hu : UniqueIds st.tokens)
    (hfind : findById st.tokens tokenId = some T)
    (hsplit : findSorted st.tokens (getDayBounds now) T.shift = pre ++ T :: post) :
    completeAllTokens st now tokenId T.shift = pre ++ setCompleted now T :: post ∧
      completeIndex st now tokenId T.shift = (pre.length : Int) := by
  have hid := (findById_some hfind).2
  have hs := split_ids (uniqueIds_findSorted hu (getDayBounds now) T.shift) hsplit
  have hall : completeAllTokens st now tokenId T.shift = pre ++ setCompleted now T :: post := by
    rw [completeAllTokens_eq_map, hsplit, List.map_append, List.map_cons, if_pos hid]
    congr 1
    · conv_rhs => rw [← List.map_id pre]
      apply List.map_congr_left
      intro u hup
      rw [if_neg (by rw [← hid]; exact hs.1 u hup)]; rfl
    · congr 1
      conv_rhs => rw [← List.map_id post]
      apply List.map_congr_left
      intro u hup
      rw [if_neg (by rw [← hid]; exact hs.2.1 u hup)]; rfl
  refine ⟨hall, ?_⟩
  unfold completeIndex
  rw [hall]
  apply findIndex_split
  · intro u hup
    simpa using (by rw [← hid]; exact hs.1 u hup : u.id ≠ tokenId)
  · simpa [setCompleted] using hid

theorem completeMissedIds_split {st : State} {now tokenId : Nat} {T : Token}
    {pre post : List Token} (hu : UniqueIds st.tokens)
    (hfind : findById st.tokens tokenId = some T)
    (hsplit : findSorted st.tokens (getDayBounds now) T.shift = pre ++ T :: post) :
    completeMissedIds st now tokenId T.shift =
      (pre.filter (fun t => decide (t.status = Status.pending))).map (fun t => t.id) := by
  obtain ⟨hall, hidx⟩ := completeAllTokens_split hu hfind hsplit
  unfold completeMissedIds
  rw [hidx, hall, Int.toNat_ofNat, List.take_left' rfl]

theorem completeNextToken_split {st : State} {now tokenId : Nat} {T : Token}
    {pre post : List Token} (hu : UniqueIds st.tokens)
    (hfind : findById st.tokens tokenId = some T)
    (hsplit : findSorted st.tokens (getDayBounds now) T.shift = pre ++ T :: post) :
    completeNextToken st now tokenId T.shift =
      post.find? (fun t => decide (t.status = Status.pending) ||
        decide (t.status = Status.serving)) := by
  obtain ⟨hall, hidx⟩ := completeAllTokens_split hu hfind hsplit
  unfold completeNextToken
  rw [hidx, hall]
  have h1 : ((pre.length : Int) + 1).toNat = pre.length + 1 := by omega
  have h2 : pre ++ setCompleted now T :: post = (pre ++ [setCompleted now T]) ++ post := by simp
  rw [h1, h2, List.drop_left' (by simp)]

/-- What `markComplete` makes of a document that precedes the completed one in the order. -/
theorem completeMap_pre {st : State} {now tokenId : Nat} {T : Token}
    {pre post : List Token} (hu : UniqueIds st.tokens)
    (hfind : findById st.tokens tokenId = some T)
    (hsplit : findSorted st.tokens (getDayBounds now) T.shift = pre ++ T :: post)
    {u : Token} (hup : u ∈ pre) :
    completeMap now tokenId
        ((pre.filter (fun t => decide (t.status = Status.pending))).map (fun t => t.id))
        ((post.find? (fun t => decide (t.status = Status.pending) ||
          decide (t.status = Status.serving))).map (fun t => t.id)) u =
      if u.status = Status.pending then setMissed now u else u := by
  have hid := (findById_some hfind).2
  have hsu := uniqueIds_findSorted hu (getDayBounds now) T.shift
  have hs := split_ids hsu hsplit
  have h1 : ¬ u.id = tokenId := by rw [← hid]; exact hs.1 u hup
  have h3 : ¬ some u.id = (post.find? (fun t => decide (t.status = Status.pending) ||
      decide (t.status = Status.serving))).map (fun t => t.id) := by
    intro h
    cases hn : post.find? (fun t => decide (t.status = Status.pending) ||
        decide (t.status = Status.serving)) with
    | none => rw [hn] at h; simp at h
    | some n =>
      rw [hn] at h
      simp only [Option.map_some', Option.some.injEq] at h
      exact hs.2.2 u hup n (List.mem_of_find?_eq_some hn) h
  have h2 : u.id ∈ (pre.filter (fun t => decide (t.status = Status.pending))).map
      (fun t => t.id) ↔ u.status = Status.pending := by
    constructor
    · intro h
      rw [List.mem_map] at h
      obtain ⟨v, hv, hvu⟩ := h
      rw [List.mem_filter] at hv
      have hmv : v ∈ findSorted st.tokens (getDayBounds now) T.shift := by
        rw [hsplit]; exact List.mem_append_left _ hv.1
      have hmu : u ∈ findSorted st.tokens (getDayBounds now) T.shift := by
        rw [hsplit]; exact List.mem_append_left _ hup
      have : v = u := hsu.eq_of_id hmv hmu hvu
      subst this
      simpa using hv.2
    · intro h
      have hf : u ∈ pre.filter (fun t => decide (t.status = Status.pending)) :=
        List.mem_filter.mpr ⟨hup, by simpa using h⟩
      exact List.mem_map_of_mem (fun t => t.id) hf
  unfold completeMap
  simp only [if_neg h1, if_neg h3]
  by_cases hp : u.status = Status.pending
  · rw [if_pos (h2.mpr hp), if_pos hp]
  · rw [if_neg (fun h => hp (h2.mp h)), if_neg hp]

/-! ## The branches of `generateToken` -/

/-- The handler `generateToken`, written with the named intermediate values. -/
theorem generateToken_eq (st : State) (now patientId : Nat) (shift : Shift)
    (isEmergency : Bool) :
    generateToken st now patientId (some shift) isEmergency =
      match existingToken st.tokens now patientId shift with
      | some existing =>
        if existing.status = Status.missed then
          (Response.msg 400
            "You missed your token for this shift. Cannot generate a new token.", st)
        else (Response.msg 400 "You already have a token for this shift today", st)
      | none =>
        if isEmergency = true ∧ (existingEmergency st.tokens now patientId).isSome = true then
          (Response.msg 400 "You already have an emergency token today", st)
        else if isEmergency = false ∧
            capacity st.config shift ≤ (regularCount st.tokens now shift : Int) then
          (capacityResponse st.config shift, st)
        else
          (issueResponse st now patientId shift isEmergency,
            issueState st now patientId shift isEmergency) := by
  unfold generateToken existingToken
  dsimp only
  cases h1 : List.find? (fun t => decide (t.patientId = patientId) && decide (t.shift = shift) &&
      inDay (getDayBounds now) t) st.tokens with
  | some ex => rfl
  | none =>
    dsimp only
    unfold existingEmergency capacityResponse capacity regularCount issueResponse issueState
      newToken
    dsimp only
    generalize List.find? (fun t : Token => decide (t.status = Status.serving)) _ = cs
    generalize List.find? (fun t : Token => decide (t.status = Status.pending)) _ = fp
    cases cs <;> cases fp <;> split_ifs <;> rfl

/-- Either `generateToken` refuses and leaves the state as it is, or all three guards pass and
the state is `issueState`. -/
theorem generateToken_cases (st : State) (now patientId : Nat) (shift : Shift)
    (isEmergency : Bool) :
    ((generateToken st now patientId (some shift) isEmergency).1.status = 400 ∧
      (generateToken st now patientId (some shift) isEmergency).2 = st) ∨
    (existingToken st.tokens now patientId shift = none ∧
      (isEmergency = true → existingEmergency st.tokens now patientId = none) ∧
      (isEmergency = false → (regularCount st.tokens now shift : Int) < capacity st.config shift) ∧
      generateToken st now patientId (some shift) isEmergency =
        (issueResponse st now patientId shift isEmergency,
          issueState st now patientId shift isEmergency)) := by
  rw [generateToken_eq]
  cases h1 : existingToken st.tokens now patientId shift with
  | some ex =>
    left
    dsimp only
    split_ifs <;> exact ⟨rfl, rfl⟩
  | none =>
    dsimp only
    split_ifs with h2 h3
    · left; exact ⟨rfl, rfl⟩
    · left; exact ⟨rfl, rfl⟩
    · right
      refine ⟨rfl, ?_, ?_, rfl⟩
      · intro he
        cases hx : existingEmergency st.tokens now patientId with
        | none => rfl
        | some x => exact absurd ⟨he, by rw [hx]; rfl⟩ h2
      · intro he
        by_contra hlt
        exact h3 ⟨he, not_lt.mp hlt⟩

theorem freshId_gt (l : List Token) : ∀ t ∈ l, t.id < freshId l := by
  induction l with
  | nil => intro t ht; cases ht
  | cons a l ih =>
    intro t ht
    have hstep : freshId (a :: l) = max a.id (freshId l - 1) + 1 := by
      simp [freshId]
    rw [hstep]
    rcases List.mem_cons.mp ht with h | h
    · subst h; omega
    · have := ih t h; omega

theorem uniqueIds_append_new {st : State} (hu : UniqueIds st.tokens) (now patientId : Nat)
    (shift : Shift) (isEmergency : Bool) :
    UniqueIds (st.tokens ++ [newToken st now patientId shift isEmergency]) := by
  unfold UniqueIds at *
  rw [List.map_append, List.nodup_append]
  refine ⟨hu, by simp, ?_⟩
  intro a ha hb
  rw [List.mem_map] at ha
  obtain ⟨t, ht, hta⟩ := ha
  have hlt := freshId_gt st.tokens t ht
  simp only [List.map_cons, List.map_nil, List.mem_singleton] at hb
  have hn : (newToken st now patientId shift isEmergency).id = freshId st.tokens := rfl
  omega

/-- The ledger of `issueState`: the new document is appended and at most one pending document
of the shift is promoted, and only when no document of the shift is serving. -/
theorem issueState_tokens (st : State) (now patientId : Nat) (shift : Shift)
    (isEmergency : Bool) :
    ((issueState st now patientId shift isEmergency).tokens =
        st.tokens ++ [newToken st now patientId shift isEmergency] ∧
      (issueState st now patientId shift isEmergency).config = st.config) ∨
    (∃ fp, fp ∈ st.tokens ++ [newToken st now patientId shift isEmergency] ∧
      fp.status = Status.pending ∧ fp.shift = shift ∧ inDay (getDayBounds now) fp = true ∧
      (∀ t ∈ st.tokens ++ [newToken st now patientId shift isEmergency],
        t.shift = shift → inDay (getDayBounds now) t = true → t.status ≠ Status.serving) ∧
      (issueState st now patientId shift isEmergency).tokens =
        (st.tokens ++ [newToken st now patientId shift isEmergency]).map
          (fun t => if t.id = fp.id then setServing t else t) ∧
      (issueState st now patientId shift isEmergency).config =
        { st.config with currentTokenId := some fp.id, lastUpdated := now }) := by
  unfold issueState
  dsimp only
  cases hs : List.find? (fun t => decide (t.status = Status.serving))
      (findSorted (st.tokens ++ [newToken st now patientId shift isEmergency])
        (getDayBounds now) shift) with
  | some x => left; exact ⟨rfl, rfl⟩
  | none =>
    cases hp : List.find? (fun t => decide (t.status = Status.pending))
        (findSorted (st.tokens ++ [newToken st now patientId shift isEmergency])
          (getDayBounds now) shift) with
    | none => left; exact ⟨rfl, rfl⟩
    | some fp =>
      right
      have hmem := mem_findSorted.mp (List.mem_of_find?_eq_some hp)
      refine ⟨fp, hmem.1, by simpa using List.find?_some hp, hmem.2.1, hmem.2.2, ?_, rfl, rfl⟩
      intro t ht hsh hd
      rw [List.find?_eq_none] at hs
      simpa using hs t (mem_findSorted.mpr ⟨ht, hsh, hd⟩)

/-! ## Steps and the creation-time fields -/

theorem map_core_of_keepsCore {g : Token → Token} (hg : KeepsCore g) (l : List Token) :
    (l.map g).map Token.core = l.map Token.core := by
  rw [List.map_map]
  apply List.map_congr_left
  intro t _
  exact hg t

theorem issueState_core (st : State) (now patientId : Nat) (shift : Shift)
    (isEmergency : Bool) :
    (issueState st now patientId shift isEmergency).tokens.map Token.core =
      st.tokens.map Token.core ++ [(newToken st now patientId shift isEmergency).core] := by
  rcases issueState_tokens st now patientId shift isEmergency with h | ⟨fp, _, _, _, _, _, h, _⟩
  · rw [h.1]; simp
  · rw [h, map_core_of_keepsCore (keepsCore_update fp.id _ keepsCore_setServing)]; simp

theorem markComplete_core (st : State) (now : Nat) (tokenId : Option Nat) :
    (markComplete st now tokenId).2.tokens.map Token.core = st.tokens.map Token.core := by
  cases tokenId with
  | none => rfl
  | some tid =>
    cases hfind : findById st.tokens tid with
    | none => simp [markComplete, hfind]
    | some T =>
      by_cases hst : T.status = Status.completed
      · simp [markComplete, hfind, hst]
      · rw [markComplete_tokens hfind hst]
        exact map_core_of_keepsCore (keepsCore_completeMap _ _ _ _) _

theorem pauseResume_tokens (st : State) (now : Nat) :
    (pauseResume st now).2.tokens = st.tokens := rfl

theorem updateConfig_tokens (st : State) (now : Nat) (m e : Option Int) :
    (updateConfig st now m e).2.tokens = st.tokens := by
  unfold updateConfig
  cases m <;> cases e <;> dsimp only <;> split_ifs <;> rfl

/-- A step keeps the creation-time fields of the ledger, or it is an accepted `generateToken`
that appends the new document. -/
theorem step_core (st : State) (op : Op) :
    (step st op).tokens.map Token.core = st.tokens.map Token.core ∨
    ∃ now patientId shift isEmergency, op = Op.generate now patientId (some shift) isEmergency ∧
      existingToken st.tokens now patientId shift = none ∧
      (isEmergency = true → existingEmergency st.tokens now patientId = none) ∧
      (isEmergency = false →
        (regularCount st.tokens now shift : Int) < capacity st.config shift) ∧
      (step st op).tokens.map Token.core =
        st.tokens.map Token.core ++ [(newToken st now patientId shift isEmergency).core] := by
  cases op with
  | generate now patientId shift isEmergency =>
    cases shift with
    | none => left; rfl
    | some shift =>
      rcases generateToken_cases st now patientId shift isEmergency with h | ⟨h1, h2, h3, h4⟩
      · left; show (generateToken st now patientId (some shift) isEmergency).2.tokens.map _ = _
        rw [h.2]
      · right
        refine ⟨now, patientId, shift, isEmergency, rfl, h1, h2, h3, ?_⟩
        show (generateToken st now patientId (some shift) isEmergency).2.tokens.map _ = _
        rw [h4]
        exact issueState_core st now patientId shift isEmergency
  | complete now tokenId => left; exact markComplete_core st now tokenId
  | pause now => left; rfl
  | configure now m e =>
    left
    show (updateConfig st now m e).2.tokens.map _ = _
    rw [updateConfig_tokens]

theorem countP_core {p : Token → Bool} (hp : ∀ t, p t.core = p t) (l : List Token) :
    (l.map Token.core).countP p = l.countP p := by
  rw [List.countP_map]
  congr 1
  funext t
  exact hp t

theorem filter_map_core {α : Type} {p : Token → Bool} {f : Token → α}
    (hp : ∀ t, p t.core = p t) (hf : ∀ t, f t.core = f t) (l : List Token) :
    ((l.map Token.core).filter p).map f = (l.filter p).map f := by
  rw [List.filter_map, List.map_map]
  have h1 : (p ∘ Token.core) = p := by funext t; exact hp t
  have h2 : (f ∘ Token.core) = f := by funext t; exact hf t
  rw [h1, h2]

/-- Induction over the states reachable from a given one. -/
theorem run_induction (P : State → Prop) (hstep : ∀ st op, P st → P (step st op)) :
    ∀ (ops : List Op) (st : State), P st → P (run st ops) := by
  intro ops
  induction ops with
  | nil => intro st h; exact h
  | cons op ops ih => intro st h; exact ih (step st op) (hstep st op h)

theorem existingToken_none_countP {l : List Token} {now patientId : Nat} {shift : Shift}
    (h : existingToken l now patientId shift = none) :
    l.countP (fun t => decide (t.patientId = patientId) && decide (t.shift = shift) &&
      inDay (getDayBounds now) t) = 0 := by
  unfold existingToken at h
  rw [List.find?_eq_none] at h
  rw [List.countP_eq_zero]
  exact h

theorem existingEmergency_none_countP {l : List Token} {now patientId : Nat}
    (h : existingEmergency l now patientId = none) :
    l.countP (fun t => decide (t.patientId = patientId) && t.isEmergency &&
      inDay (getDayBounds now) t) = 0 := by
  unfold existingEmergency at h
  rw [List.find?_eq_none] at h
  rw [List.countP_eq_zero]
  exact h

theorem inDay_congr {a b : Nat} (h : a / msPerDay = b / msPerDay) (t : Token) :
    inDay (getDayBounds a) t = inDay (getDayBounds b) t := by
  rw [inDay_getDayBounds, inDay_getDayBounds, h]

theorem inDay_newToken (st : State) (now patientId : Nat) (shift : Shift) (isEmergency : Bool)
    (a : Nat) :
    inDay (getDayBounds a) (newToken st now patientId shift isEmergency) =
      decide (now / msPerDay = a / msPerDay) := by
  rw [inDay_getDayBounds]; rfl

/-! ## Invariants of the reachable states -/

theorem countP_le_one_eq {p : Token → Bool} {l : List Token} (h : l.countP p ≤ 1)
    {a b : Token} (ha : a ∈ l) (hb : b ∈ l) (hpa : p a = true) (hpb : p b = true) : a = b := by
  rw [List.countP_eq_length_filter] at h
  have hma : a ∈ l.filter p := List.mem_filter.mpr ⟨ha, hpa⟩
  have hmb : b ∈ l.filter p := List.mem_filter.mpr ⟨hb, hpb⟩
  match hf : l.filter p with
  | [] => rw [hf] at hma; cases hma
  | [x] =>
    rw [hf] at hma hmb
    rw [List.mem_singleton.mp hma, List.mem_singleton.mp hmb]
  | x :: y :: r => rw [hf] at h; simp at h

theorem step_onePerShift (st : State) (op : Op) (h : OnePerShift st.tokens) :
    OnePerShift (step st op).tokens := by
  intro p s a
  have hp : ∀ t : Token, (fun t : Token => decide (t.patientId = p) && decide (t.shift = s) &&
      inDay (getDayBounds a) t) t.core = (fun t : Token => decide (t.patientId = p) &&
      decide (t.shift = s) && inDay (getDayBounds a) t) t := fun _ => rfl
  rcases step_core st op with hc | ⟨now, p0, s0, e, _, hex, _, _, hc⟩
  · rw [← countP_core hp, hc, countP_core hp]
    exact h p s a
  · rw [← countP_core hp, hc, List.countP_append, countP_core hp]
    by_cases hn : (decide ((newToken st now p0 s0 e).patientId = p) &&
        decide ((newToken st now p0 s0 e).shift = s) &&
        inDay (getDayBounds a) (newToken st now p0 s0 e)) = true
    · have hn' := hn
      simp only [Bool.and_eq_true, decide_eq_true_eq] at hn'
      obtain ⟨⟨hp0, hs0⟩, hd⟩ := hn'
      rw [inDay_newToken] at hd
      have hday : now / msPerDay = a / msPerDay := by simpa using hd
      have hz := existingToken_none_countP hex
      have hp1 : (newToken st now p0 s0 e).patientId = p0 := rfl
      have hs1 : (newToken st now p0 s0 e).shift = s0 := rfl
      rw [hp1] at hp0
      rw [hs1] at hs0
      subst hp0 hs0
      have hcongr : (fun t : Token => decide (t.patientId = p0) && decide (t.shift = s0) &&
          inDay (getDayBounds a) t) = (fun t : Token => decide (t.patientId = p0) &&
          decide (t.shift = s0) && inDay (getDayBounds now) t) := by
        funext t; rw [inDay_congr hday.symm t]
      rw [hcongr, hz]
      simp only [zero_add]
      exact List.countP_le_length _
    · have : List.countP (fun t : Token => decide (t.patientId = p) && decide (t.shift = s) &&
          inDay (getDayBounds a) t) [(newToken st now p0 s0 e).core] = 0 := by
        rw [List.countP_eq_zero]
        intro t ht
        rw [List.mem_singleton.mp ht]
        exact hn
      rw [this]
      exact h p s a

theorem step_oneEmergencyPerDay (st : State) (op : Op) (h : OneEmergencyPerDay st.tokens) :
    OneEmergencyPerDay (step st op).tokens := by
  intro p a
  have hp : ∀ t : Token, (fun t : Token => decide (t.patientId = p) && t.isEmergency &&
      inDay (getDayBounds a) t) t.core = (fun t : Token => decide (t.patientId = p) &&
      t.isEmergency && inDay (getDayBounds a) t) t := fun _ => rfl
  rcases step_core st op with hc | ⟨now, p0, s0, e, _, _, hem, _, hc⟩
  · rw [← countP_core hp, hc, countP_core hp]
    exact h p a
  · rw [← countP_core hp, hc, List.countP_append, countP_core hp]
    by_cases hn : (decide ((newToken st now p0 s0 e).patientId = p) &&
        (newToken st now p0 s0 e).isEmergency &&
        inDay (getDayBounds a) (newToken st now p0 s0 e)) = true
    · have hn' := hn
      simp only [Bool.and_eq_true, decide_eq_true_eq] at hn'
      obtain ⟨⟨hp0, he0⟩, hd⟩ := hn'
      rw [inDay_newToken] at hd
      have hday : now / msPerDay = a / msPerDay := by simpa using hd
      have he1 : (newToken st now p0 s0 e).isEmergency = e := rfl
      rw [he1] at he0
      have hz := existingEmergency_none_countP (hem he0)
      have hp1 : (newToken st now p0 s0 e).patientId = p0 := rfl
      rw [hp1] at hp0
      subst hp0
      have hcongr : (fun t : Token => decide (t.patientId = p0) && t.isEmergency &&
          inDay (getDayBounds a) t) = (fun t : Token => decide (t.patientId = p0) &&
          t.isEmergency && inDay (getDayBounds now) t) := by
        funext t; rw [inDay_congr hday.symm t]
      rw [hcongr, hz]
      simp only [zero_add]
      exact List.countP_le_length _
    · have : List.countP (fun t : Token => decide (t.patientId = p) && t.isEmergency &&
          inDay (getDayBounds a) t) [(newToken st now p0 s0 e).core] = 0 := by
        rw [List.countP_eq_zero]
        intro t ht
        rw [List.mem_singleton.mp ht]
        exact hn
      rw [this]
      exact h p a

theorem reachable_onePerShift (ops : List Op) : OnePerShift (run State.empty ops).tokens :=
  run_induction (fun st => OnePerShift st.tokens) step_onePerShift ops State.empty
    (fun _ _ _ => Nat.zero_le _)

theorem reachable_oneEmergencyPerDay (ops : List Op) :
    OneEmergencyPerDay (run State.empty ops).tokens :=
  run_induction (fun st => OneEmergencyPerDay st.tokens) step_oneEmergencyPerDay ops
    State.empty (fun _ _ => Nat.zero_le _)

theorem findById_append_new {g : Token → Token} (hg : KeepsCore g) {l : List Token}
    {n : Token} (hn : ∀ t ∈ l, t.id ≠ n.id) :
    findById ((l ++ [n]).map g) n.id = some (g n) := by
  unfold findById
  rw [List.find?_map, List.find?_append]
  have h1 : l.find? ((fun t : Token => decide (t.id = n.id)) ∘ g) = none := by
    rw [List.find?_eq_none]
    intro t ht
    simpa [hg.id_eq] using hn t ht
  rw [h1]
  simp [hg.id_eq]

/-- The document stored by an accepted `generateToken` keeps its creation-time fields and is
pending or serving. -/
theorem findById_issueState (st : State) (now patientId : Nat) (shift : Shift)
    (isEmergency : Bool) :
    ∃ stored, findById (issueState st now patientId shift isEmergency).tokens
        (newToken st now patientId shift isEmergency).id = some stored ∧
      stored.core = (newToken st now patientId shift isEmergency).core ∧
      (stored.status = Status.pending ∨ stored.status = Status.serving) := by
  have hn : ∀ t ∈ st.tokens, t.id ≠ (newToken st now patientId shift isEmergency).id := by
    intro t ht
    have := freshId_gt st.tokens t ht
    have hid : (newToken st now patientId shift isEmergency).id = freshId st.tokens := rfl
    omega
  rcases issueState_tokens st now patientId shift isEmergency with h | ⟨fp, _, _, _, _, _, h, _⟩
  · have := findById_append_new keepsCore_id hn
    rw [List.map_id'] at this
    rw [h.1]
    exact ⟨_, this, rfl, Or.inl rfl⟩
  · rw [h]
    refine ⟨_, findById_append_new (keepsCore_update fp.id _ keepsCore_setServing) hn,
      keepsCore_update fp.id _ keepsCore_setServing _, ?_⟩
    by_cases hfp : (newToken st now patientId shift isEmergency).id = fp.id
    · rw [if_pos hfp]; exact Or.inr rfl
    · rw [if_neg hfp]; exact Or.inl rfl

theorem issueState_length (st : State) (now patientId : Nat) (shift : Shift)
    (isEmergency : Bool) :
    (issueState st now patientId shift isEmergency).tokens.length = st.tokens.length + 1 := by
  have h := congrArg List.length (issueState_core st now patientId shift isEmergency)
  simpa using h

/-! ## Dense numbering within one day -/

theorem dense_append {α : Type} (f : Nat → α) (xs : List α)
    (h : xs = (List.range xs.length).map f) :
    xs ++ [f xs.length] = (List.range (xs ++ [f xs.length]).length).map f := by
  rw [List.length_append, List.length_singleton, List.range_succ, List.map_append, ← h]
  rfl

theorem filter_core_append {α : Type} {p : Token → Bool} {f : Token → α}
    (hp : ∀ t, p t.core = p t) (hf : ∀ t, f t.core = f t) {l l' : List Token} {n : Token}
    (h : l'.map Token.core = l.map Token.core ++ [n.core]) :
    (l'.filter p).map f = (l.filter p).map f ++ (if p n = true then [f n] else []) := by
  rw [← filter_map_core hp hf l', h, List.filter_append, List.map_append,
    filter_map_core hp hf l]
  congr 1
  by_cases hn : p n = true
  · rw [if_pos hn, List.filter_cons_of_pos (by rw [hp]; exact hn)]
    simp [hf]
  · rw [if_neg hn, List.filter_cons_of_neg (by rw [hp]; exact hn)]
    rfl

theorem filter_core_eq {α : Type} {p : Token → Bool} {f : Token → α}
    (hp : ∀ t, p t.core = p t) (hf : ∀ t, f t.core = f t) {l l' : List Token}
    (h : l'.map Token.core = l.map Token.core) :
    (l'.filter p).map f = (l.filter p).map f := by
  rw [← filter_map_core hp hf l', h, filter_map_core hp hf l]

theorem allInDay_of_core (d : Nat) {l l' : List Token}
    (h : ∀ t ∈ l', ∃ u, (u ∈ l ∨ u.date / msPerDay = d) ∧ u.core = t.core)
    (hl : AllInDay d l) : AllInDay d l' := by
  intro t ht
  obtain ⟨u, hu, hut⟩ := h t ht
  have hd0 := congrArg Token.date hut
  have hd : u.date = t.date := hd0
  rw [← hd]
  rcases hu with hu | hu
  · exact hl u hu
  · exact hu

theorem todayRegular_eq {l : List Token} {now : Nat} (hl : AllInDay (now / msPerDay) l)
    (shift : Shift) :
    l.filter (fun t => decide (t.shift = shift) && !t.isEmergency &&
      inDay (getDayBounds now) t) =
    l.filter (fun t => decide (t.shift = shift) && !t.isEmergency) := by
  apply List.filter_congr
  intro t ht
  rw [inDay_getDayBounds, hl t ht]
  simp

theorem todayEmergency_eq {l : List Token} {now : Nat} (hl : AllInDay (now / msPerDay) l)
    (shift : Shift) :
    l.filter (fun t => decide (t.shift = shift) && t.isEmergency &&
      inDay (getDayBounds now) t) =
    l.filter (fun t => decide (t.shift = shift) && t.isEmergency) := by
  apply List.filter_congr
  intro t ht
  rw [inDay_getDayBounds, hl t ht]
  simp

theorem newToken_regular_number {st : State} {now : Nat}
    (hl : AllInDay (now / msPerDay) st.tokens) (patientId : Nat) (shift : Shift) :
    (newToken st now patientId shift false).tokenNumber =
      toString ((regularNumbers st.tokens shift).length + 1) := by
  unfold newToken regularNumbers
  simp only [Bool.false_eq_true, if_false, List.length_map]
  rw [todayRegular_eq hl]

theorem newToken_emergency_number {st : State} {now : Nat}
    (hl : AllInDay (now / msPerDay) st.tokens) (patientId : Nat) (shift : Shift) :
    (newToken st now patientId shift true).emergencyNumber =
        some ((emergencyNumbers st.tokens shift).length + 1) ∧
      (newToken st now patientId shift true).tokenNumber =
        "E-" ++ toString ((emergencyLabels st.tokens shift).length + 1) := by
  unfold newToken emergencyNumbers emergencyLabels
  simp only [if_true, List.length_map]
  rw [todayEmergency_eq hl]
  exact ⟨rfl, rfl⟩

theorem step_dense (st : State) (op : Op) (hday : AllInDay (op.now / msPerDay) st.tokens)
    (h : Dense st.tokens) :
    AllInDay (op.now / msPerDay) (step st op).tokens ∧ Dense (step st op).tokens := by
  have hpr : ∀ (s : Shift) (t : Token), (fun t : Token => decide (t.shift = s) &&
      !t.isEmergency) t.core = (fun t : Token => decide (t.shift = s) && !t.isEmergency) t :=
    fun _ _ => rfl
  have hpe : ∀ (s : Shift) (t : Token), (fun t : Token => decide (t.shift = s) &&
      t.isEmergency) t.core = (fun t : Token => decide (t.shift = s) && t.isEmergency) t :=
    fun _ _ => rfl
  have hfn : ∀ t : Token, (fun t : Token => t.tokenNumber) t.core =
      (fun t : Token => t.tokenNumber) t := fun _ => rfl
  have hfe : ∀ t : Token, (fun t : Token => t.emergencyNumber) t.core =
      (fun t : Token => t.emergencyNumber) t := fun _ => rfl
  rcases step_core st op with hc | ⟨now, p0, s0, e, hop, _, _, _, hc⟩
  · constructor
    · apply allInDay_of_core _ _ hday
      intro t ht
      have : t.core ∈ st.tokens.map Token.core := by
        rw [← hc]; exact List.mem_map_of_mem Token.core ht
      rw [List.mem_map] at this
      obtain ⟨u, hu, hut⟩ := this
      exact ⟨u, Or.inl hu, hut⟩
    · intro s
      have h1 : regularNumbers (step st op).tokens s = regularNumbers st.tokens s :=
        filter_core_eq (hpr s) hfn hc
      have h2 : emergencyNumbers (step st op).tokens s = emergencyNumbers st.tokens s :=
        filter_core_eq (hpe s) hfe hc
      have h3 : emergencyLabels (step st op).tokens s = emergencyLabels st.tokens s :=
        filter_core_eq (hpe s) hfn hc
      rw [h1, h2, h3]
      exact h s
  · have hnow : op.now = now := by rw [hop]; rfl
    rw [hnow] at hday ⊢
    constructor
    · apply allInDay_of_core _ _ hday
      intro t ht
      have : t.core ∈ st.tokens.map Token.core ++ [(newToken st now p0 s0 e).core] := by
        rw [← hc]; exact List.mem_map_of_mem Token.core ht
      rw [List.mem_append, List.mem_map, List.mem_singleton] at this
      rcases this with ⟨u, hu, hut⟩ | hn
      · exact ⟨u, Or.inl hu, hut⟩
      · exact ⟨newToken st now p0 s0 e, Or.inr rfl, hn.symm⟩
    · intro s
      have h1 : regularNumbers (step st op).tokens s = regularNumbers st.tokens s ++
          (if (decide ((newToken st now p0 s0 e).shift = s) &&
            !(newToken st now p0 s0 e).isEmergency) = true
           then [(newToken st now p0 s0 e).tokenNumber] else []) :=
        filter_core_append (hpr s) hfn hc
      have h2 : emergencyNumbers (step st op).tokens s = emergencyNumbers st.tokens s ++
          (if (decide ((newToken st now p0 s0 e).shift = s) &&
            (newToken st now p0 s0 e).isEmergency) = true
           then [(newToken st now p0 s0 e).emergencyNumber] else []) :=
        filter_core_append (hpe s) hfe hc
      have h3 : emergencyLabels (step st op).tokens s = emergencyLabels st.tokens s ++
          (if (decide ((newToken st now p0 s0 e).shift = s) &&
            (newToken st now p0 s0 e).isEmergency) = true
           then [(newToken st now p0 s0 e).tokenNumber] else []) :=
        filter_core_append (hpe s) hfn hc
      have hsh : (newToken st now p0 s0 e).shift = s0 := rfl
      have hem : (newToken st now p0 s0 e).isEmergency = e := rfl
      rw [hsh, hem] at h1 h2 h3
      obtain ⟨d1, d2, d3⟩ := h s
      rw [h1, h2, h3]
      by_cases hs : s0 = s
      · subst hs
        cases e with
        | false =>
          simp only [decide_True, Bool.not_false, Bool.and_self, if_true, Bool.and_false,
            Bool.false_eq_true, if_false, List.append_nil]
          refine ⟨?_, d2, d3⟩
          rw [newToken_regular_number hday]
          exact dense_append (fun i => toString (i + 1)) _ d1
        | true =>
          simp only [decide_True, Bool.not_true, Bool.and_false, Bool.false_eq_true, if_false,
            List.append_nil, Bool.and_self, if_true]
          refine ⟨d1, ?_, ?_⟩
          · rw [(newToken_emergency_number hday p0 s0).1]
            exact dense_append (fun i => some (i + 1)) _ d2
          · rw [(newToken_emergency_number hday p0 s0).2]
            exact dense_append (fun i => "E-" ++ toString (i + 1)) _ d3
      · simp only [hs, decide_False, Bool.false_and, Bool.false_eq_true, if_false,
          List.append_nil]
        exact ⟨d1, d2, d3⟩

theorem run_dense (d : Nat) (ops : List Op) :
    ∀ st : State, (∀ op ∈ ops, op.now / msPerDay = d) → AllInDay d st.tokens →
      Dense st.tokens → AllInDay d (run st ops).tokens ∧ Dense (run st ops).tokens := by
  induction ops with
  | nil => intro st _ h1 h2; exact ⟨h1, h2⟩
  | cons op ops ih =>
    intro st hops h1 h2
    have hop : op.now / msPerDay = d := hops op (List.mem_cons_self _ _)
    have hs := step_dense st op (by rw [hop]; exact h1) h2
    rw [hop] at hs
    exact ih (step st op) (fun o ho => hops o (List.mem_cons_of_mem _ ho)) hs.1 hs.2

/-! ## The decimal rendering of a number determines it -/

theorem digitChar_value (k : Nat) (hk : k < 10) : (Nat.digitChar k).toNat - 48 = k := by
  interval_cases k <;> rfl

theorem digitsValue_toDigitsCore (fuel : Nat) :
    ∀ (n : Nat) (ds : List Char), n < fuel →
      digitsValue (Nat.toDigitsCore 10 fuel n ds) = n * 10 ^ ds.length + digitsValue ds := by
  induction fuel with
  | zero => intro n ds h; omega
  | succ fuel ih =>
    intro n ds h
    unfold Nat.toDigitsCore
    dsimp only
    by_cases h0 : n / 10 = 0
    · rw [if_pos h0]
      have hn : n < 10 := by omega
      show ((Nat.digitChar (n % 10)).toNat - 48) * 10 ^ ds.length + digitsValue ds = _
      rw [digitChar_value _ (Nat.mod_lt _ (by decide)), Nat.mod_eq_of_lt hn]
    · rw [if_neg h0, ih (n / 10) _ (by omega)]
      show n / 10 * 10 ^ (ds.length + 1) +
        (((Nat.digitChar (n % 10)).toNat - 48) * 10 ^ ds.length + digitsValue ds) = _
      rw [digitChar_value _ (Nat.mod_lt _ (by decide)), pow_succ]
      have hdm := Nat.div_add_mod n 10
      have : n / 10 * (10 ^ ds.length * 10) + (n % 10 * 10 ^ ds.length + digitsValue ds) =
          (10 * (n / 10) + n % 10) * 10 ^ ds.length + digitsValue ds := by ring
      rw [this, hdm]

theorem digitsValue_toString (n : Nat) : digitsValue (toString n).data = n := by
  show digitsValue (Nat.toDigitsCore 10 (n + 1) n []) = n
  rw [digitsValue_toDigitsCore (n + 1) n [] (by omega)]
  simp [digitsValue]

theorem toString_nat_injective : Function.Injective (fun n : Nat => toString n) := by
  intro a b h
  have h' : toString a = toString b := h
  rw [← digitsValue_toString a, ← digitsValue_toString b, h']

/-! ## What a step does to a stored document -/

/-- Under `markComplete`, a stored document other than the completed one that is neither
pending nor serving stays as it is. -/
theorem completeMap_other {st : State} {now tokenId : Nat} {shift : Shift} {t : Token}
    (hu : UniqueIds st.tokens) (ht : t ∈ st.tokens) (hid : t.id ≠ tokenId)
    (hp : t.status ≠ Status.pending) (hs : t.status ≠ Status.serving) :
    completeMap now tokenId (completeMissedIds st now tokenId shift)
      ((completeNextToken st now tokenId shift).map (fun t => t.id)) t = t := by
  have h2 : t.id ∉ completeMissedIds st now tokenId shift := by
    intro hm
    obtain ⟨u, hum, hui, hup, _⟩ := mem_completeMissedIds hm
    have : u = t := hu.eq_of_id hum ht hui
    subst this
    exact hp hup
  have h3 : ¬ some t.id = (completeNextToken st now tokenId shift).map (fun t => t.id) := by
    intro h
    cases hn : completeNextToken st now tokenId shift with
    | none => rw [hn] at h; cases h
    | some n =>
      rw [hn] at h
      have hni : t.id = n.id := Option.some.inj h
      obtain ⟨hnm, hns, _⟩ := completeNextToken_some hn
      have : n = t := hu.eq_of_id hnm ht hni.symm
      subst this
      rcases hns with h' | h'
      · exact hp h'
      · exact hs h'
  unfold completeMap
  simp only [if_neg hid, if_neg h2, if_neg h3]

/-- Under `markComplete`, the document with the requested id becomes the completed one. -/
theorem completeMap_self {st : State} {now tokenId : Nat} {shift : Shift} {t : Token}
    (hid : t.id = tokenId) :
    completeMap now tokenId (completeMissedIds st now tokenId shift)
      ((completeNextToken st now tokenId shift).map (fun t => t.id)) t = setCompleted now t := by
  have h2 : t.id ∉ completeMissedIds st now tokenId shift := by
    intro hm
    obtain ⟨u, _, hui, _, hne, _⟩ := mem_completeMissedIds hm
    exact hne (by rw [hui, hid])
  have h3 : ¬ some t.id = (completeNextToken st now tokenId shift).map (fun t => t.id) := by
    intro h
    cases hn : completeNextToken st now tokenId shift with
    | none => rw [hn] at h; cases h
    | some n =>
      rw [hn] at h
      have hni : t.id = n.id := Option.some.inj h
      obtain ⟨_, _, hne, _⟩ := completeNextToken_some hn
      exact hne (by rw [← hni, hid])
  unfold completeMap
  simp only [if_pos hid, if_neg h2, if_neg h3]

/-- An accepted `generateToken` leaves every stored document that is not pending as it is. -/
theorem findById_issueState_old {st : State} (hu : UniqueIds st.tokens) (now patientId : Nat)
    (shift : Shift) (isEmergency : Bool) {t : Token} (ht : t ∈ st.tokens)
    (hp : t.status ≠ Status.pending) :
    findById (issueState st now patientId shift isEmergency).tokens t.id = some t := by
  have hu' := uniqueIds_append_new hu now patientId shift isEmergency
  have ht' : t ∈ st.tokens ++ [newToken st now patientId shift isEmergency] :=
    List.mem_append_left _ ht
  rcases issueState_tokens st now patientId shift isEmergency with
    h | ⟨fp, hfm, hfp, _, _, _, h, _⟩
  · rw [h.1]; exact findById_of_mem hu' ht'
  · rw [h, findById_map (keepsCore_update fp.id _ keepsCore_setServing) hu' ht']
    have hne : t.id ≠ fp.id := by
      intro hid
      have : t = fp := hu'.eq_of_id ht' hfm hid
      rw [this] at hp
      exact hp hfp
    rw [if_neg hne]

/-! ## Rejections, the pointer and the pause flag -/

theorem markComplete_not_found {st : State} {now tokenId : Nat}
    (h : findById st.tokens tokenId = none) :
    markComplete st now (some tokenId) = (Response.msg 404 "Token not found", st) := by
  unfold markComplete
  simp only [h]

theorem markComplete_completed {st : State} {now tokenId : Nat} {T : Token}
    (h : findById st.tokens tokenId = some T) (hc : T.status = Status.completed) :
    markComplete st now (some tokenId) = (Response.msg 400 "Token already completed", st) := by
  unfold markComplete
  simp only [h, hc, if_true]

/-- Lookup of the first document with an id after an update of the mutable fields. -/
theorem findById_map_first {g : Token → Token} (hg : KeepsCore g) {l : List Token} {i : Nat}
    {T : Token} (h : findById l i = some T) : findById (l.map g) i = some (g T) := by
  unfold findById at *
  rw [List.find?_map]
  have hp : ((fun t : Token => decide (t.id = i)) ∘ g) = (fun t : Token => decide (t.id = i)) := by
    funext t
    simp only [Function.comp_apply, hg.id_eq]
  rw [hp, h]
  rfl

theorem markComplete_config {st : State} {now tokenId : Nat} {T : Token}
    (hfind : findById st.tokens tokenId = some T) (hst : T.status ≠ Status.completed) :
    (markComplete st now (some tokenId)).2.config =
      { st.config with
        currentTokenId := (completeNextToken st now tokenId T.shift).map (fun t => t.id),
        lastUpdated := now } := by
  rw [markComplete_eq hfind hst]
  cases completeNextToken st now tokenId T.shift <;> rfl

theorem markComplete_response {st : State} {now tokenId : Nat} {T : Token}
    (hfind : findById st.tokens tokenId = some T) (hst : T.status ≠ Status.completed) :
    (markComplete st now (some tokenId)).1 =
      { status := 200, message := "Token marked as completed",
        token := some (setCompleted now T),
        nextToken := (completeNextToken st now tokenId T.shift).map setServing,
        config := none, isPaused := none } := by
  rw [markComplete_eq hfind hst]
  cases completeNextToken st now tokenId T.shift <;> rfl

/-- The document `markComplete` promotes is stored as serving. -/
theorem completeMap_next_status {now tokenId : Nat} {missedIds : List Nat} {n : Token} :
    (completeMap now tokenId missedIds (some n.id) n).status = Status.serving := by
  unfold completeMap
  simp only [if_true]
  rfl

theorem updateConfig_pointer (st : State) (now : Nat) (m e : Option Int) :
    (updateConfig st now m e).2.config.currentTokenId = st.config.currentTokenId := by
  unfold updateConfig
  cases m <;> cases e <;> dsimp only <;> split_ifs <;> rfl

theorem step_pointerValid (st : State) (op : Op) (h : PointerValid st) :
    PointerValid (step st op) := by
  cases op with
  | generate now patientId shift isEmergency =>
    cases shift with
    | none => exact h
    | some shift =>
      show PointerValid (generateToken st now patientId (some shift) isEmergency).2
      rcases generateToken_cases st now patientId shift isEmergency with hr | ⟨_, _, _, hi⟩
      · rw [hr.2]; exact h
      · rw [hi]
        rcases issueState_tokens st now patientId shift isEmergency with
          ⟨ht, hc⟩ | ⟨fp, hfm, _, _, _, _, ht, hc⟩
        · intro i hi'
          rw [hc] at hi'
          obtain ⟨t, htm, hti, hts⟩ := h i hi'
          exact ⟨t, by rw [ht]; exact List.mem_append_left _ htm, hti, hts⟩
        · intro i hi'
          rw [hc] at hi'
          have hfi : fp.id = i := Option.some.inj hi'
          refine ⟨setServing fp, ?_, hfi, rfl⟩
          rw [ht, List.mem_map]
          exact ⟨fp, hfm, by rw [if_pos rfl]⟩
  | complete now tokenId =>
    show PointerValid (markComplete st now tokenId).2
    cases tokenId with
    | none => exact h
    | some tid =>
      cases hfind : findById st.tokens tid with
      | none => rw [markComplete_not_found hfind]; exact h
      | some T =>
        by_cases hst : T.status = Status.completed
        · rw [markComplete_completed hfind hst]; exact h
        · intro i hi'
          rw [markComplete_config hfind hst] at hi'
          cases hn : completeNextToken st now tid T.shift with
          | none => rw [hn] at hi'; cases hi'
          | some n =>
            rw [hn] at hi'
            have hni : n.id = i := Option.some.inj hi'
            rw [markComplete_tokens hfind hst, hn]
            refine ⟨completeMap now tid (completeMissedIds st now tid T.shift) (some n.id) n,
              List.mem_map_of_mem _ (completeNextToken_some hn).1, ?_, completeMap_next_status⟩
            rw [(keepsCore_completeMap _ _ _ _).id_eq, hni]
  | pause now => exact h
  | configure now m e =>
    intro i hi'
    have hp := updateConfig_pointer st now m e
    have ht := updateConfig_tokens st now m e
    show ∃ t ∈ (updateConfig st now m e).2.tokens, _
    rw [ht]
    exact h i (by rw [← hp]; exact hi')

theorem reachable_pointerValid (ops : List Op) : PointerValid (run State.empty ops) :=
  run_induction PointerValid step_pointerValid ops State.empty (fun _ hi => by cases hi)

theorem issueState_withPaused (b : Bool) (st : State) (now patientId : Nat) (shift : Shift)
    (isEmergency : Bool) :
    issueState (withPaused b st) now patientId shift isEmergency =
      withPaused b (issueState st now patientId shift isEmergency) := by
  unfold issueState
  have hn : newToken (withPaused b st) now patientId shift isEmergency =
      newToken st now patientId shift isEmergency := rfl
  have ht : (withPaused b st).tokens = st.tokens := rfl
  rw [hn, ht]
  dsimp only
  generalize List.find? (fun t : Token => decide (t.status = Status.serving)) _ = cs
  generalize List.find? (fun t : Token => decide (t.status = Status.pending)) _ = fp
  cases cs <;> cases fp <;> rfl

theorem generateToken_withPaused (b : Bool) (st : State) (now patientId : Nat)
    (shift : Option Shift) (isEmergency : Bool) :
    generateToken (withPaused b st) now patientId shift isEmergency =
      ((generateToken st now patientId shift isEmergency).1,
        withPaused b (generateToken st now patientId shift isEmergency).2) := by
  cases shift with
  | none => rfl
  | some shift =>
    rw [generateToken_eq, generateToken_eq]
    have ht : (withPaused b st).tokens = st.tokens := rfl
    have hc : capacity (withPaused b st).config shift = capacity st.config shift := rfl
    have hr : capacityResponse (withPaused b st).config shift =
        capacityResponse st.config shift := rfl
    have hi : issueResponse (withPaused b st) now patientId shift isEmergency =
        issueResponse st now patientId shift isEmergency := rfl
    rw [ht, hc, hr, hi, issueState_withPaused]
    cases existingToken st.tokens now patientId shift with
    | some ex => dsimp only; split_ifs <;> rfl
    | none => dsimp only; split_ifs <;> rfl

theorem markComplete_withPaused (b : Bool) (st : State) (now : Nat) (tokenId : Option Nat) :
    markComplete (withPaused b st) now tokenId =
      ((markComplete st now tokenId).1, withPaused b (markComplete st now tokenId).2) := by
  cases tokenId with
  | none => rfl
  | some tid =>
    have ht : (withPaused b st).tokens = st.tokens := rfl
    cases hfind : findById st.tokens tid with
    | none =>
      rw [markComplete_not_found hfind, markComplete_not_found (by rw [ht]; exact hfind)]
    | some T =>
      by_cases hst : T.status = Status.completed
      · rw [markComplete_completed hfind hst,
          markComplete_completed (by rw [ht]; exact hfind) hst]
      · have hfind' : findById (withPaused b st).tokens tid = some T := by rw [ht]; exact hfind
        rw [markComplete_eq hfind hst, markComplete_eq hfind' hst]
        have hn : completeNextToken (withPaused b st) now tid T.shift =
            completeNextToken st now tid T.shift := rfl
        have ha : completeAllTokens (withPaused b st) now tid T.shift =
            completeAllTokens st now tid T.shift := rfl
        have hi : completeIndex (withPaused b st) now tid T.shift =
            completeIndex st now tid T.shift := rfl
        rw [hn, ha, hi, ht]
        cases completeNextToken st now tid T.shift <;> rfl

/-- What `markComplete` makes of a document that follows the completed one in the order: the
first pending or serving one is promoted, every other one stays as it is. -/
theorem completeMap_post {st : State} {now tokenId : Nat} {T : Token}
    {pre post : List Token} (hu : UniqueIds st.tokens)
    (hfind : findById st.tokens tokenId = some T)
    (hsplit : findSorted st.tokens (getDayBounds now) T.shift = pre ++ T :: post)
    {u : Token} (hup : u ∈ post) :
    completeMap now tokenId
        ((pre.filter (fun t => decide (t.status = Status.pending))).map (fun t => t.id))
        ((post.find? (fun t => decide (t.status = Status.pending) ||
          decide (t.status = Status.serving))).map (fun t => t.id)) u =
      if post.find? (fun t => decide (t.status = Status.pending) ||
        decide (t.status = Status.serving)) = some u then setServing u else u := by
  have hid := (findById_some hfind).2
  have hsu := uniqueIds_findSorted hu (getDayBounds now) T.shift
  have hs := split_ids hsu hsplit
  have h1 : ¬ u.id = tokenId := by rw [← hid]; exact hs.2.1 u hup
  have h2 : u.id ∉ (pre.filter (fun t => decide (t.status = Status.pending))).map
      (fun t => t.id) := by
    intro h
    rw [List.mem_map] at h
    obtain ⟨v, hv, hvu⟩ := h
    exact hs.2.2 v (List.mem_filter.mp hv).1 u hup hvu
  have hmu : u ∈ findSorted st.tokens (getDayBounds now) T.shift := by
    rw [hsplit]; exact List.mem_append_right _ (List.mem_cons_of_mem _ hup)
  unfold completeMap
  simp only [if_neg h1, if_neg h2]
  cases hn : post.find? (fun t => decide (t.status = Status.pending) ||
      decide (t.status = Status.serving)) with
  | none => simp
  | some n =>
    have hmn : n ∈ findSorted st.tokens (getDayBounds now) T.shift := by
      rw [hsplit]
      exact List.mem_append_right _ (List.mem_cons_of_mem _ (List.mem_of_find?_eq_some hn))
    simp only [Option.map_some', Option.some.injEq]
    by_cases hnu : n = u
    · subst hnu; simp
    · have hne : ¬ u.id = n.id := fun h => hnu (hsu.eq_of_id hmn hmu h.symm)
      rw [if_neg hne, if_neg hnu]

/-- Under `markComplete`, a stored document other than the completed one that is not of the
shift of the completed token and of the day of the call stays as it is. -/
theorem completeMap_outside {st : State} {now tokenId : Nat} {shift : Shift} {t : Token}
    (hu : UniqueIds st.tokens) (ht : t ∈ st.tokens) (hid : t.id ≠ tokenId)
    (hout : ¬ (t.shift = shift ∧ inDay (getDayBounds now) t = true)) :
    completeMap now tokenId (completeMissedIds st now tokenId shift)
      ((completeNextToken st now tokenId shift).map (fun t => t.id)) t = t := by
  have h2 : t.id ∉ completeMissedIds st now tokenId shift := by
    intro hm
    obtain ⟨u, hum, hui, _, _, hsh, hd⟩ := mem_completeMissedIds hm
    have : u = t := hu.eq_of_id hum ht hui
    subst this
    exact hout ⟨hsh, hd⟩
  have h3 : ¬ some t.id = (completeNextToken st now tokenId shift).map (fun t => t.id) := by
    intro h
    cases hn : completeNextToken st now tokenId shift with
    | none => rw [hn] at h; cases h
    | some n =>
      rw [hn] at h
      have hni : t.id = n.id := Option.some.inj h
      obtain ⟨hnm, _, _, hsh, hd⟩ := completeNextToken_some hn
      have : n = t := hu.eq_of_id hnm ht hni.symm
      subst this
      exact hout ⟨hsh, hd⟩
  unfold completeMap
  simp only [if_neg hid, if_neg h2, if_neg h3]

theorem issueState_sameQueue (tokens : List Token) (m ev : Int) (p1 p2 : Bool)
    (c : Option Nat) (u1 u2 : Nat) (now patientId : Nat) (shift : Shift) (isEmergency : Bool) :
    issueResponse (State.mk tokens (DoctorConfig.mk m ev p1 c u1)) now patientId shift
        isEmergency =
      issueResponse (State.mk tokens (DoctorConfig.mk m ev p2 c u2)) now
        patientId shift isEmergency ∧
    SameQueue
      (issueState (State.mk tokens (DoctorConfig.mk m ev p1 c u1)) now patientId shift
        isEmergency)
      (issueState (State.mk tokens (DoctorConfig.mk m ev p2 c u2)) now patientId shift
        isEmergency) := by
  refine ⟨rfl, ?_⟩
  unfold issueState newToken
  dsimp only
  generalize List.find? (fun t : Token => decide (t.status = Status.serving)) _ = cs
  generalize List.find? (fun t : Token => decide (t.status = Status.pending)) _ = fp
  cases cs <;> cases fp <;> exact ⟨rfl, rfl, rfl, rfl⟩

/-- The handler `generateToken` does not look at the pause flag or at `lastUpdated`. -/
theorem generateToken_sameQueue {a b : State} (h : SameQueue a b) (now patientId : Nat)
    (shift : Option Shift) (isEmergency : Bool) :
    (generateToken a now patientId shift isEmergency).1 =
        (generateToken b now patientId shift isEmergency).1 ∧
      SameQueue (generateToken a now patientId shift isEmergency).2
        (generateToken b now patientId shift isEmergency).2 := by
  obtain ⟨tokens, ⟨m, ev, p1, c, u1⟩⟩ := a
  obtain ⟨tokens', ⟨m', ev', p2, c', u2⟩⟩ := b
  obtain ⟨h1, h2, h3, h4⟩ := h
  dsimp only at h1 h2 h3 h4
  subst h1 h2 h3 h4
  cases shift with
  | none => exact ⟨rfl, rfl, rfl, rfl, rfl⟩
  | some s =>
    rw [generateToken_eq, generateToken_eq]
    have hi := issueState_sameQueue tokens m ev p1 p2 c u1 u2 now patientId s isEmergency
    have hcap : capacity (DoctorConfig.mk m ev p1 c u1) s = capacity (DoctorConfig.mk m ev p2 c u2) s := rfl
    have hresp : capacityResponse (DoctorConfig.mk m ev p1 c u1) s = capacityResponse
        (DoctorConfig.mk m ev p2 c u2) s := rfl
    dsimp only
    rw [hcap, hresp]
    cases existingToken tokens now patientId s with
    | some ex => dsimp only; split_ifs <;> exact ⟨rfl, rfl, rfl, rfl, rfl⟩
    | none =>
      dsimp only
      split_ifs
      · exact ⟨rfl, rfl, rfl, rfl, rfl⟩
      · exact ⟨rfl, rfl, rfl, rfl, rfl⟩
      · exact hi

/-- The handler `markComplete` does not look at the pause flag or at `lastUpdated`. -/
theorem markComplete_sameQueue {a b : State} (h : SameQueue a b) (now : Nat)
    (tokenId : Option Nat) :
    (markComplete a now tokenId).1 = (markComplete b now tokenId).1 ∧
      SameQueue (markComplete a now tokenId).2 (markComplete b now tokenId).2 := by
  obtain ⟨tokens, ⟨m, ev, p1, c, u1⟩⟩ := a
  obtain ⟨tokens', ⟨m', ev', p2, c', u2⟩⟩ := b
  obtain ⟨h1, h2, h3, h4⟩ := h
  dsimp only at h1 h2 h3 h4
  subst h1 h2 h3 h4
  cases tokenId with
  | none => exact ⟨rfl, rfl, rfl, rfl, rfl⟩
  | some tid =>
    cases hfind : findById tokens tid with
    | none =>
      rw [markComplete_not_found (by exact hfind), markComplete_not_found (by exact hfind)]
      exact ⟨rfl, rfl, rfl, rfl, rfl⟩
    | some T =>
      by_cases hst : T.status = Status.completed
      · rw [markComplete_completed (by exact hfind) hst,
          markComplete_completed (by exact hfind) hst]
        exact ⟨rfl, rfl, rfl, rfl, rfl⟩
      · have ha : findById (State.mk tokens (DoctorConfig.mk m ev p1 c u1)).tokens tid = some T := hfind
        have hb : findById (State.mk tokens (DoctorConfig.mk m ev p2 c u2)).tokens tid = some T := hfind
        rw [markComplete_eq ha hst, markComplete_eq hb hst]
        have hn : completeNextToken (State.mk tokens (DoctorConfig.mk m ev p1 c u1))
            now tid T.shift = completeNextToken (State.mk tokens (DoctorConfig.mk m ev p2 c u2))
            now tid T.shift := rfl
        rw [hn]
        cases completeNextToken (State.mk tokens (DoctorConfig.mk m ev p2 c u2))
            now tid T.shift <;> exact ⟨rfl, rfl, rfl, rfl, rfl⟩

theorem sameQueue_pauseResume (st : State) (earlier : Nat) :
    SameQueue (pauseResume st earlier).2 st := ⟨rfl, rfl, rfl, rfl⟩

/-! ## Settled queues along time-ordered requests -/

theorem newToken_mem_findSorted (st : State) (now patientId : Nat) (shift : Shift)
    (isEmergency : Bool) :
    newToken st now patientId shift isEmergency ∈
      findSorted (st.tokens ++ [newToken st now patientId shift isEmergency])
        (getDayBounds now) shift := by
  rw [mem_findSorted]
  refine ⟨List.mem_append_right _ (List.mem_singleton.mpr rfl), rfl, ?_⟩
  rw [inDay_newToken]
  simp

/-- The two outcomes of the auto-assignment in an accepted `generateToken`: a stored token of
the shift is already serving and nothing but the new document is added, or no token of the
shift is serving and the first pending one is promoted. -/
theorem issueState_cases (st : State) (now patientId : Nat) (shift : Shift)
    (isEmergency : Bool) :
    ((∃ x ∈ st.tokens, x.shift = shift ∧ inDay (getDayBounds now) x = true ∧
        x.status = Status.serving) ∧
      (issueState st now patientId shift isEmergency).tokens =
        st.tokens ++ [newToken st now patientId shift isEmergency] ∧
      (issueState st now patientId shift isEmergency).config = st.config) ∨
    (∃ fp, fp ∈ st.tokens ++ [newToken st now patientId shift isEmergency] ∧
      fp.status = Status.pending ∧ fp.shift = shift ∧ inDay (getDayBounds now) fp = true ∧
      (∀ t ∈ st.tokens ++ [newToken st now patientId shift isEmergency],
        t.shift = shift → inDay (getDayBounds now) t = true → t.status ≠ Status.serving) ∧
      (issueState st now patientId shift isEmergency).tokens =
        (st.tokens ++ [newToken st now patientId shift isEmergency]).map
          (fun t => if t.id = fp.id then setServing t else t) ∧
      (issueState st now patientId shift isEmergency).config =
        { st.config with currentTokenId := some fp.id, lastUpdated := now }) := by
  unfold issueState
  dsimp only
  cases hs : List.find? (fun t => decide (t.status = Status.serving))
      (findSorted (st.tokens ++ [newToken st now patientId shift isEmergency])
        (getDayBounds now) shift) with
  | some x =>
    left
    have hmem := mem_findSorted.mp (List.mem_of_find?_eq_some hs)
    have hxs : x.status = Status.serving := by simpa using List.find?_some hs
    refine ⟨⟨x, ?_, hmem.2.1, hmem.2.2, hxs⟩, rfl, rfl⟩
    rcases List.mem_append.mp hmem.1 with h | h
    · exact h
    · rw [List.mem_singleton.mp h] at hxs
      cases hxs
  | none =>
    cases hp : List.find? (fun t => decide (t.status = Status.pending))
        (findSorted (st.tokens ++ [newToken st now patientId shift isEmergency])
          (getDayBounds now) shift) with
    | none =>
      rw [List.find?_eq_none] at hp
      exact absurd (by simp [newToken])
        (hp _ (newToken_mem_findSorted st now patientId shift isEmergency))
    | some fp =>
      right
      have hmem := mem_findSorted.mp (List.mem_of_find?_eq_some hp)
      refine ⟨fp, hmem.1, by simpa using List.find?_some hp, hmem.2.1, hmem.2.2, ?_, rfl, rfl⟩
      intro t ht hsh hd
      rw [List.find?_eq_none] at hs
      simpa using hs t (mem_findSorted.mpr ⟨ht, hsh, hd⟩)

theorem step_uniqueIds (st : State) (op : Op) (h : UniqueIds st.tokens) :
    UniqueIds (step st op).tokens := by
  have hids : ∀ l : List Token, l.map (fun t => t.id) =
      (l.map Token.core).map (fun t => t.id) := by
    intro l; rw [List.map_map]; rfl
  unfold UniqueIds at *
  rcases step_core st op with hc | ⟨now, p, s, e, _, _, _, _, hc⟩
  · rw [hids, hc, ← hids]; exact h
  · rw [hids, hc, List.map_append, ← hids]
    have := uniqueIds_append_new h now p s e
    unfold UniqueIds at this
    rw [List.map_append] at this
    exact this

theorem step_dates (st : State) (op : Op) (n : Nat) (h : ∀ t ∈ st.tokens, t.date ≤ n)
    (hn : op.now ≤ n) : ∀ t ∈ (step st op).tokens, t.date ≤ n := by
  intro t ht
  have hcore : t.core ∈ (step st op).tokens.map Token.core := List.mem_map_of_mem _ ht
  rcases step_core st op with hc | ⟨now, p, s, e, hop, _, _, _, hc⟩
  · rw [hc, List.mem_map] at hcore
    obtain ⟨u, hu, hut⟩ := hcore
    have hd0 := congrArg Token.date hut
    have hd : u.date = t.date := hd0
    rw [← hd]; exact h u hu
  · rw [hc, List.mem_append, List.mem_map, List.mem_singleton] at hcore
    rcases hcore with ⟨u, hu, hut⟩ | hnew
    · have hd0 := congrArg Token.date hut
      have hd : u.date = t.date := hd0
      rw [← hd]; exact h u hu
    · have hd0 := congrArg Token.date hnew
      have hd : t.date = now := hd0
      rw [hd]
      rw [hop] at hn
      exact hn

theorem settled_later {l : List Token} {n m : Nat} (hd : ∀ t ∈ l, t.date ≤ n) (hnm : n ≤ m)
    (shift : Shift) (h : Settled l n shift) : Settled l m shift := by
  by_cases hday : m / msPerDay = n / msPerDay
  · have hc : ∀ t, inDay (getDayBounds m) t = inDay (getDayBounds n) t :=
      fun t => inDay_congr hday t
    rcases h with ⟨t, ht, hs, hi, hst⟩ | h
    · exact Or.inl ⟨t, ht, hs, by rw [hc]; exact hi, hst⟩
    · exact Or.inr (fun t ht hs hi => h t ht hs (by rw [← hc]; exact hi))
  · right
    intro t ht _ hi
    exfalso
    rw [inDay_getDayBounds] at hi
    have h1 : t.date / msPerDay = m / msPerDay := by simpa using hi
    have h2 := hd t ht
    have h3 : n / msPerDay ≤ m / msPerDay := Nat.div_le_div_right hnm
    have h4 : t.date / msPerDay ≤ n / msPerDay := Nat.div_le_div_right h2
    omega

/-- A pending document of the sorted list, other than the completed one, that the missed loop
does not reach lies after the completed one, so a next token is found. -/
theorem completeNextToken_ne_none {st : State} {now tokenId : Nat} {shift : Shift} {t : Token}
    (ht : t ∈ completeAllTokens st now tokenId shift) (hid : t.id ≠ tokenId)
    (hp : t.status = Status.pending) (hm : t.id ∉ completeMissedIds st now tokenId shift) :
    completeNextToken st now tokenId shift ≠ none := by
  intro hnone
  unfold completeNextToken at hnone
  rw [List.find?_eq_none] at hnone
  have hnot : t ∉ (completeAllTokens st now tokenId shift).drop
      (completeIndex st now tokenId shift + 1).toNat := by
    intro hmem
    exact hnone t hmem (by simp [hp])
  have hsplit := List.take_append_drop (completeIndex st now tokenId shift).toNat
    (completeAllTokens st now tokenId shift)
  rw [← hsplit, List.mem_append] at ht
  rcases ht with ht | ht
  · apply hm
    unfold completeMissedIds
    have hf : t ∈ ((completeAllTokens st now tokenId shift).take
        (completeIndex st now tokenId shift).toNat).filter
        (fun t => decide (t.status = Status.pending)) :=
      List.mem_filter.mpr ⟨ht, by simp [hp]⟩
    exact List.mem_map_of_mem (fun t => t.id) hf
  · apply hnot
    by_cases hlt : (completeAllTokens st now tokenId shift).findIdx
        (fun t => decide (t.id = tokenId)) < (completeAllTokens st now tokenId shift).length
    · have hidx : completeIndex st now tokenId shift =
          (((completeAllTokens st now tokenId shift).findIdx
            (fun t => decide (t.id = tokenId)) : Nat) : Int) := by
        unfold completeIndex findIndex
        rw [if_pos hlt]
      rw [hidx] at ht ⊢
      have h1 : ((((completeAllTokens st now tokenId shift).findIdx
          (fun t => decide (t.id = tokenId)) : Nat) : Int) + 1).toNat =
          (completeAllTokens st now tokenId shift).findIdx
            (fun t => decide (t.id = tokenId)) + 1 := by omega
      rw [h1]
      rw [Int.toNat_ofNat, List.drop_eq_getElem_cons hlt, List.mem_cons] at ht
      rcases ht with ht | ht
      · exfalso
        have hpx := @List.findIdx_getElem _ (fun t : Token => decide (t.id = tokenId))
          (completeAllTokens st now tokenId shift) hlt
        rw [← ht] at hpx
        exact hid (by simpa using hpx)
      · exact ht
    · have hidx : completeIndex st now tokenId shift = -1 := by
        unfold completeIndex findIndex
        rw [if_neg hlt]
      rw [hidx] at ht ⊢
      simpa using ht

theorem mem_completeAllTokens_of_mem {st : State} {now tokenId : Nat} {shift : Shift}
    {t : Token} (ht : t ∈ st.tokens) (hid : t.id ≠ tokenId) (hs : t.shift = shift)
    (hd : inDay (getDayBounds now) t = true) :
    t ∈ completeAllTokens st now tokenId shift := by
  rw [completeAllTokens_eq_map, List.mem_map]
  exact ⟨t, mem_findSorted.mpr ⟨ht, hs, hd⟩, by rw [if_neg hid]⟩

theorem generateToken_settled (st : State) (now patientId : Nat) (shift : Option Shift)
    (isEmergency : Bool) (h : ∀ s, Settled st.tokens now s) :
    ∀ s, Settled (generateToken st now patientId shift isEmergency).2.tokens now s := by
  cases shift with
  | none => exact h
  | some shift =>
    rcases generateToken_cases st now patientId shift isEmergency with hr | ⟨_, _, _, hi⟩
    · rw [hr.2]; exact h
    · rw [hi]
      intro s
      rcases issueState_cases st now patientId shift isEmergency with
        ⟨⟨x, hx, hxs, hxd, hxst⟩, ht, _⟩ | ⟨fp, hfm, _, hfs, hfd, _, ht, _⟩
      · rw [ht]
        by_cases hs : shift = s
        · subst hs
          exact Or.inl ⟨x, List.mem_append_left _ hx, hxs, hxd, hxst⟩
        · rcases h s with ⟨t, htm, hts, htd, htst⟩ | hno
          · exact Or.inl ⟨t, List.mem_append_left _ htm, hts, htd, htst⟩
          · right
            intro t htm hts htd
            rcases List.mem_append.mp htm with hl | hn
            · exact hno t hl hts htd
            · rw [List.mem_singleton.mp hn] at hts
              exact absurd hts hs
      · rw [ht]
        by_cases hs : shift = s
        · subst hs
          left
          refine ⟨setServing fp, ?_, hfs, hfd, rfl⟩
          rw [List.mem_map]
          exact ⟨fp, hfm, by rw [if_pos rfl]⟩
        · rcases h s with ⟨t, htm, hts, htd, htst⟩ | hno
          · left
            refine ⟨if t.id = fp.id then setServing t else t, ?_, ?_, ?_, ?_⟩
            · rw [List.mem_map]; exact ⟨t, List.mem_append_left _ htm, rfl⟩
            · split_ifs <;> exact hts
            · split_ifs <;> exact htd
            · split_ifs
              · rfl
              · exact htst
          · right
            intro t' htm' hts' htd'
            rw [List.mem_map] at htm'
            obtain ⟨t, htm, hte⟩ := htm'
            have hsh : t'.shift = t.shift := by rw [← hte]; split_ifs <;> rfl
            have hdt : inDay (getDayBounds now) t' = inDay (getDayBounds now) t := by
              rw [← hte]; split_ifs <;> rfl
            rcases List.mem_append.mp htm with hl | hn
            · have := hno t hl (by rw [← hsh]; exact hts') (by rw [← hdt]; exact htd')
              rw [← hte]
              split_ifs
              · intro hc; cases hc
              · exact this
            · rw [List.mem_singleton.mp hn] at hsh
              rw [hsh] at hts'
              exact absurd hts' hs

theorem markComplete_settled (st : State) (now : Nat) (tokenId : Option Nat)
    (hu : UniqueIds st.tokens) (h : ∀ s, Settled st.tokens now s) :
    ∀ s, Settled (markComplete st now tokenId).2.tokens now s := by
  cases tokenId with
  | none => exact h
  | some tid =>
    cases hfind : findById st.tokens tid with
    | none => rw [markComplete_not_found hfind]; exact h
    | some T =>
      by_cases hst : T.status = Status.completed
      · rw [markComplete_completed hfind hst]; exact h
      · intro s
        have hT := findById_some hfind
        have hkc := keepsCore_completeMap now tid (completeMissedIds st now tid T.shift)
          ((completeNextToken st now tid T.shift).map (fun t => t.id))
        rw [markComplete_tokens hfind hst]
        by_cases hs : T.shift = s
        · subst hs
          cases hn : completeNextToken st now tid T.shift with
          | some n =>
            left
            obtain ⟨hnm, _, _, hnsh, hnd⟩ := completeNextToken_some hn
            refine ⟨completeMap now tid (completeMissedIds st now tid T.shift) (some n.id) n,
              List.mem_map_of_mem _ hnm, ?_, ?_, completeMap_next_status⟩
            · rw [(keepsCore_completeMap _ _ _ _).shift_eq]; exact hnsh
            · rw [inDay_keepsCore (keepsCore_completeMap _ _ _ _)]; exact hnd
          | none =>
            right
            intro t' htm' hts' htd' hpend
            rw [List.mem_map] at htm'
            obtain ⟨t, htm, hte⟩ := htm'
            have hsh : t.shift = T.shift := by rw [← hkc.shift_eq, hn, hte]; exact hts'
            have hdt : inDay (getDayBounds now) t = true := by
              rw [← inDay_keepsCore hkc, hn, hte]; exact htd'
            simp only [Option.map_none'] at hte
            unfold completeMap at hte
            by_cases hid : t.id = tid
            · simp only [if_pos hid, reduceCtorEq, if_false] at hte
              rw [← hte] at hpend
              split_ifs at hpend <;> cases hpend
            · simp only [if_neg hid, reduceCtorEq, if_false] at hte
              by_cases hm : t.id ∈ completeMissedIds st now tid T.shift
              · rw [if_pos hm] at hte
                rw [← hte] at hpend
                cases hpend
              · rw [if_neg hm] at hte
                rw [← hte] at hpend
                exact completeNextToken_ne_none
                  (mem_completeAllTokens_of_mem htm hid hsh hdt) hid hpend hm hn
        · have hsame : ∀ t ∈ st.tokens, t.shift = s →
              completeMap now tid (completeMissedIds st now tid T.shift)
                ((completeNextToken st now tid T.shift).map (fun t => t.id)) t = t := by
            intro t htm hts
            have hid : t.id ≠ tid := by
              intro hid
              have : T = t := hu.eq_of_id hT.1 htm (by rw [hT.2, hid])
              rw [this] at hs
              exact hs hts
            exact completeMap_outside hu htm hid (fun hc => hs (by rw [← hc.1, hts]))
          rcases h s with ⟨t, htm, hts, htd, htst⟩ | hno
          · left
            refine ⟨t, ?_, hts, htd, htst⟩
            rw [List.mem_map]
            exact ⟨t, htm, hsame t htm hts⟩
          · right
            intro t' htm' hts' htd'
            rw [List.mem_map] at htm'
            obtain ⟨t, htm, hte⟩ := htm'
            have hsh : t.shift = s := by rw [← hkc.shift_eq, hte]; exact hts'
            rw [hsame t htm hsh] at hte
            rw [← hte] at htd' ⊢
            exact hno t htm hsh htd'

theorem queueInv_later {n m : Nat} {st : State} (h : QueueInv n st) (hnm : n ≤ m) :
    QueueInv m st :=
  ⟨h.1, fun t ht => Nat.le_trans (h.2.1 t ht) hnm,
    fun s => settled_later h.2.1 hnm s (h.2.2 s)⟩

theorem step_queueInv (st : State) (op : Op) (n : Nat) (h : QueueInv n st)
    (hn : n ≤ op.now) : QueueInv op.now (step st op) := by
  have h' := queueInv_later h hn
  refine ⟨step_uniqueIds st op h.1, step_dates st op op.now h'.2.1 (Nat.le_refl _), ?_⟩
  cases op with
  | generate now patientId shift isEmergency =>
    exact generateToken_settled st now patientId shift isEmergency h'.2.2
  | complete now tokenId => exact markComplete_settled st now tokenId h.1 h'.2.2
  | pause now => exact h'.2.2
  | configure now m e =>
    show ∀ s, Settled (updateConfig st now m e).2.tokens now s
    rw [updateConfig_tokens]
    exact h'.2.2

theorem run_queueInv (ops : List Op) :
    ∀ (st : State) (n0 : Nat), QueueInv n0 st → TimeOrdered ops →
      (∀ op ∈ ops, n0 ≤ op.now) → ∀ n, (∀ op ∈ ops, op.now ≤ n) → n0 ≤ n →
      QueueInv n (run st ops) := by
  induction ops with
  | nil => intro st n0 h _ _ n _ hn; exact queueInv_later h hn
  | cons op ops ih =>
    intro st n0 h hord hlow n hup _
    unfold TimeOrdered at hord
    rw [List.pairwise_cons] at hord
    exact ih (step st op) op.now (step_queueInv st op n0 h (hlow op (List.mem_cons_self _ _)))
      hord.2 (fun o ho => hord.1 o ho) n (fun o ho => hup o (List.mem_cons_of_mem _ ho))
      (hup op (List.mem_cons_self _ _))

/-- States reached from the empty ledger by requests handled in the order of time, observed
at an instant not before the last request. -/
theorem reachable_queueInv (ops : List Op) (hord : TimeOrdered ops) (n : Nat)
    (hn : ∀ op ∈ ops, op.now ≤ n) : QueueInv n (run State.empty ops) :=
  run_queueInv ops State.empty 0
    ⟨List.nodup_nil, ⟨fun _ ht => (by cases ht), fun _ => Or.inr (fun _ ht => (by cases ht))⟩⟩
    hord (fun _ _ => Nat.zero_le _) n hn (Nat.zero_le _)

theorem generateToken_full {st : State} {now patientId : Nat} {shift : Shift}
    (hno : existingToken st.tokens now patientId shift = none)
    (h : capacity st.config shift ≤ (regularCount st.tokens now shift : Int)) :
    generateToken st now patientId (some shift) false =
      (capacityResponse st.config shift, st) := by
  rw [generateToken_eq, hno]
  simp only [Bool.false_eq_true, false_and, if_false, true_and]
  rw [if_pos h]

theorem generateToken_free {st : State} {now patientId : Nat} {shift : Shift}
    (hno : existingToken st.tokens now patientId shift = none)
    (h : (regularCount st.tokens now shift : Int) < capacity st.config shift) :
    generateToken st now patientId (some shift) false =
      (issueResponse st now patientId shift false, issueState st now patientId shift false) := by
  rw [generateToken_eq, hno]
  simp only [Bool.false_eq_true, false_and, if_false, true_and]
  rw [if_neg (not_le.mpr h)]

/-- In a settled queue with unique ids, an accepted `generateToken` leaves every stored
document as it is. -/
theorem findById_issueState_settled {st : State} (hu : UniqueIds st.tokens)
    (now patientId : Nat) (shift : Shift) (isEmergency : Bool)
    (hs : Settled st.tokens now shift) {t : Token} (ht : t ∈ st.tokens) :
    findById (issueState st now patientId shift isEmergency).tokens t.id = some t := by
  have hu' := uniqueIds_append_new hu now patientId shift isEmergency
  have ht' : t ∈ st.tokens ++ [newToken st now patientId shift isEmergency] :=
    List.mem_append_left _ ht
  rcases issueState_cases st now patientId shift isEmergency with
    ⟨_, h, _⟩ | ⟨fp, hfm, hfp, hfs, hfd, hnos, h, _⟩
  · rw [h]; exact findById_of_mem hu' ht'
  · rw [h, findById_map (keepsCore_update fp.id _ keepsCore_setServing) hu' ht']
    have hne : t.id ≠ fp.id := by
      intro hid
      have hfl : fp ∈ st.tokens := by rw [← hu'.eq_of_id ht' hfm hid]; exact ht
      rcases hs with ⟨x, hx, hxs, hxd, hxst⟩ | hno
      · exact hnos x (List.mem_append_left _ hx) hxs hxd hxst
      · exact hno fp hfl hfs hfd hfp
    rw [if_neg hne]

theorem regularCount_congr (l : List Token) {a b : Nat} (h : a / msPerDay = b / msPerDay)
    (shift : Shift) : regularCount l a shift = regularCount l b shift := by
  unfold regularCount
  congr 2
  funext t
  rw [inDay_congr h t]

theorem existingToken_congr (l : List Token) {a b : Nat} (h : a / msPerDay = b / msPerDay)
    (patientId : Nat) (shift : Shift) :
    existingToken l a patientId shift = existingToken l b patientId shift := by
  unfold existingToken
  congr 1
  funext t
  rw [inDay_congr h t]

/-! ## A queue that starts empty -/

theorem getDayBounds_congr {a b : Nat} (h : a / msPerDay = b / msPerDay) :
    getDayBounds a = getDayBounds b := by
  unfold getDayBounds msPerDay at *
  have h1 : a - a % 86400000 = b - b % 86400000 := by omega
  rw [h1]

theorem findSorted_append_of_empty {l xs : List Token} {b : DayBounds} {s : Shift}
    (h : ∀ t ∈ l, t.shift = s → inDay b t = false) :
    findSorted (l ++ xs) b s = findSorted xs b s := by
  unfold findSorted
  rw [List.filter_append]
  have : l.filter (fun t => decide (t.shift = s) && inDay b t) = [] := by
    rw [List.filter_eq_nil_iff]
    intro t ht
    by_cases hs : t.shift = s
    · simp [hs, h t ht hs]
    · simp [hs]
  rw [this, List.nil_append]

theorem existingToken_append_of_empty {l xs : List Token} {now patientId : Nat} {s : Shift}
    (h : ∀ t ∈ l, t.shift = s → inDay (getDayBounds now) t = false) :
    existingToken (l ++ xs) now patientId s = existingToken xs now patientId s := by
  unfold existingToken
  rw [List.find?_append]
  have : l.find? (fun t => decide (t.patientId = patientId) && decide (t.shift = s) &&
      inDay (getDayBounds now) t) = none := by
    rw [List.find?_eq_none]
    intro t ht
    by_cases hs : t.shift = s
    · simp [hs, h t ht hs]
    · simp [hs]
  rw [this, Option.none_or]

theorem regularCount_append_of_empty {l xs : List Token} {now : Nat} {s : Shift}
    (h : ∀ t ∈ l, t.shift = s → inDay (getDayBounds now) t = false) :
    regularCount (l ++ xs) now s = regularCount xs now s := by
  unfold regularCount
  rw [List.filter_append]
  have : l.filter (fun t => decide (t.shift = s) && !t.isEmergency &&
      inDay (getDayBounds now) t) = [] := by
    rw [List.filter_eq_nil_iff]
    intro t ht
    by_cases hs : t.shift = s
    · simp [hs, h t ht hs]
    · simp [hs]
  rw [this, List.nil_append]

theorem map_update_fresh {l : List Token} {i : Nat} {f : Token → Token}
    (h : ∀ t ∈ l, t.id ≠ i) : l.map (fun t => if t.id = i then f t else t) = l := by
  conv_rhs => rw [← List.map_id l]
  apply List.map_congr_left
  intro t ht
  rw [if_neg (h t ht)]; rfl

theorem sortLe_one_two {x y : Token} (hx : x.isEmergency = false) (hy : y.isEmergency = false)
    (hxe : x.emergencyNumber = none) (hye : y.emergencyNumber = none)
    (hxn : x.tokenNumber = "1") (hyn : y.tokenNumber = "2") : sortLe x y := by
  unfold sortLe sortCmp
  rw [hx, hy, hxe, hye, hxn, hyn]
  have h1 : cmpEmergencyDesc false false = Ordering.eq := by decide
  have h2 : cmpEmergencyNumber none none = Ordering.eq := rfl
  have h3 : cmpTokenNumber "1" "2" = Ordering.lt := by decide
  rw [h1, h2, h3]
  intro h
  cases h

theorem findSorted_pair {x y : Token} {b : DayBounds} {s : Shift}
    (hxs : x.shift = s) (hys : y.shift = s) (hxd : inDay b x = true) (hyd : inDay b y = true)
    (hle : sortLe x y) : findSorted [x, y] b s = [x, y] := by
  unfold findSorted sortTokens
  have hf : List.filter (fun t => decide (t.shift = s) && inDay b t) [x, y] = [x, y] := by
    simp [List.filter, hxs, hys, hxd, hyd]
  rw [hf]
  simp [List.insertionSort, List.orderedInsert, hle]

/-- First request into a shift whose queue of the day is empty: the new token is numbered "1"
and is promoted at once. -/
theorem issueState_first (st : State) (now patientId : Nat) (s : Shift)
    (hempty : ∀ t ∈ st.tokens, t.shift = s → inDay (getDayBounds now) t = false) :
    (newToken st now patientId s false).tokenNumber = "1" ∧
    issueState st now patientId s false =
      { tokens := st.tokens ++ [setServing (newToken st now patientId s false)],
        config := { st.config with
          currentTokenId := some (newToken st now patientId s false).id,
          lastUpdated := now } } := by
  have hcount : regularCount st.tokens now s = 0 := by
    have := @regularCount_append_of_empty st.tokens [] now s hempty
    rw [List.append_nil] at this
    rw [this]; rfl
  have hnum : (newToken st now patientId s false).tokenNumber =
      toString (regularCount st.tokens now s + 1) := rfl
  refine ⟨by rw [hnum, hcount]; decide, ?_⟩
  have hfresh : ∀ t ∈ st.tokens, t.id ≠ (newToken st now patientId s false).id := by
    intro t ht
    have := freshId_gt st.tokens t ht
    have hid : (newToken st now patientId s false).id = freshId st.tokens := rfl
    omega
  rcases issueState_cases st now patientId s false with
    ⟨⟨x, hx, hxs, hxd, _⟩, _, _⟩ | ⟨fp, hfm, _, hfs, hfd, _, ht, hc⟩
  · rw [hempty x hx hxs] at hxd
    cases hxd
  · have hfp : fp = newToken st now patientId s false := by
      rcases List.mem_append.mp hfm with h | h
      · rw [hempty fp h hfs] at hfd
        cases hfd
      · exact List.mem_singleton.mp h
    subst hfp
    have htok : (issueState st now patientId s false).tokens =
        st.tokens ++ [setServing (newToken st now patientId s false)] := by
      rw [ht, List.map_append, map_update_fresh hfresh]
      simp
    cases hst : issueState st now patientId s false with
    | mk tokens config =>
      rw [hst] at htok hc
      dsimp only at htok hc
      rw [htok, hc]

/-- Second request into a shift whose queue of the day holds one serving regular token: the
new token is numbered "2" and nothing is promoted. -/
theorem issueState_second (st : State) (l : List Token) (x : Token) (now patientId : Nat)
    (s : Shift) (htok : st.tokens = l ++ [x])
    (hempty : ∀ t ∈ l, t.shift = s → inDay (getDayBounds now) t = false)
    (hxs : x.shift = s) (hxd : inDay (getDayBounds now) x = true)
    (hxst : x.status = Status.serving) (hxe : x.isEmergency = false) :
    regularCount st.tokens now s = 1 ∧
    (newToken st now patientId s false).tokenNumber = "2" ∧
    issueState st now patientId s false =
      { tokens := l ++ [x, newToken st now patientId s false], config := st.config } := by
  have hcount : regularCount st.tokens now s = 1 := by
    rw [htok, regularCount_append_of_empty hempty]
    unfold regularCount
    simp [List.filter, hxs, hxe, hxd]
  have hnum : (newToken st now patientId s false).tokenNumber =
      toString (regularCount st.tokens now s + 1) := rfl
  refine ⟨hcount, by rw [hnum, hcount]; decide, ?_⟩
  rcases issueState_cases st now patientId s false with
    ⟨_, ht, hc⟩ | ⟨fp, _, _, _, _, hnos, _, _⟩
  · cases hst : issueState st now patientId s false with
    | mk tokens config =>
      rw [hst] at ht hc
      dsimp only at ht hc
      rw [ht, hc, htok, List.append_assoc]
      rfl
  · exact absurd hxst (hnos x (by rw [htok]; simp) hxs hxd)

/-! ## The queue after the last token -/

/-- When `markComplete` finds no next token, no stored token of the shift is pending on the day
of the call. -/
theorem markComplete_no_pending {st : State} {now tokenId : Nat} {T : Token}
    (hfind : findById st.tokens tokenId = some T) (hst : T.status ≠ Status.completed)
    (hn : completeNextToken st now tokenId T.shift = none) :
    ∀ t ∈ (markComplete st now (some tokenId)).2.tokens, t.shift = T.shift →
      inDay (getDayBounds now) t = true → t.status ≠ Status.pending := by
  have hkc := keepsCore_completeMap now tokenId (completeMissedIds st now tokenId T.shift)
    ((completeNextToken st now tokenId T.shift).map (fun t => t.id))
  rw [markComplete_tokens hfind hst]
  intro t' htm' hts' htd' hpend
  rw [List.mem_map] at htm'
  obtain ⟨t, htm, hte⟩ := htm'
  have hsh : t.shift = T.shift := by rw [← hkc.shift_eq, hte]; exact hts'
  have hdt : inDay (getDayBounds now) t = true := by
    rw [← inDay_keepsCore hkc, hte]; exact htd'
  rw [hn] at hte
  simp only [Option.map_none'] at hte
  unfold completeMap at hte
  by_cases hid : t.id = tokenId
  · simp only [if_pos hid, reduceCtorEq, if_false] at hte
    rw [← hte] at hpend
    split_ifs at hpend <;> cases hpend
  · simp only [if_neg hid, reduceCtorEq, if_false] at hte
    by_cases hm : t.id ∈ completeMissedIds st now tokenId T.shift
    · rw [if_pos hm] at hte
      rw [← hte] at hpend
      cases hpend
    · rw [if_neg hm] at hte
      rw [← hte] at hpend
      exact completeNextToken_ne_none
        (mem_completeAllTokens_of_mem htm hid hsh hdt) hid hpend hm hn

theorem reachable_uniqueIds (ops : List Op) : UniqueIds (run State.empty ops).tokens :=
  run_induction (fun st => UniqueIds st.tokens) step_uniqueIds ops State.empty List.nodup_nil

/-! ## The sort order is a total preorder -/

theorem then_ne_gt (o p : Ordering) :
    o.then p ≠ Ordering.gt ↔ o = Ordering.lt ∨ (o = Ordering.eq ∧ p ≠ Ordering.gt) := by
  cases o <;> simp [Ordering.then]

theorem cmpEmergencyDesc_lt (a b : Bool) :
    cmpEmergencyDesc a b = Ordering.lt ↔ emergencyRank a < emergencyRank b := by
  cases a <;> cases b <;> decide

theorem cmpEmergencyDesc_eq (a b : Bool) :
    cmpEmergencyDesc a b = Ordering.eq ↔ emergencyRank a = emergencyRank b := by
  cases a <;> cases b <;> decide

theorem cmpEmergencyNumber_lt (x y : Option Nat) :
    cmpEmergencyNumber x y = Ordering.lt ↔ numberRank x < numberRank y := by
  cases x <;> cases y <;> simp [cmpEmergencyNumber, numberRank, Nat.compare_eq_lt]

theorem cmpEmergencyNumber_eq (x y : Option Nat) :
    cmpEmergencyNumber x y = Ordering.eq ↔ numberRank x = numberRank y := by
  cases x <;> cases y <;> simp [cmpEmergencyNumber, numberRank, Nat.compare_eq_eq]

theorem cmpTokenNumber_lt (a b : String) :
    cmpTokenNumber a b = Ordering.lt ↔ a.toList < b.toList := by
  unfold cmpTokenNumber
  by_cases h : a.toList < b.toList
  · simp [h]
  · simp only [h, if_false, iff_false]
    split <;> simp

theorem cmpTokenNumber_eq (a b : String) :
    cmpTokenNumber a b = Ordering.eq ↔ a.toList = b.toList := by
  unfold cmpTokenNumber
  by_cases h : a.toList < b.toList
  · simp only [h, if_true, reduceCtorEq, false_iff]
    exact ne_of_lt h
  · simp only [h, if_false]
    by_cases he : a = b
    · simp [he]
    · simp only [he, if_false, reduceCtorEq, false_iff]
      intro hl
      exact he (String.ext hl)

theorem cmpTokenNumber_ne_gt (a b : String) :
    cmpTokenNumber a b ≠ Ordering.gt ↔ a.toList ≤ b.toList := by
  rw [le_iff_lt_or_eq, ← cmpTokenNumber_lt, ← cmpTokenNumber_eq]
  cases cmpTokenNumber a b <;> simp

theorem compare_nat_ne_gt (x y : Nat) : compare x y ≠ Ordering.gt ↔ x ≤ y := by
  rw [Ne, Nat.compare_eq_gt]
  omega

theorem sortLe_iff (a b : Token) : sortLe a b ↔ sortKey a ≤ sortKey b := by
  unfold sortLe sortCmp sortKey
  rw [Prod.Lex.le_iff, Prod.Lex.le_iff, Prod.Lex.le_iff]
  simp only [then_ne_gt, cmpEmergencyDesc_lt, cmpEmergencyDesc_eq, cmpEmergencyNumber_lt,
    cmpEmergencyNumber_eq, cmpTokenNumber_lt, cmpTokenNumber_eq, compare_nat_ne_gt]

theorem sortLeDoctor_iff (a b : Token) : sortLeDoctor a b ↔ sortKeyDoctor a ≤ sortKeyDoctor b := by
  unfold sortLeDoctor sortCmpDoctor sortKeyDoctor
  rw [Prod.Lex.le_iff, Prod.Lex.le_iff]
  simp only [then_ne_gt, cmpEmergencyDesc_lt, cmpEmergencyDesc_eq, cmpEmergencyNumber_lt,
    cmpEmergencyNumber_eq, cmpTokenNumber_ne_gt]

theorem sortLe_total : IsTotal Token sortLe :=
  ⟨fun a b => by rw [sortLe_iff, sortLe_iff]; exact le_total _ _⟩

theorem sortLe_trans : IsTrans Token sortLe :=
  ⟨fun a b c hab hbc => by rw [sortLe_iff] at *; exact le_trans hab hbc⟩

theorem sortLeDoctor_total : IsTotal Token sortLeDoctor :=
  ⟨fun a b => by rw [sortLeDoctor_iff, sortLeDoctor_iff]; exact le_total _ _⟩

theorem sortLeDoctor_trans : IsTrans Token sortLeDoctor :=
  ⟨fun a b c hab hbc => by rw [sortLeDoctor_iff] at *; exact le_trans hab hbc⟩

theorem findSorted_sorted (tokens : List Token) (b : DayBounds) (shift : Shift) :
    (findSorted tokens b shift).Sorted sortLe :=
  @List.sorted_insertionSort Token sortLe _ sortLe_total sortLe_trans _

theorem findSortedDoctor_sorted (tokens : List Token) (b : DayBounds) (shift : Shift) :
    (findSortedDoctor tokens b shift).Sorted sortLeDoctor :=
  @List.sorted_insertionSort Token sortLeDoctor _ sortLeDoctor_total sortLeDoctor_trans _

theorem sortLe_ranks {a b : Token} (h : sortLe a b) :
    emergencyRank a.isEmergency ≤ emergencyRank b.isEmergency ∧
    (emergencyRank a.isEmergency = emergencyRank b.isEmergency →
      numberRank a.emergencyNumber ≤ numberRank b.emergencyNumber) := by
  rw [sortLe_iff] at h
  unfold sortKey at h
  rw [Prod.Lex.le_iff, Prod.Lex.le_iff] at h
  dsimp only [ofLex_toLex] at h
  rcases h with h | ⟨h1, h2⟩
  · exact ⟨le_of_lt h, fun e => absurd e (ne_of_lt h)⟩
  · refine ⟨le_of_eq h1, fun _ => ?_⟩
    rcases h2 with h2 | ⟨h2, _⟩
    · exact le_of_lt h2
    · exact le_of_eq h2

theorem sortLe_sortLeDoctor {a b : Token} (h : sortLe a b) : sortLeDoctor a b := by
  rw [sortLe_iff] at h
  rw [sortLeDoctor_iff]
  unfold sortKey at h
  unfold sortKeyDoctor
  rw [Prod.Lex.le_iff, Prod.Lex.le_iff, Prod.Lex.le_iff] at h
  rw [Prod.Lex.le_iff, Prod.Lex.le_iff]
  dsimp only [ofLex_toLex] at h ⊢
  rcases h with h | ⟨h1, h2⟩
  · exact Or.inl h
  · refine Or.inr ⟨h1, ?_⟩
    rcases h2 with h2 | ⟨h2, h3⟩
    · exact Or.inl h2
    · refine Or.inr ⟨h2, ?_⟩
      rcases h3 with h3 | ⟨h3, _⟩
      · exact le_of_lt h3
      · exact le_of_eq h3

theorem sortLeDoctor_antisymm {a b : Token} (hab : sortLeDoctor a b) (hba : sortLeDoctor b a) :
    a.tokenNumber = b.tokenNumber ∧ a.isEmergency = b.isEmergency := by
  rw [sortLeDoctor_iff] at hab hba
  have h := le_antisymm hab hba
  unfold sortKeyDoctor at h
  have h1 : emergencyRank a.isEmergency = emergencyRank b.isEmergency :=
    congrArg (fun k => (ofLex k).1) h
  have h2 : a.tokenNumber.toList = b.tokenNumber.toList :=
    congrArg (fun k => (ofLex (ofLex k).2).2) h
  refine ⟨String.ext h2, ?_⟩
  unfold emergencyRank at h1
  cases ha : a.isEmergency <;> cases hb : b.isEmergency <;> simp [ha, hb] at h1 ⊢

theorem find_map_sorted_perm {β : Type} (f : Token → β) {L1 L2 : List Token}
    (hperm : L1.Perm L2) (h1 : L1.Sorted sortLeDoctor) (h2 : L2.Sorted sortLeDoctor)
    (hf : ∀ a b, sortLeDoctor a b → sortLeDoctor b a → f a = f b) (p : Token → Bool) :
    (L1.find? p).map f = (L2.find? p).map f := by
  rw [← List.filter_head?, ← List.filter_head?]
  have hp := hperm.filter p
  have s1 : (L1.filter p).Sorted sortLeDoctor := List.Pairwise.filter p h1
  have s2 : (L2.filter p).Sorted sortLeDoctor := List.Pairwise.filter p h2
  revert hp s1 s2
  generalize L1.filter p = M1
  generalize L2.filter p = M2
  intro hp s1 s2
  cases M1 with
  | nil =>
    cases M2 with
    | nil => rfl
    | cons b t2 => exact absurd hp.length_eq (by simp)
  | cons a t1 =>
    cases M2 with
    | nil => exact absurd hp.length_eq (by simp)
    | cons b t2 =>
      simp only [List.head?_cons, Option.map_some']
      congr 1
      have hb : b ∈ a :: t1 := hp.mem_iff.mpr (List.mem_cons_self _ _)
      have ha : a ∈ b :: t2 := hp.mem_iff.mp (List.mem_cons_self _ _)
      rcases List.mem_cons.mp hb with e | hb1
      · rw [e]
      · rcases List.mem_cons.mp ha with e | ha1
        · rw [e]
        · exact hf a b (List.rel_of_sorted_cons s1 b hb1) (List.rel_of_sorted_cons s2 a ha1)

theorem findSorted_perm_doctor (tokens : List Token) (b : DayBounds) (shift : Shift) :
    (findSortedDoctor tokens b shift).Perm (findSorted tokens b shift) :=
  (List.perm_insertionSort _ _).trans (List.perm_insertionSort _ _).symm

theorem or_map_congr {α β : Type} (f : α → β) {a1 a2 b1 b2 : Option α}
    (ha : a1.map f = a2.map f) (hb : b1.map f = b2.map f) :
    (a1.or b1).map f = (a2.or b2).map f := by
  cases a1 <;> cases a2 <;> simp_all

/-! ## At most one serving token per shift -/

theorem uniqueIds_countP_id {l : List Token} (hu : UniqueIds l) (i : Nat) :
    l.countP (fun t => decide (t.id = i)) ≤ 1 := by
  unfold UniqueIds at hu
  have h := List.nodup_iff_count_le_one.mp hu i
  rw [List.count, List.countP_map] at h
  have he : l.countP (fun t => decide (t.id = i)) =
      l.countP ((fun x => x == i) ∘ fun t : Token => t.id) := by
    apply List.countP_congr
    intro t _
    simp
  rw [he]
  exact h

theorem step_allInDay (d : Nat) (st : State) (op : Op) (hd : AllInDay d st.tokens)
    (hop : op.now / msPerDay = d) : AllInDay d (step st op).tokens := by
  apply allInDay_of_core d ?_ hd
  intro t ht
  have hcore : t.core ∈ (step st op).tokens.map Token.core := List.mem_map_of_mem _ ht
  rcases step_core st op with hc | ⟨now, p, s, e, hopeq, _, _, _, hc⟩
  · rw [hc, List.mem_map] at hcore
    obtain ⟨u, hu, hut⟩ := hcore
    exact ⟨u, Or.inl hu, hut⟩
  · rw [hc, List.mem_append, List.mem_map, List.mem_singleton] at hcore
    rcases hcore with ⟨u, hu, hut⟩ | hnew
    · exact ⟨u, Or.inl hu, hut⟩
    · refine ⟨newToken st now p s e, Or.inr ?_, hnew.symm⟩
      rw [hopeq] at hop
      exact hop

theorem servingCount_append_new (st : State) (now patientId : Nat) (shift : Shift)
    (isEmergency : Bool) (s : Shift) :
    servingCount (st.tokens ++ [newToken st now patientId shift isEmergency]) s =
      servingCount st.tokens s := by
  unfold servingCount
  rw [List.countP_append]
  have h : List.countP (fun t => decide (t.shift = s) && decide (t.status = Status.serving))
      [newToken st now patientId shift isEmergency] = 0 := by
    rw [List.countP_eq_zero]
    intro t ht
    rw [List.mem_singleton.mp ht]
    simp [newToken]
  rw [h]
  rfl

theorem issueState_servingCount {d : Nat} {st : State} {now : Nat}
    (hu : UniqueIds st.tokens) (hd : AllInDay d st.tokens) (hnow : now / msPerDay = d)
    (h1 : ∀ s, servingCount st.tokens s ≤ 1) (patientId : Nat) (shift : Shift)
    (isEmergency : Bool) (s : Shift) :
    servingCount (issueState st now patientId shift isEmergency).tokens s ≤ 1 := by
  have hu1 := uniqueIds_append_new hu now patientId shift isEmergency
  rcases issueState_cases st now patientId shift isEmergency with
    ⟨_, ht, _⟩ | ⟨fp, hfm, _, hfs, _, hnone, ht, _⟩
  · rw [ht, servingCount_append_new]
    exact h1 s
  · rw [ht]
    by_cases hs : s = shift
    · unfold servingCount
      rw [List.countP_map]
      refine le_trans (List.countP_mono_left ?_) (uniqueIds_countP_id hu1 fp.id)
      intro t htm hpt
      by_contra hne
      have hne1 : ¬ t.id = fp.id := by simpa using hne
      simp only [Function.comp_apply, if_neg hne1, Bool.and_eq_true, decide_eq_true_eq] at hpt
      have hday : inDay (getDayBounds now) t = true := by
        rcases List.mem_append.mp htm with h | h
        · rw [inDay_getDayBounds, hd t h, hnow]; simp
        · rw [List.mem_singleton.mp h, inDay_newToken]; simp
      exact hnone t htm (by rw [hpt.1, hs]) hday hpt.2
    · have hc : servingCount ((st.tokens ++ [newToken st now patientId shift isEmergency]).map
          (fun t => if t.id = fp.id then setServing t else t)) s =
          servingCount (st.tokens ++ [newToken st now patientId shift isEmergency]) s := by
        unfold servingCount
        rw [List.countP_map]
        apply List.countP_congr
        intro t htm
        simp only [Function.comp_apply]
        by_cases hid : t.id = fp.id
        · have htf : t = fp := hu1.eq_of_id htm hfm hid
          have hts : t.shift ≠ s := by rw [htf, hfs]; exact fun h => hs h.symm
          rw [if_pos hid]
          have hss : (setServing t).shift ≠ s := hts
          simp [hts, hss]
        · rw [if_neg hid]
      rw [hc, servingCount_append_new]
      exact h1 s

theorem generateToken_servingCount {d : Nat} {st : State} {now : Nat}
    (hu : UniqueIds st.tokens) (hd : AllInDay d st.tokens) (hnow : now / msPerDay = d)
    (h1 : ∀ s, servingCount st.tokens s ≤ 1) (patientId : Nat) (shift : Option Shift)
    (isEmergency : Bool) (s : Shift) :
    servingCount (generateToken st now patientId shift isEmergency).2.tokens s ≤ 1 := by
  cases shift with
  | none => exact h1 s
  | some shift =>
    rcases generateToken_cases st now patientId shift isEmergency with h | ⟨_, _, _, h⟩
    · rw [h.2]; exact h1 s
    · rw [h]; exact issueState_servingCount hu hd hnow h1 patientId shift isEmergency s

theorem completeMap_not_serving {now tokenId : Nat} {missedIds : List Nat} {next : Option Nat}
    {t : Token} (h3 : ¬ some t.id = next) (h : t.id = tokenId ∨ t.status ≠ Status.serving) :
    (completeMap now tokenId missedIds next t).status ≠ Status.serving := by
  unfold completeMap
  simp only [if_neg h3]
  by_cases hid : t.id = tokenId
  · rw [if_pos hid]
    split_ifs
    · simp [setMissed]
    · simp [setCompleted]
  · rw [if_neg hid]
    split_ifs
    · simp [setMissed]
    · rcases h with h | h
      · exact absurd h hid
      · exact h

theorem markComplete_servingCount {st : State} {now tokenId : Nat} {T : Token}
    (hu : UniqueIds st.tokens) (h1 : ∀ s, servingCount st.tokens s ≤ 1)
    (hfind : findById st.tokens tokenId = some T) (hT : T.status = Status.serving) (s : Shift) :
    servingCount (markComplete st now (some tokenId)).2.tokens s ≤ 1 := by
  have hst : T.status ≠ Status.completed := by rw [hT]; decide
  obtain ⟨hTm, hTi⟩ := findById_some hfind
  have hkeep := keepsCore_completeMap now tokenId (completeMissedIds st now tokenId T.shift)
    ((completeNextToken st now tokenId T.shift).map (fun t => t.id))
  rw [markComplete_tokens hfind hst]
  by_cases hs : s = T.shift
  · have hother : ∀ t ∈ st.tokens, t.shift = T.shift →
        t.id = tokenId ∨ t.status ≠ Status.serving := by
      intro t ht hsh
      by_cases hid : t.id = tokenId
      · exact Or.inl hid
      · right
        intro hserv
        have heq : t = T := @countP_le_one_eq
          (fun t => decide (t.shift = T.shift) && decide (t.status = Status.serving)) st.tokens
          (h1 T.shift) t T ht hTm (by simp [hsh, hserv]) (by simp [hT])
        exact hid (by rw [heq]; exact hTi)
    have hcore : ∀ t ∈ st.tokens,
        (fun t : Token => decide (t.shift = s) && decide (t.status = Status.serving))
          (completeMap now tokenId (completeMissedIds st now tokenId T.shift)
            ((completeNextToken st now tokenId T.shift).map (fun t => t.id)) t) = true →
        some t.id = (completeNextToken st now tokenId T.shift).map (fun t => t.id) := by
      intro t ht hp
      simp only [Bool.and_eq_true, decide_eq_true_eq] at hp
      by_contra h3
      have hsh : t.shift = T.shift := by rw [← hs, ← hp.1, hkeep.shift_eq]
      exact completeMap_not_serving h3 (hother t ht hsh) hp.2
    unfold servingCount
    rw [List.countP_map]
    cases hn : completeNextToken st now tokenId T.shift with
    | none =>
      rw [hn] at hcore
      apply le_of_eq_of_le ?_ (Nat.zero_le 1)
      rw [List.countP_eq_zero]
      intro t ht hp
      exact absurd (hcore t ht hp) (by simp)
    | some n =>
      rw [hn] at hcore
      refine le_trans (List.countP_mono_left ?_) (uniqueIds_countP_id hu n.id)
      intro t ht hp
      have := hcore t ht hp
      simp only [Option.map_some', Option.some.injEq] at this
      simp [this]
  · have hc : servingCount (st.tokens.map
        (completeMap now tokenId (completeMissedIds st now tokenId T.shift)
          ((completeNextToken st now tokenId T.shift).map (fun t => t.id)))) s =
        servingCount st.tokens s := by
      unfold servingCount
      rw [List.countP_map]
      apply List.countP_congr
      intro t ht
      simp only [Function.comp_apply]
      by_cases hsh : t.shift = T.shift
      · have hts : t.shift ≠ s := by rw [hsh]; exact fun h => hs h.symm
        have hss : (completeMap now tokenId (completeMissedIds st now tokenId T.shift)
            ((completeNextToken st now tokenId T.shift).map (fun t => t.id)) t).shift ≠ s := by
          rw [hkeep.shift_eq]; exact hts
        simp [hts, hss]
      · have hid : t.id ≠ tokenId := by
          intro hid
          have : t = T := hu.eq_of_id ht hTm (by rw [hid, hTi])
          exact hsh (by rw [this])
        rw [completeMap_outside hu ht hid (fun h => hsh h.1)]
    rw [hc]
    exact h1 s

theorem markComplete_servingCount_pos {st : State} {now tokenId : Nat} {T : Token}
    {pre post : List Token} {P : Token} (hu : UniqueIds st.tokens)
    (hfind : findById st.tokens tokenId = some T) (hst : T.status ≠ Status.completed)
    (hsplit : findSorted st.tokens (getDayBounds now) T.shift = pre ++ T :: post)
    (hP : P ∈ post) (hPs : P.status = Status.pending) :
    1 ≤ servingCount (markComplete st now (some tokenId)).2.tokens T.shift := by
  have hnext := completeNextToken_split hu hfind hsplit
  cases hn : completeNextToken st now tokenId T.shift with
  | none =>
    rw [hn] at hnext
    have := List.find?_eq_none.mp hnext.symm P hP
    simp [hPs] at this
  | some n =>
    obtain ⟨hnm, _, _, hnsh, _⟩ := completeNextToken_some hn
    rw [markComplete_tokens hfind hst, hn]
    unfold servingCount
    apply List.countP_pos_iff.mpr
    refine ⟨completeMap now tokenId (completeMissedIds st now tokenId T.shift) (some n.id) n,
      List.mem_map_of_mem _ hnm, ?_⟩
    have hsh := (keepsCore_completeMap now tokenId (completeMissedIds st now tokenId T.shift)
      (some n.id)).shift_eq n
    simp only [Bool.and_eq_true, decide_eq_true_eq]
    exact ⟨by rw [hsh, hnsh], completeMap_next_status⟩

theorem step_oneServing (d : Nat) (st : State) (op : Op) (h : OneServing d st)
    (hop : servingOnlyOp d st op = true) : OneServing d (step st op) := by
  obtain ⟨hu, hd, h1⟩ := h
  unfold servingOnlyOp at hop
  rw [Bool.and_eq_true, decide_eq_true_eq] at hop
  refine ⟨step_uniqueIds st op hu, step_allInDay d st op hd hop.1, ?_⟩
  intro s
  cases op with
  | generate now patientId shift isEmergency =>
    exact generateToken_servingCount hu hd hop.1 h1 patientId shift isEmergency s
  | complete now tokenId =>
    cases tokenId with
    | none => exact absurd hop.2 (by simp)
    | some i =>
      have h2 := hop.2
      dsimp only at h2
      cases hfind : findById st.tokens i with
      | none => rw [hfind] at h2; exact absurd h2 (by simp)
      | some T =>
        rw [hfind] at h2
        exact markComplete_servingCount hu h1 hfind (by simpa using h2) s
  | pause now => exact absurd hop.2 (by simp)
  | configure now m e => exact absurd hop.2 (by simp)

theorem run_oneServing (d : Nat) (ops rest : List Op) :
    ∀ st : State, OneServing d st → servingOnly d st (ops ++ rest) = true →
      OneServing d (run st ops) ∧ servingOnly d (run st ops) rest = true := by
  induction ops with
  | nil => intro st h hs; exact ⟨h, hs⟩
  | cons op ops ih =>
    intro st h hs
    rw [List.cons_append, servingOnly, Bool.and_eq_true] at hs
    exact ih (step st op) (step_oneServing d st op h hs.1) hs.2

theorem oneServing_empty (d : Nat) : OneServing d State.empty :=
  ⟨List.nodup_nil, fun _ ht => (by cases ht), fun _ => Nat.zero_le 1⟩

/-! ## The two phases of `generateToken` -/

/-- Handled without interruption, the reads followed by the writes are `generateToken`. -/
theorem generateToken_phases (st : State) (now patientId : Nat) (shift : Shift)
    (isEmergency : Bool) :
    (generateToken st now patientId (some shift) isEmergency).2 =
      match generateReads st now patientId shift isEmergency with
      | some doc => generateWrites st now doc
      | none => st := by
  rw [generateToken_eq]
  unfold generateReads
  cases existingToken st.tokens now patientId shift with
  | some ex =>
    dsimp only
    split_ifs <;> rfl
  | none =>
    dsimp only
    split_ifs <;> rfl

/-! ## Claims -/

/-- The missed loop on the tokens that precede the completed one: for a ledger with unique
ids and the sorted list `pre ++ T :: post`, a pending token of `pre` is stored as missed and
every other token of `pre` is stored unchanged. -/
theorem markComplete_pre {st : State} {now tokenId : Nat} {T : Token}
    {pre post : List Token} (hu : UniqueIds st.tokens)
    (hfind : findById st.tokens tokenId = some T) (hst : T.status ≠ Status.completed)
    (hsplit : findSorted st.tokens (getDayBounds now) T.shift = pre ++ T :: post)
    {u : Token} (hup : u ∈ pre) :
    findById (markComplete st now (some tokenId)).2.tokens u.id =
      some (if u.status = Status.pending then setMissed now u else u) := by
  have hmem : u ∈ st.tokens :=
    (mem_findSorted.mp (by rw [hsplit]; exact List.mem_append_left _ hup)).1
  have hlook := findById_map (keepsCore_completeMap now tokenId
    (completeMissedIds st now tokenId T.shift)
    ((completeNextToken st now tokenId T.shift).map (fun t => t.id))) hu hmem
  rw [← markComplete_tokens hfind hst, completeMissedIds_split hu hfind hsplit,
    completeNextToken_split hu hfind hsplit, completeMap_pre hu hfind hsplit hup] at hlook
  exact hlook

/-- C10: in a ledger with unique ids, let `T` be a token of the current day that is not yet
completed. Then `T` has a place in the sorted list of its day and shift, and whenever that
list is `pre ++ T :: post`, after `markComplete` of `T` every token of `pre` (the tokens that
precede `T` in the order) that was pending is stored as missed with `missedAt` set to the
instant of the call, and every token of `pre` that was not pending is stored with its status
(and all other fields) unchanged. -/
theorem markComplete_missed_cascade (st : State) (now tokenId : Nat) (T : Token)
    (hu : UniqueIds st.tokens) (hfind : findById st.tokens tokenId = some T)
    (hst : T.status ≠ Status.completed) (hday : inDay (getDayBounds now) T = true) :
    (∃ pre post, findSorted st.tokens (getDayBounds now) T.shift = pre ++ T :: post) ∧
    ∀ pre post, findSorted st.tokens (getDayBounds now) T.shift = pre ++ T :: post →
      ∀ u ∈ pre,
        (u.status = Status.pending →
          ∃ v, findById (markComplete st now (some tokenId)).2.tokens u.id = some v ∧
            v.status = Status.missed ∧ v.missedAt = some now ∧ v = setMissed now u) ∧
        (u.status ≠ Status.pending →
          ∃ v, findById (markComplete st now (some tokenId)).2.tokens u.id = some v ∧
            v.status = u.status ∧ v = u) := by
  constructor
  · exact List.append_of_mem (mem_findSorted.mpr ⟨(findById_some hfind).1, rfl, hday⟩)
  · intro pre post hsplit u hup
    have hlook := markComplete_pre hu hfind hst hsplit hup
    constructor
    · intro hp
      rw [if_pos hp] at hlook
      exact ⟨_, hlook, rfl, rfl, rfl⟩
    · intro hp
      rw [if_neg hp] at hlook
      exact ⟨_, hlook, rfl, rfl⟩

/-- C6: when the patient holds no token for the shift today, a regular `generateToken` is
refused with the capacity message, leaving ledger and configuration as they were, exactly when
the number of regular tokens of the shift today is at or above the configured capacity;
otherwise the call answers 201 with a token whose number is that count plus one, which is at
most the capacity, stores that token and adds nothing else to the ledger. -/
theorem generateToken_capacity (st : State) (now patientId : Nat) (shift : Shift)
    (hno : existingToken st.tokens now patientId shift = none) :
    (capacity st.config shift ≤ (regularCount st.tokens now shift : Int) →
      generateToken st now patientId (some shift) false =
        (capacityResponse st.config shift, st)) ∧
    ((regularCount st.tokens now shift : Int) < capacity st.config shift →
      (generateToken st now patientId (some shift) false).1 =
        issueResponse st now patientId shift false ∧
      (generateToken st now patientId (some shift) false).1.status = 201 ∧
      (newToken st now patientId shift false).tokenNumber =
        toString (regularCount st.tokens now shift + 1) ∧
      ((regularCount st.tokens now shift + 1 : Nat) : Int) ≤ capacity st.config shift ∧
      (∃ stored,
        findById (generateToken st now patientId (some shift) false).2.tokens
          (newToken st now patientId shift false).id = some stored ∧
        stored.tokenNumber = toString (regularCount st.tokens now shift + 1) ∧
        stored.isEmergency = false ∧ stored.patientId = patientId ∧ stored.shift = shift) ∧
      (generateToken st now patientId (some shift) false).2.tokens.length =
        st.tokens.length + 1) ∧
    ((generateToken st now patientId (some shift) false).1 = capacityResponse st.config shift ↔
      capacity st.config shift ≤ (regularCount st.tokens now shift : Int)) := by
  have heq := generateToken_eq st now patientId shift false
  rw [hno] at heq
  simp only [Bool.false_eq_true, false_and, if_false, true_and] at heq
  have hfull : capacity st.config shift ≤ (regularCount st.tokens now shift : Int) →
      generateToken st now patientId (some shift) false =
        (capacityResponse st.config shift, st) := by
    intro h; rw [heq, if_pos h]
  have hfree : (regularCount st.tokens now shift : Int) < capacity st.config shift →
      generateToken st now patientId (some shift) false =
        (issueResponse st now patientId shift false,
          issueState st now patientId shift false) := by
    intro h; rw [heq, if_neg (not_le.mpr h)]
  refine ⟨hfull, ?_, ?_⟩
  · intro h
    rw [hfree h]
    obtain ⟨stored, hs1, hs2, _⟩ := findById_issueState st now patientId shift false
    refine ⟨rfl, rfl, rfl, by push_cast; omega, ⟨stored, hs1, ?_, ?_, ?_, ?_⟩,
      issueState_length st now patientId shift false⟩
    · exact congrArg Token.tokenNumber hs2
    · exact congrArg Token.isEmergency hs2
    · exact congrArg Token.patientId hs2
    · exact congrArg Token.shift hs2
  · constructor
    · intro h
      by_contra hlt
      rw [hfree (not_le.mp hlt)] at h
      have hs : (201 : Nat) = 400 := congrArg Response.status h
      exact absurd hs (by decide)
    · intro h; rw [hfull h]

/-- Witness of C6 on a ledger with three regular morning tokens: capacity 3 refuses patient 9,
capacity 30 issues number 4. -/
theorem generateToken_capacity_witness :
    generateToken sampleStateFull 4000 9 (some Shift.morning) false =
        (capacityResponse sampleStateFull.config Shift.morning, sampleStateFull) ∧
      (newToken sampleState 4000 9 Shift.morning false).tokenNumber = "4" ∧
      (generateToken sampleState 4000 9 (some Shift.morning) false).2.tokens.length = 4 :=
  ⟨(generateToken_capacity sampleStateFull 4000 9 Shift.morning (by decide)).1 (by decide),
   ((generateToken_capacity sampleState 4000 9 Shift.morning (by decide)).2.1 (by decide)).2.2.1,
   ((generateToken_capacity sampleState 4000 9 Shift.morning
      (by decide)).2.1 (by decide)).2.2.2.2.2⟩

/-- C7: in every state reached from the empty ledger, a patient has at most one token per day
and shift, and `generateToken` of a patient who has a token for today and the requested shift
whose status is not missed is refused with "You already have a token for this shift today"
and leaves the state as it is (so no token is created); in any state at all the same refusal
is given whenever the token the handler finds for the patient is not missed. -/
theorem generateToken_duplicate (ops : List Op) :
    OnePerShift (run State.empty ops).tokens ∧
    (∀ (now patientId : Nat) (shift : Shift) (isEmergency : Bool) (t : Token),
      t ∈ (run State.empty ops).tokens → t.patientId = patientId → t.shift = shift →
      inDay (getDayBounds now) t = true → t.status ≠ Status.missed →
      generateToken (run State.empty ops) now patientId (some shift) isEmergency =
        (Response.msg 400 "You already have a token for this shift today",
          run State.empty ops)) ∧
    (∀ (st : State) (now patientId : Nat) (shift : Shift) (isEmergency : Bool) (ex : Token),
      existingToken st.tokens now patientId shift = some ex → ex.status ≠ Status.missed →
      generateToken st now patientId (some shift) isEmergency =
        (Response.msg 400 "You already have a token for this shift today", st)) := by
  have harb : ∀ (st : State) (now patientId : Nat) (shift : Shift) (isEmergency : Bool)
      (ex : Token), existingToken st.tokens now patientId shift = some ex →
      ex.status ≠ Status.missed →
      generateToken st now patientId (some shift) isEmergency =
        (Response.msg 400 "You already have a token for this shift today", st) := by
    intro st now patientId shift isEmergency ex hex hm
    rw [generateToken_eq, hex]
    dsimp only
    rw [if_neg hm]
  refine ⟨reachable_onePerShift ops, ?_, harb⟩
  intro now patientId shift isEmergency t ht hp hs hd hm
  have hpt : (fun t : Token => decide (t.patientId = patientId) && decide (t.shift = shift) &&
      inDay (getDayBounds now) t) t = true := by
    simp [hp, hs, hd]
  cases hex : existingToken (run State.empty ops).tokens now patientId shift with
  | none =>
    unfold existingToken at hex
    rw [List.find?_eq_none] at hex
    exact absurd hpt (hex t ht)
  | some ex =>
    have hex' := hex
    unfold existingToken at hex'
    have hpex := List.find?_some hex'
    have heq : ex = t :=
      @countP_le_one_eq (fun t : Token => decide (t.patientId = patientId) &&
        decide (t.shift = shift) && inDay (getDayBounds now) t) _
        (reachable_onePerShift ops patientId shift now) ex t
        (List.mem_of_find?_eq_some hex') ht hpex hpt
    exact harb _ now patientId shift isEmergency ex hex (by rw [heq]; exact hm)

/-- Witness of C7: after three patients drew morning tokens, a second request of patient 2
(whose token is pending) is refused. -/
theorem generateToken_duplicate_witness :
    generateToken (run State.empty sampleOps) 5000 2 (some Shift.morning) true =
      (Response.msg 400 "You already have a token for this shift today",
        run State.empty sampleOps) :=
  (generateToken_duplicate sampleOps).2.1 5000 2 Shift.morning true sampleB
    (by decide) (by decide) (by decide) (by decide) (by decide)

/-- C8: when the token the patient holds for today and the requested shift is missed,
`generateToken` is refused with the missed-token message, for regular and emergency requests
alike, and the state stays as it is, so no replacement token is created. -/
theorem generateToken_missed (st : State) (now patientId : Nat) (shift : Shift)
    (isEmergency : Bool) (ex : Token)
    (hex : existingToken st.tokens now patientId shift = some ex)
    (hm : ex.status = Status.missed) :
    generateToken st now patientId (some shift) isEmergency =
      (Response.msg 400 "You missed your token for this shift. Cannot generate a new token.",
        st) := by
  rw [generateToken_eq, hex]
  dsimp only
  rw [if_pos hm]

/-- Witness of C8: patient 4, whose emergency morning token is missed, asks for a regular
morning token. -/
theorem generateToken_missed_witness :
    generateToken sampleStateE 5000 4 (some Shift.morning) false =
      (Response.msg 400 "You missed your token for this shift. Cannot generate a new token.",
        sampleStateE) :=
  generateToken_missed sampleStateE 5000 4 Shift.morning false sampleE (by decide) (by decide)

/-- C9: in every state reached from the empty ledger a patient has at most one emergency token
per day over both shifts; and in any state, an emergency `generateToken` of a patient who
holds an emergency token today (in either shift) is refused with status 400 and leaves the
state as it is, the message being "You already have an emergency token today" when the
patient has no token in the requested shift. -/
theorem generateToken_emergency (ops : List Op) :
    OneEmergencyPerDay (run State.empty ops).tokens ∧
    (∀ (st : State) (now patientId : Nat) (shift : Shift) (t : Token),
      t ∈ st.tokens → t.patientId = patientId → t.isEmergency = true →
      inDay (getDayBounds now) t = true →
      (generateToken st now patientId (some shift) true).1.status = 400 ∧
      (generateToken st now patientId (some shift) true).2 = st ∧
      (existingToken st.tokens now patientId shift = none →
        generateToken st now patientId (some shift) true =
          (Response.msg 400 "You already have an emergency token today", st))) := by
  refine ⟨reachable_oneEmergencyPerDay ops, ?_⟩
  intro st now patientId shift t ht hp he hd
  have hsome : (existingEmergency st.tokens now patientId).isSome = true := by
    unfold existingEmergency
    rw [List.find?_isSome]
    exact ⟨t, ht, by simp [hp, he, hd]⟩
  rw [generateToken_eq]
  cases hex : existingToken st.tokens now patientId shift with
  | some ex =>
    dsimp only
    refine ⟨?_, ?_, ?_⟩
    · split_ifs <;> rfl
    · split_ifs <;> rfl
    · intro h; cases h
  | none =>
    dsimp only
    rw [if_pos ⟨rfl, hsome⟩]
    exact ⟨rfl, rfl, fun _ => rfl⟩

/-- Witness of C9: patient 4 holds an emergency evening token and asks for an emergency
morning token. -/
theorem generateToken_emergency_witness :
    generateToken sampleStateF 5000 4 (some Shift.morning) true =
      (Response.msg 400 "You already have an emergency token today", sampleStateF) :=
  ((generateToken_emergency []).2 sampleStateF 5000 4 Shift.morning sampleF
    (by decide) (by decide) (by decide) (by decide)).2.2 (by decide)

/-- Witness of C10: in a ledger with tokens 1 (serving), 2 and 3 (pending), completing token
3 stores token 2 as missed and leaves token 1 serving. -/
theorem markComplete_missed_cascade_witness :
    (∃ v, findById (markComplete sampleState 4000 (some 3)).2.tokens sampleB.id = some v ∧
        v.status = Status.missed ∧ v.missedAt = some 4000 ∧ v = setMissed 4000 sampleB) ∧
      (∃ v, findById (markComplete sampleState 4000 (some 3)).2.tokens sampleA.id = some v ∧
        v.status = sampleA.status ∧ v = sampleA) :=
  ⟨((markComplete_missed_cascade sampleState 4000 3 sampleC (by decide) (by decide)
      (by decide) (by decide)).2 [sampleA, sampleB] [] (by decide) sampleB
      (by decide)).1 (by decide),
   ((markComplete_missed_cascade sampleState 4000 3 sampleC (by decide) (by decide)
      (by decide) (by decide)).2 [sampleA, sampleB] [] (by decide) sampleA
      (by decide)).2 (by decide)⟩

/-- C5: after any sequence of requests handled one after the other within one day, starting
from the empty ledger, the regular tokens of every shift carry, in the order of issuance, the
numbers 1 to N and the emergency tokens the emergency numbers 1 to M (displayed as E-1 to
E-M), where N and M are the numbers of regular and of emergency tokens of the shift in the
ledger; in particular there is no gap and no duplicate. -/
theorem sequence_numbers_dense (ops : List Op) (d : Nat)
    (hday : ∀ op ∈ ops, op.now / msPerDay = d) (shift : Shift) :
    regularNumbers (run State.empty ops).tokens shift =
      (List.range ((run State.empty ops).tokens.filter
        (fun t => decide (t.shift = shift) && !t.isEmergency)).length).map
        (fun i => toString (i + 1)) ∧
    emergencyNumbers (run State.empty ops).tokens shift =
      (List.range ((run State.empty ops).tokens.filter
        (fun t => decide (t.shift = shift) && t.isEmergency)).length).map
        (fun i => some (i + 1)) ∧
    emergencyLabels (run State.empty ops).tokens shift =
      (List.range ((run State.empty ops).tokens.filter
        (fun t => decide (t.shift = shift) && t.isEmergency)).length).map
        (fun i => "E-" ++ toString (i + 1)) ∧
    (regularNumbers (run State.empty ops).tokens shift).Nodup ∧
    (emergencyNumbers (run State.empty ops).tokens shift).Nodup := by
  have hrun := run_dense d ops State.empty hday (fun t ht => by cases ht)
    (fun s => ⟨rfl, rfl, rfl⟩)
  obtain ⟨d1, d2, d3⟩ := hrun.2 shift
  have l1 : (regularNumbers (run State.empty ops).tokens shift).length =
      ((run State.empty ops).tokens.filter
        (fun t => decide (t.shift = shift) && !t.isEmergency)).length := by
    simp [regularNumbers]
  have l2 : (emergencyNumbers (run State.empty ops).tokens shift).length =
      ((run State.empty ops).tokens.filter
        (fun t => decide (t.shift = shift) && t.isEmergency)).length := by
    simp [emergencyNumbers]
  have l3 : (emergencyLabels (run State.empty ops).tokens shift).length =
      ((run State.empty ops).tokens.filter
        (fun t => decide (t.shift = shift) && t.isEmergency)).length := by
    simp [emergencyLabels]
  rw [l1] at d1
  rw [l2] at d2
  rw [l3] at d3
  refine ⟨d1, d2, d3, ?_, ?_⟩
  · rw [d1]
    apply List.Nodup.map _ (List.nodup_range _)
    intro a b hab
    have := toString_nat_injective hab
    omega
  · rw [d2]
    apply List.Nodup.map _ (List.nodup_range _)
    intro a b hab
    have : a + 1 = b + 1 := Option.some.inj hab
    omega

/-- Witness of C5: three patients draw regular morning tokens on day 0; the numbers are 1, 2
and 3. -/
theorem sequence_numbers_dense_witness :
    regularNumbers (run State.empty sampleOps).tokens Shift.morning = ["1", "2", "3"] :=
  (sequence_numbers_dense sampleOps 0 (by decide) Shift.morning).1

/-- C1 (evaluation at the failing input): after patients 1, 2 and 3 drew regular morning
tokens and the doctor completed the pending token 2 while token 1 was being served, the tokens
1 and 3 of the same day and shift are both serving. -/
theorem markComplete_pending_two_serving :
    ((run State.empty scenarioCompletePending).tokens.filter
        (fun t => decide (t.status = Status.serving))).map
      (fun t => (t.id, t.shift, t.date / msPerDay)) =
      [(1, Shift.morning, 0), (3, Shift.morning, 0)] := by
  decide

/-- C2 (evaluation at the failing input): patient 1 draws regular token "1" (serving), patient
2 draws emergency token "E-1" (pending); after `markComplete` on token 1 the emergency token is
missed and no token is current. -/
theorem markComplete_misses_emergency :
    (run State.empty (scenarioEmergency.take 2)).tokens.map
        (fun t => (t.id, t.tokenNumber, t.status)) =
      [(1, "1", Status.serving), (2, "E-1", Status.pending)] ∧
    (run State.empty scenarioEmergency).tokens.map
        (fun t => (t.id, t.tokenNumber, t.status)) =
      [(1, "1", Status.completed), (2, "E-1", Status.missed)] ∧
    (run State.empty scenarioEmergency).config.currentTokenId = none := by
  decide

/-- C3 (evaluation at the failing input): with ten regular morning tokens of one day, the
sorted query puts token "10" before token "2". -/
theorem findSorted_ten_before_two :
    (findSorted (run State.empty scenarioTen).tokens (getDayBounds 2000) Shift.morning).map
        (fun t => t.tokenNumber) =
      ["1", "10", "2", "3", "4", "5", "6", "7", "8", "9"] := by
  decide

/-- C4 (counterexample): the emergency token 2, missed after `scenarioEmergency`, is completed
by a `markComplete` on it. -/
theorem markComplete_leaves_missed :
    (findById (run State.empty scenarioEmergency).tokens 2).map (fun t => t.status) =
      some Status.missed ∧
    (findById (step (run State.empty scenarioEmergency) (Op.complete 4000 (some 2))).tokens
      2).map (fun t => t.status) = some Status.completed := by
  decide

/-- C4 (amended): in a ledger with unique ids, every operation leaves a completed token as it
is; every operation other than `markComplete` on the token itself leaves a missed token as it
is; and `markComplete` on a missed token stores it as completed. -/
theorem terminal_status (st : State) (op : Op) (t : Token) (hu : UniqueIds st.tokens)
    (ht : t ∈ st.tokens) :
    (t.status = Status.completed → findById (step st op).tokens t.id = some t) ∧
    (t.status = Status.missed → (∀ now, op ≠ Op.complete now (some t.id)) →
      findById (step st op).tokens t.id = some t) ∧
    (t.status = Status.missed → ∀ now,
      findById (step st (Op.complete now (some t.id))).tokens t.id =
        some (setCompleted now t)) := by
  have hsame : findById st.tokens t.id = some t := findById_of_mem hu ht
  have hother : ∀ (now : Nat) (tokenId : Option Nat), t.status ≠ Status.pending →
      t.status ≠ Status.serving → (t.status = Status.completed ∨ tokenId ≠ some t.id) →
      findById (markComplete st now tokenId).2.tokens t.id = some t := by
    intro now tokenId hp hs hor
    cases tokenId with
    | none => exact hsame
    | some tid =>
      cases hfind : findById st.tokens tid with
      | none => simpa [markComplete, hfind] using hsame
      | some T =>
        by_cases hst : T.status = Status.completed
        · simpa [markComplete, hfind, hst] using hsame
        · have hT := findById_some hfind
          have hne : t.id ≠ tid := by
            intro hid
            have hTt : T = t := hu.eq_of_id hT.1 ht (by rw [hT.2, hid])
            rcases hor with h | h
            · exact hst (by rw [hTt]; exact h)
            · exact h (by rw [hid])
          rw [markComplete_tokens hfind hst,
            findById_map (keepsCore_completeMap _ _ _ _) hu ht,
            completeMap_other hu ht hne hp hs]
  have hgen : ∀ (now patientId : Nat) (shift : Option Shift) (isEmergency : Bool),
      t.status ≠ Status.pending →
      findById (generateToken st now patientId shift isEmergency).2.tokens t.id = some t := by
    intro now patientId shift isEmergency hp
    cases shift with
    | none => exact hsame
    | some shift =>
      rcases generateToken_cases st now patientId shift isEmergency with h | ⟨_, _, _, h⟩
      · rw [h.2]; exact hsame
      · rw [h]; exact findById_issueState_old hu now patientId shift isEmergency ht hp
  refine ⟨?_, ?_, ?_⟩
  · intro hc
    cases op with
    | generate now patientId shift isEmergency =>
      exact hgen now patientId shift isEmergency (by rw [hc]; decide)
    | complete now tokenId =>
      exact hother now tokenId (by rw [hc]; decide) (by rw [hc]; decide) (Or.inl hc)
    | pause now => exact hsame
    | configure now m e =>
      show findById (updateConfig st now m e).2.tokens t.id = some t
      rw [updateConfig_tokens]; exact hsame
  · intro hm hop
    cases op with
    | generate now patientId shift isEmergency =>
      exact hgen now patientId shift isEmergency (by rw [hm]; decide)
    | complete now tokenId =>
      exact hother now tokenId (by rw [hm]; decide) (by rw [hm]; decide)
        (Or.inr (fun h => hop now (by rw [h])))
    | pause now => exact hsame
    | configure now m e =>
      show findById (updateConfig st now m e).2.tokens t.id = some t
      rw [updateConfig_tokens]; exact hsame
  · intro hm now
    show findById (markComplete st now (some t.id)).2.tokens t.id = some (setCompleted now t)
    rw [markComplete_tokens hsame (by rw [hm]; decide),
      findById_map (keepsCore_completeMap _ _ _ _) hu ht, completeMap_self rfl]

/-- Witness of C4 (amended): in the sample ledger with a missed emergency token, completing
token 3 leaves the missed token as it is, and completing the missed token stores it as
completed. -/
theorem terminal_status_witness :
    findById (step sampleStateE (Op.complete 5000 (some 3))).tokens sampleE.id = some sampleE ∧
    findById (step sampleStateE (Op.complete 5000 (some sampleE.id))).tokens sampleE.id =
      some (setCompleted 5000 sampleE) :=
  ⟨(terminal_status sampleStateE (Op.complete 5000 (some 3)) sampleE (by decide)
      (by decide)).2.1 (by decide) (fun _ h => absurd (Op.complete.inj h).2 (by decide)),
   (terminal_status sampleStateE (Op.complete 5000 (some 3)) sampleE (by decide)
      (by decide)).2.2 (by decide) 5000⟩

/-- C17: `calculateQueueStatus` answers position 1 and "Immediate" for every emergency patient
token, whatever the queue holds; for a regular patient token that stands in today's sorted
list behind the tokens `pre`, it answers position `k + 1` and the wait `k * AVG_TIME` minutes,
where `k` is the number of tokens of `pre` that are pending or serving. -/
theorem calculateQueueStatus_position (st : State) (now : Nat) (avgServiceMinutes : Option Int)
    (shift : Shift) (patientToken : Token) :
    (patientToken.isEmergency = true →
      (calculateQueueStatus st now avgServiceMinutes shift (some patientToken)).waitingPosition =
        some 1 ∧
      (calculateQueueStatus st now avgServiceMinutes shift (some patientToken)).estimatedWait =
        "Immediate") ∧
    (patientToken.isEmergency = false →
      ∀ (pre post : List Token) (x : Token),
        findSorted st.tokens (getDayBounds now) shift = pre ++ x :: post →
        x.id = patientToken.id → (∀ u ∈ pre, u.id ≠ patientToken.id) →
        (calculateQueueStatus st now avgServiceMinutes shift (some patientToken)).waitingPosition =
          some (pre.countP (fun t => decide (t.status = Status.pending) ||
            decide (t.status = Status.serving)) + 1) ∧
        (calculateQueueStatus st now avgServiceMinutes shift (some patientToken)).estimatedWait =
          toString ((pre.countP (fun t => decide (t.status = Status.pending) ||
            decide (t.status = Status.serving)) : Int) * avgTime avgServiceMinutes) ++
            " minutes") := by
  constructor
  · intro he
    unfold calculateQueueStatus
    simp only [he, if_true, and_self]
  · intro he pre post x hsplit hx hpre
    have hidx : findIndex (fun t => decide (t.id = patientToken.id))
        (findSorted st.tokens (getDayBounds now) shift) = (pre.length : Int) := by
      rw [hsplit]
      exact findIndex_split _ pre post x (fun u hu => by simpa using hpre u hu) (by simpa using hx)
    have hne : (pre.length : Int) ≠ -1 := by omega
    unfold calculateQueueStatus
    simp only [he, Bool.false_eq_true, if_false, hidx, hne, ne_eq, not_false_eq_true, if_true,
      Int.toNat_ofNat]
    rw [hsplit, List.take_left' rfl, List.countP_eq_length_filter]
    exact ⟨rfl, rfl⟩

/-- Witness of C17: patient 5 stands behind three waiting regular tokens; with the average of
5 minutes the position is 4 and the wait "15 minutes". -/
theorem calculateQueueStatus_position_witness :
    (calculateQueueStatus sampleStateD 4000 (some 5) Shift.morning (some sampleD)).waitingPosition
        = some 4 ∧
      (calculateQueueStatus sampleStateD 4000 (some 5) Shift.morning (some sampleD)).estimatedWait
        = "15 minutes" ∧
      (calculateQueueStatus sampleStateD 4000 (some 5) Shift.morning (some sampleE)).waitingPosition
        = some 1 :=
  ⟨((calculateQueueStatus_position sampleStateD 4000 (some 5) Shift.morning sampleD).2
      (by decide) [sampleA, sampleB, sampleC] [] sampleD (by decide) (by decide) (by decide)).1,
   ((calculateQueueStatus_position sampleStateD 4000 (some 5) Shift.morning sampleD).2
      (by decide) [sampleA, sampleB, sampleC] [] sampleD (by decide) (by decide) (by decide)).2,
   ((calculateQueueStatus_position sampleStateD 4000 (some 5) Shift.morning sampleE).1
      (by decide)).1⟩

/-- C18: the `currentServing` of `calculateQueueStatus` is the token the specification names
(the serving one; else the first pending emergency token of the order; else the first pending
regular token; else none), reported by number and emergency flag, and `totalTokens` is the
number of all tokens of the shift today, whatever their status. -/
theorem calculateQueueStatus_snapshot (st : State) (now : Nat) (avgServiceMinutes : Option Int)
    (shift : Shift) (patientToken : Option Token) :
    (calculateQueueStatus st now avgServiceMinutes shift patientToken).currentServing =
      (currentServingSpec (findSorted st.tokens (getDayBounds now) shift)).map
        (fun t => { tokenNumber := t.tokenNumber, isEmergency := t.isEmergency }) ∧
    (calculateQueueStatus st now avgServiceMinutes shift patientToken).totalTokens =
      st.tokens.countP (fun t => decide (t.shift = shift) && inDay (getDayBounds now) t) := by
  constructor
  · have hcs : (calculateQueueStatus st now avgServiceMinutes shift patientToken).currentServing =
        (((findSorted st.tokens (getDayBounds now) shift).find?
            (fun t => decide (t.status = Status.serving))).or
          (((findSorted st.tokens (getDayBounds now) shift).find?
              (fun t => decide (t.status = Status.pending) && t.isEmergency)).or
            ((findSorted st.tokens (getDayBounds now) shift).find?
              (fun t => decide (t.status = Status.pending))))).map
          (fun t => { tokenNumber := t.tokenNumber, isEmergency := t.isEmergency }) := rfl
    rw [hcs]
    congr 1
    unfold currentServingSpec
    generalize findSorted st.tokens (getDayBounds now) shift = l
    cases h1 : l.find? (fun t => decide (t.status = Status.serving)) with
    | some t => rfl
    | none =>
      cases h2 : l.find? (fun t => decide (t.status = Status.pending) && t.isEmergency) with
      | some t => rfl
      | none =>
        simp only [Option.or_none, Option.none_or]
        rw [List.find?_eq_none] at h2
        clear h1
        induction l with
        | nil => rfl
        | cons a l ih =>
          have ha := h2 a (List.mem_cons_self _ _)
          have hl := ih (fun x hx => h2 x (List.mem_cons_of_mem _ hx))
          simp only [List.find?_cons]
          by_cases hp : a.status = Status.pending
          · have he : a.isEmergency = false := by simpa [hp] using ha
            simp [hp, he]
          · simp only [hp, decide_False, Bool.false_and]
            exact hl
  · have ht : (calculateQueueStatus st now avgServiceMinutes shift patientToken).totalTokens =
        (findSorted st.tokens (getDayBounds now) shift).length := rfl
    rw [ht, (findSorted_perm st.tokens (getDayBounds now) shift).length_eq,
      List.countP_eq_length_filter]

/-- C19: `updateConfig` with a morning or evening capacity below 1 is refused with "Max tokens
must be at least 1" and the stored state stays as it is, also when the other capacity of the
same request is valid; and no `updateConfig` call, accepted or refused, changes the ledger, so
every issued token keeps its number and status whatever the new capacity. -/
theorem updateConfig_invalid (st : State) (now : Nat) (maxTokensMorning maxTokensEvening :
    Option Int) :
    (∀ v, maxTokensMorning = some v → v < 1 →
      updateConfig st now maxTokensMorning maxTokensEvening =
        (Response.msg 400 "Max tokens must be at least 1", st)) ∧
    (∀ v, maxTokensEvening = some v → v < 1 →
      updateConfig st now maxTokensMorning maxTokensEvening =
        (Response.msg 400 "Max tokens must be at least 1", st)) ∧
    (updateConfig st now maxTokensMorning maxTokensEvening).2.tokens = st.tokens := by
  refine ⟨?_, ?_, updateConfig_tokens st now maxTokensMorning maxTokensEvening⟩
  · intro v hm hv
    subst hm
    unfold updateConfig
    simp only [hv, if_true]
  · intro v he hv
    subst he
    unfold updateConfig
    cases maxTokensMorning with
    | none => simp only [hv, if_true]
    | some m =>
      dsimp only
      split_ifs <;> rfl

/-- Witness of C19: lowering the morning capacity to 0 is refused although the evening capacity
40 of the same request is valid, and lowering it to 1 with three tokens issued leaves the
ledger as it is. -/
theorem updateConfig_invalid_witness :
    updateConfig sampleState 5000 (some 0) (some 40) =
        (Response.msg 400 "Max tokens must be at least 1", sampleState) ∧
      updateConfig sampleState 5000 (some 40) (some 0) =
        (Response.msg 400 "Max tokens must be at least 1", sampleState) ∧
      (updateConfig sampleState 5000 (some 1) none).2.tokens = [sampleA, sampleB, sampleC] :=
  ⟨(updateConfig_invalid sampleState 5000 (some 0) (some 40)).1 0 rfl (by decide),
   (updateConfig_invalid sampleState 5000 (some 40) (some 0)).2.1 0 rfl (by decide),
   (updateConfig_invalid sampleState 5000 (some 1) none).2.2⟩

/-- C11: in a ledger with unique ids, let `T` be a token of the current day that is not yet
completed. Then `T` has a place in the sorted list of its day and shift, and whenever that
list is `pre ++ T :: post`, after `markComplete` of `T`: `T` is stored as completed with
`servedAt` set to the instant of the call; if `post` has a first token that was pending or
serving, that token is stored as serving and `currentTokenId` is its id; if `post` has no such
token, `currentTokenId` is null; and every other token of `post` is stored unchanged. -/
theorem markComplete_promotion (st : State) (now tokenId : Nat) (T : Token)
    (hu : UniqueIds st.tokens) (hfind : findById st.tokens tokenId = some T)
    (hst : T.status ≠ Status.completed) (hday : inDay (getDayBounds now) T = true) :
    (∃ pre post, findSorted st.tokens (getDayBounds now) T.shift = pre ++ T :: post) ∧
    ∀ pre post, findSorted st.tokens (getDayBounds now) T.shift = pre ++ T :: post →
      (∃ v, findById (markComplete st now (some tokenId)).2.tokens tokenId = some v ∧
        v.status = Status.completed ∧ v.servedAt = some now ∧ v = setCompleted now T) ∧
      (∀ n, post.find? (fun t => decide (t.status = Status.pending) ||
          decide (t.status = Status.serving)) = some n →
        (∃ v, findById (markComplete st now (some tokenId)).2.tokens n.id = some v ∧
          v.status = Status.serving ∧ v = setServing n) ∧
        (markComplete st now (some tokenId)).2.config.currentTokenId = some n.id) ∧
      (post.find? (fun t => decide (t.status = Status.pending) ||
          decide (t.status = Status.serving)) = none →
        (markComplete st now (some tokenId)).2.config.currentTokenId = none) ∧
      (∀ u ∈ post, post.find? (fun t => decide (t.status = Status.pending) ||
          decide (t.status = Status.serving)) ≠ some u →
        ∃ v, findById (markComplete st now (some tokenId)).2.tokens u.id = some v ∧
          v.status = u.status ∧ v = u) := by
  constructor
  · exact List.append_of_mem (mem_findSorted.mpr ⟨(findById_some hfind).1, rfl, hday⟩)
  · intro pre post hsplit
    have hTm := (findById_some hfind).1
    have hTi := (findById_some hfind).2
    have hkc := keepsCore_completeMap now tokenId (completeMissedIds st now tokenId T.shift)
      ((completeNextToken st now tokenId T.shift).map (fun t => t.id))
    have hpost : ∀ u ∈ post, findById (markComplete st now (some tokenId)).2.tokens u.id =
        some (if post.find? (fun t => decide (t.status = Status.pending) ||
          decide (t.status = Status.serving)) = some u then setServing u else u) := by
      intro u hup
      have hmem : u ∈ st.tokens :=
        (mem_findSorted.mp (by
          rw [hsplit]; exact List.mem_append_right _ (List.mem_cons_of_mem _ hup))).1
      have hlook := findById_map hkc hu hmem
      rw [← markComplete_tokens hfind hst, completeMissedIds_split hu hfind hsplit,
        completeNextToken_split hu hfind hsplit, completeMap_post hu hfind hsplit hup] at hlook
      exact hlook
    have hcfg := @markComplete_config st now tokenId T hfind hst
    rw [completeNextToken_split hu hfind hsplit] at hcfg
    refine ⟨?_, ?_, ?_, ?_⟩
    · have hlook := findById_map hkc hu hTm
      rw [← markComplete_tokens hfind hst, hTi, completeMap_self hTi] at hlook
      exact ⟨_, hlook, rfl, rfl, rfl⟩
    · intro n hn
      have hl := hpost n (List.mem_of_find?_eq_some hn)
      rw [if_pos hn] at hl
      refine ⟨⟨_, hl, rfl, rfl⟩, ?_⟩
      rw [hcfg, hn]
      rfl
    · intro hn
      rw [hcfg, hn]
      rfl
    · intro u hup hne
      have hl := hpost u hup
      rw [if_neg hne] at hl
      exact ⟨_, hl, rfl, rfl⟩

/-- Witness of C11: in the sample ledger (token 1 serving, tokens 2 and 3 pending) the doctor
completes token 1; token 2 is promoted, the pointer is 2 and token 3 stays pending. -/
theorem markComplete_promotion_witness :
    ((∃ v, findById (markComplete sampleState 4000 (some 1)).2.tokens sampleB.id = some v ∧
        v.status = Status.serving ∧ v = setServing sampleB) ∧
      (markComplete sampleState 4000 (some 1)).2.config.currentTokenId = some sampleB.id) ∧
    (∃ v, findById (markComplete sampleState 4000 (some 1)).2.tokens sampleC.id = some v ∧
        v.status = sampleC.status ∧ v = sampleC) :=
  ⟨((markComplete_promotion sampleState 4000 1 sampleA (by decide) (by decide) (by decide)
      (by decide)).2 [] [sampleB, sampleC] (by decide)).2.1 sampleB (by decide),
   ((markComplete_promotion sampleState 4000 1 sampleA (by decide) (by decide) (by decide)
      (by decide)).2 [] [sampleB, sampleC] (by decide)).2.2.2 sampleC (by decide) (by decide)⟩

/-- C12 (counterexample): the doctor completes on day 1 the token 1 of day 0; the pending
emergency token 3 of day 1 is promoted to serving, although it is not of the day of token 1. -/
theorem markComplete_other_day :
    (findById (run State.empty (scenarioOtherDay.take 3)).tokens 3).map
        (fun t => (t.status, t.date / msPerDay)) = some (Status.pending, 1) ∧
    (findById (run State.empty scenarioOtherDay).tokens 3).map
        (fun t => (t.status, t.date / msPerDay)) = some (Status.serving, 1) ∧
    (findById (run State.empty scenarioOtherDay).tokens 1).map
        (fun t => (t.status, t.date / msPerDay)) = some (Status.completed, 0) := by
  decide

/-- C12 (amended): in a ledger with unique ids, every stored token other than `T` whose status
(or any other field) `markComplete` of `T` changes is of the shift of `T` and of the day of
the call; when `T` is itself of the day of the call, that is the day of `T`. -/
theorem markComplete_frame (st : State) (now tokenId : Nat) (T t : Token)
    (hu : UniqueIds st.tokens) (hfind : findById st.tokens tokenId = some T)
    (ht : t ∈ st.tokens) (hne : t.id ≠ tokenId)
    (hch : findById (markComplete st now (some tokenId)).2.tokens t.id ≠ some t) :
    t.shift = T.shift ∧ inDay (getDayBounds now) t = true ∧
      (inDay (getDayBounds now) T = true → t.date / msPerDay = T.date / msPerDay) := by
  have hin : t.shift = T.shift ∧ inDay (getDayBounds now) t = true := by
    by_contra hout
    apply hch
    by_cases hst : T.status = Status.completed
    · rw [markComplete_completed hfind hst]
      exact findById_of_mem hu ht
    · rw [markComplete_tokens hfind hst,
        findById_map (keepsCore_completeMap _ _ _ _) hu ht, completeMap_outside hu ht hne hout]
  refine ⟨hin.1, hin.2, ?_⟩
  intro hT
  have h1 := hin.2
  rw [inDay_getDayBounds] at h1 hT
  have h1' : t.date / msPerDay = now / msPerDay := by simpa using h1
  have hT' : T.date / msPerDay = now / msPerDay := by simpa using hT
  rw [h1', hT']

/-- Witness of C12 (amended): completing token 3 of the sample ledger changes token 2 (it is
missed), and token 2 is a morning token of the same day. -/
theorem markComplete_frame_witness :
    sampleB.shift = sampleC.shift ∧ inDay (getDayBounds 4000) sampleB = true ∧
      (inDay (getDayBounds 4000) sampleC = true →
        sampleB.date / msPerDay = sampleC.date / msPerDay) :=
  markComplete_frame sampleState 4000 3 sampleC sampleB (by decide) (by decide) (by decide)
    (by decide) (by decide)

/-- C13: `markComplete` answers 404 "Token not found" when the id names no token and 400
"Token already completed" when the token is completed, and in both cases the state (every
token and the configuration) stays as it is; a second `markComplete` on the same id leaves the
state reached by the first call as it is, and when the id names a token it is answered with
"Token already completed". -/
theorem markComplete_rejections (st : State) (now tokenId : Nat) :
    (findById st.tokens tokenId = none →
      markComplete st now (some tokenId) = (Response.msg 404 "Token not found", st)) ∧
    (∀ T, findById st.tokens tokenId = some T → T.status = Status.completed →
      markComplete st now (some tokenId) =
        (Response.msg 400 "Token already completed", st)) ∧
    (∀ later, (markComplete (markComplete st now (some tokenId)).2 later (some tokenId)).2 =
      (markComplete st now (some tokenId)).2) ∧
    (∀ T later, findById st.tokens tokenId = some T →
      markComplete (markComplete st now (some tokenId)).2 later (some tokenId) =
        (Response.msg 400 "Token already completed",
          (markComplete st now (some tokenId)).2)) := by
  have hsecond : ∀ T later, findById st.tokens tokenId = some T →
      markComplete (markComplete st now (some tokenId)).2 later (some tokenId) =
        (Response.msg 400 "Token already completed",
          (markComplete st now (some tokenId)).2) := by
    intro T later hfind
    by_cases hst : T.status = Status.completed
    · rw [markComplete_completed hfind hst]
      exact markComplete_completed hfind hst
    · have hlook : findById (markComplete st now (some tokenId)).2.tokens tokenId =
          some (setCompleted now T) := by
        rw [markComplete_tokens hfind hst,
          findById_map_first (keepsCore_completeMap _ _ _ _) hfind,
          completeMap_self (findById_some hfind).2]
      exact markComplete_completed hlook rfl
  refine ⟨fun h => markComplete_not_found h, fun T h hc => markComplete_completed h hc, ?_,
    hsecond⟩
  intro later
  cases hfind : findById st.tokens tokenId with
  | none =>
    rw [markComplete_not_found hfind]
    exact congrArg Prod.snd (markComplete_not_found hfind)
  | some T => rw [hsecond T later hfind]

/-- Witness of C13: in the sample ledger, id 9 names no token, and a second `markComplete` of
token 1 is answered with "Token already completed". -/
theorem markComplete_rejections_witness :
    markComplete sampleState 4000 (some 9) = (Response.msg 404 "Token not found", sampleState) ∧
      markComplete (markComplete sampleState 4000 (some 1)).2 5000 (some 1) =
        (Response.msg 400 "Token already completed",
          (markComplete sampleState 4000 (some 1)).2) :=
  ⟨(markComplete_rejections sampleState 4000 9).1 (by decide),
   (markComplete_rejections sampleState 4000 1).2.2.2 sampleA 5000 (by decide)⟩

/-- C14 (counterexample): patient 1 holds the serving morning token, patient 2 the serving
evening token; after the doctor completes the evening token, `currentTokenId` is null although
the morning token is still serving. -/
theorem pointer_null_while_serving :
    (run State.empty scenarioTwoShifts).config.currentTokenId = none ∧
    (run State.empty scenarioTwoShifts).tokens.map (fun t => (t.id, t.shift, t.status)) =
      [(1, Shift.morning, Status.serving), (2, Shift.evening, Status.completed)] := by
  decide

/-- C14 (amended): in every state reached from the empty ledger, `currentTokenId`, when it is
not null, is the id of a stored token whose status is serving; hence it is null when no token
is serving. -/
theorem pointer_names_serving (ops : List Op) :
    (∀ i, (run State.empty ops).config.currentTokenId = some i →
      ∃ t ∈ (run State.empty ops).tokens, t.id = i ∧ t.status = Status.serving) ∧
    ((∀ t ∈ (run State.empty ops).tokens, t.status ≠ Status.serving) →
      (run State.empty ops).config.currentTokenId = none) := by
  have h := reachable_pointerValid ops
  refine ⟨h, ?_⟩
  intro hno
  cases hp : (run State.empty ops).config.currentTokenId with
  | none => rfl
  | some i =>
    obtain ⟨t, htm, _, hts⟩ := h i hp
    exact absurd hts (hno t htm)

/-- Witness of C14 (amended): after three patients drew morning tokens the pointer is 1 and
token 1 is serving. -/
theorem pointer_names_serving_witness :
    ∃ t ∈ (run State.empty sampleOps).tokens, t.id = 1 ∧ t.status = Status.serving :=
  (pointer_names_serving sampleOps).1 1 (by decide)

/-- C20: `generateToken` and `markComplete` on a state whose pause flag is replaced by any
value give the response they give on the state itself and the same resulting state up to that
flag (so the same tokens, the same `currentTokenId` and the same capacities); in particular,
after `pauseResume` both handlers answer as before it and produce the same tokens and the same
`currentTokenId`. -/
theorem pause_flag_advisory (st : State) (b : Bool) (now : Nat) :
    (∀ patientId shift isEmergency,
      generateToken (withPaused b st) now patientId shift isEmergency =
        ((generateToken st now patientId shift isEmergency).1,
          withPaused b (generateToken st now patientId shift isEmergency).2)) ∧
    (∀ tokenId,
      markComplete (withPaused b st) now tokenId =
        ((markComplete st now tokenId).1, withPaused b (markComplete st now tokenId).2)) ∧
    (∀ earlier patientId shift isEmergency,
      (generateToken (pauseResume st earlier).2 now patientId shift isEmergency).1 =
        (generateToken st now patientId shift isEmergency).1 ∧
      (generateToken (pauseResume st earlier).2 now patientId shift isEmergency).2.tokens =
        (generateToken st now patientId shift isEmergency).2.tokens ∧
      (generateToken (pauseResume st earlier).2 now patientId shift
          isEmergency).2.config.currentTokenId =
        (generateToken st now patientId shift isEmergency).2.config.currentTokenId) ∧
    (∀ earlier tokenId,
      (markComplete (pauseResume st earlier).2 now tokenId).1 = (markComplete st now tokenId).1 ∧
      (markComplete (pauseResume st earlier).2 now tokenId).2.tokens =
        (markComplete st now tokenId).2.tokens ∧
      (markComplete (pauseResume st earlier).2 now tokenId).2.config.currentTokenId =
        (markComplete st now tokenId).2.config.currentTokenId) := by
  refine ⟨fun p s e => generateToken_withPaused b st now p s e,
    fun t => markComplete_withPaused b st now t, ?_, ?_⟩
  · intro earlier p s e
    have h := generateToken_sameQueue (sameQueue_pauseResume st earlier) now p s e
    exact ⟨h.1, h.2.1, h.2.2.2.2⟩
  · intro earlier t
    have h := markComplete_sameQueue (sameQueue_pauseResume st earlier) now t
    exact ⟨h.1, h.2.1, h.2.2.2.2⟩

/-- C16: let the state be reached from the empty ledger by requests handled in the order of
time, let the shift hold exactly `c` regular tokens today and let its capacity be `c`. A
regular `generateToken` of a patient without a token for the shift is refused for capacity and
changes nothing; after an `updateConfig` that raises the capacity of the shift to `c + 1`, the
same request later that day is answered 201 with a token numbered `c + 1`, that token is
stored, and every token stored before is found unchanged (its number and status included). -/
theorem capacity_raise (ops : List Op) (now later raisedAt patientId : Nat) (shift : Shift)
    (c : Nat) (m e : Option Int) (hord : TimeOrdered ops) (hnow : ∀ op ∈ ops, op.now ≤ now)
    (hlater : now ≤ later) (hday : later / msPerDay = now / msPerDay)
    (hcap : capacity (run State.empty ops).config shift = (c : Int))
    (hcount : regularCount (run State.empty ops).tokens now shift = c)
    (hno : existingToken (run State.empty ops).tokens now patientId shift = none)
    (hraise : capacity (updateConfig (run State.empty ops) raisedAt m e).2.config shift =
      (c : Int) + 1) :
    generateToken (run State.empty ops) now patientId (some shift) false =
      (capacityResponse (run State.empty ops).config shift, run State.empty ops) ∧
    (generateToken (updateConfig (run State.empty ops) raisedAt m e).2 later patientId
        (some shift) false).1 =
      issueResponse (updateConfig (run State.empty ops) raisedAt m e).2 later patientId shift
        false ∧
    (newToken (updateConfig (run State.empty ops) raisedAt m e).2 later patientId shift
        false).tokenNumber = toString (c + 1) ∧
    (∃ stored,
      findById (generateToken (updateConfig (run State.empty ops) raisedAt m e).2 later
          patientId (some shift) false).2.tokens
        (newToken (updateConfig (run State.empty ops) raisedAt m e).2 later patientId shift
          false).id = some stored ∧
      stored.tokenNumber = toString (c + 1)) ∧
    (∀ t ∈ (run State.empty ops).tokens,
      findById (generateToken (updateConfig (run State.empty ops) raisedAt m e).2 later
        patientId (some shift) false).2.tokens t.id = some t) := by
  have htok := updateConfig_tokens (run State.empty ops) raisedAt m e
  have hinv := reachable_queueInv ops hord later (fun o ho => Nat.le_trans (hnow o ho) hlater)
  have hcount2 : regularCount (updateConfig (run State.empty ops) raisedAt m e).2.tokens later
      shift = c := by
    rw [htok, regularCount_congr _ hday, hcount]
  have hno2 : existingToken (updateConfig (run State.empty ops) raisedAt m e).2.tokens later
      patientId shift = none := by
    rw [htok, existingToken_congr _ hday, hno]
  have hfree := generateToken_free hno2 (by rw [hcount2, hraise]; omega)
  have hnum : (newToken (updateConfig (run State.empty ops) raisedAt m e).2 later patientId
      shift false).tokenNumber = toString (c + 1) := by
    have h0 : (newToken (updateConfig (run State.empty ops) raisedAt m e).2 later patientId
        shift false).tokenNumber = toString (regularCount
        (updateConfig (run State.empty ops) raisedAt m e).2.tokens later shift + 1) := rfl
    rw [h0, hcount2]
  refine ⟨generateToken_full hno (by rw [hcap, hcount]), ?_, hnum, ?_, ?_⟩
  · rw [hfree]
  · rw [hfree]
    obtain ⟨stored, hs1, hs2, _⟩ := findById_issueState
      (updateConfig (run State.empty ops) raisedAt m e).2 later patientId shift false
    have hs3 := congrArg Token.tokenNumber hs2
    exact ⟨stored, hs1, by rw [← hnum]; exact hs3⟩
  · intro t ht
    rw [hfree]
    exact findById_issueState_settled (by rw [htok]; exact hinv.1) later patientId shift false
      (by rw [htok]; exact hinv.2.2 shift) (by rw [htok]; exact ht)

/-- Witness of C16: with morning capacity 3 and three regular morning tokens issued, patient 9
is refused; after the capacity is raised to 4 the request yields token "4" and token 2 is
found as before. -/
theorem capacity_raise_witness :
    generateToken (run State.empty scenarioFull) 4000 9 (some Shift.morning) false =
      (capacityResponse (run State.empty scenarioFull).config Shift.morning,
        run State.empty scenarioFull) ∧
    (newToken (updateConfig (run State.empty scenarioFull) 4500 (some 4) none).2 5000 9
        Shift.morning false).tokenNumber = toString (3 + 1) :=
  ⟨(capacity_raise scenarioFull 4000 5000 4500 9 Shift.morning 3 (some 4) none (by decide)
      (by decide) (by decide) (by decide) (by decide) (by decide) (by decide) (by decide)).1,
   (capacity_raise scenarioFull 4000 5000 4500 9 Shift.morning 3 (some 4) none (by decide)
      (by decide) (by decide) (by decide) (by decide) (by decide) (by decide)
      (by decide)).2.2.1⟩

/-- C15: let the configured morning capacity be 2 and let the ledger (with unique ids) hold no
morning token of today. For any three different patients and any four instants of today:
the request of the first patient is answered with token "1", which is stored as serving; the
request of the second with token "2", which is stored as pending; the request of the third is
refused with the capacity message and changes nothing; and `markComplete` of the first token
then stores it as completed and the second as serving, sets `currentTokenId` to the second and
leaves every other stored token as it was (so none is marked missed). -/
theorem capacity_two_scenario (st : State) (n1 n2 n3 n4 a b c : Nat)
    (hu : UniqueIds st.tokens) (hcap : st.config.maxTokensMorning = 2)
    (hempty : ∀ t ∈ st.tokens, t.shift = Shift.morning → inDay (getDayBounds n1) t = false)
    (h2 : n2 / msPerDay = n1 / msPerDay) (h3 : n3 / msPerDay = n1 / msPerDay)
    (h4 : n4 / msPerDay = n1 / msPerDay) (hab : a ≠ b) (hca : c ≠ a) (hcb : c ≠ b) :
    ∃ A B : Token,
      A.tokenNumber = "1" ∧ A.status = Status.pending ∧ A.patientId = a ∧
      B.tokenNumber = "2" ∧ B.status = Status.pending ∧ B.patientId = b ∧
      (generateToken st n1 a (some Shift.morning) false).1 =
        { status := 201, message := "Token generated successfully", token := some A,
          nextToken := none, config := none, isPaused := none } ∧
      (generateToken st n1 a (some Shift.morning) false).2.tokens =
        st.tokens ++ [setServing A] ∧
      (generateToken (generateToken st n1 a (some Shift.morning) false).2 n2 b
          (some Shift.morning) false).1 =
        { status := 201, message := "Token generated successfully", token := some B,
          nextToken := none, config := none, isPaused := none } ∧
      (generateToken (generateToken st n1 a (some Shift.morning) false).2 n2 b
          (some Shift.morning) false).2.tokens = st.tokens ++ [setServing A, B] ∧
      generateToken (generateToken (generateToken st n1 a (some Shift.morning) false).2 n2 b
          (some Shift.morning) false).2 n3 c (some Shift.morning) false =
        (Response.msg 400 "Maximum tokens (2) for morning shift reached",
          (generateToken (generateToken st n1 a (some Shift.morning) false).2 n2 b
            (some Shift.morning) false).2) ∧
      (markComplete (generateToken (generateToken st n1 a (some Shift.morning) false).2 n2 b
          (some Shift.morning) false).2 n4 (some A.id)).2.tokens =
        st.tokens ++ [setCompleted n4 (setServing A), setServing B] ∧
      (markComplete (generateToken (generateToken st n1 a (some Shift.morning) false).2 n2 b
          (some Shift.morning) false).2 n4 (some A.id)).2.config.currentTokenId =
        some B.id := by
  -- the days of the four instants coincide
  have hb2 := getDayBounds_congr h2
  have hb3 := getDayBounds_congr h3
  have hb4 := getDayBounds_congr h4
  -- first request
  have hno1 : existingToken st.tokens n1 a Shift.morning = none := by
    have := @existingToken_append_of_empty st.tokens [] n1 a Shift.morning hempty
    rw [List.append_nil] at this
    rw [this]; rfl
  have hcount1 : regularCount st.tokens n1 Shift.morning = 0 := by
    have := @regularCount_append_of_empty st.tokens [] n1 Shift.morning hempty
    rw [List.append_nil] at this
    rw [this]; rfl
  have hcapv : capacity st.config Shift.morning = 2 := by
    unfold capacity; rw [if_pos rfl, hcap]
  have hg1 := @generateToken_free st n1 a Shift.morning hno1 (by rw [hcount1, hcapv]; decide)
  obtain ⟨hA1, hS1⟩ := issueState_first st n1 a Shift.morning hempty
  obtain ⟨A, hA⟩ : ∃ A, A = newToken st n1 a Shift.morning false := ⟨_, rfl⟩
  obtain ⟨S1, hS1d⟩ : ∃ S1, S1 = issueState st n1 a Shift.morning false := ⟨_, rfl⟩
  rw [← hA] at hA1 hS1
  rw [← hS1d] at hS1 hg1
  have hAid : A.id = freshId st.tokens := by rw [hA]; rfl
  have hAd : inDay (getDayBounds n1) A = true := by
    rw [hA, inDay_newToken]; simp
  have hfreshA : ∀ t ∈ st.tokens, t.id ≠ A.id := by
    intro t ht
    have := freshId_gt st.tokens t ht
    omega
  have hS1t : S1.tokens = st.tokens ++ [setServing A] := by rw [hS1]
  have hS1c : capacity S1.config Shift.morning = 2 := by rw [hS1]; exact hcapv
  -- second request
  have hempty2 : ∀ t ∈ st.tokens, t.shift = Shift.morning →
      inDay (getDayBounds n2) t = false := by rw [hb2]; exact hempty
  obtain ⟨hcount2, hB1, hS2⟩ := issueState_second S1 st.tokens (setServing A) n2 b
    Shift.morning hS1t hempty2 (by rw [hA]; rfl) (by rw [hb2]; exact hAd) rfl (by rw [hA]; rfl)
  obtain ⟨B, hB⟩ : ∃ B, B = newToken S1 n2 b Shift.morning false := ⟨_, rfl⟩
  obtain ⟨S2, hS2d⟩ : ∃ S2, S2 = issueState S1 n2 b Shift.morning false := ⟨_, rfl⟩
  rw [← hB] at hB1 hS2
  rw [← hS2d] at hS2
  have hno2 : existingToken S1.tokens n2 b Shift.morning = none := by
    rw [hS1t, existingToken_append_of_empty hempty2]
    unfold existingToken
    have hp : (setServing A).patientId = a := by rw [hA]; rfl
    simp [List.find?, hp, hab]
  have hg2 := @generateToken_free S1 n2 b Shift.morning hno2 (by rw [hcount2, hS1c]; decide)
  rw [← hS2d] at hg2
  have hBid : B.id = freshId (st.tokens ++ [setServing A]) := by rw [hB, ← hS1t]; rfl
  have hBd : inDay (getDayBounds n1) B = true := by
    rw [← hb2, hB, inDay_newToken]; simp
  have hS2t : S2.tokens = st.tokens ++ [setServing A, B] := by rw [hS2]
  have hS2c : capacity S2.config Shift.morning = 2 := by rw [hS2]; exact hS1c
  -- third request
  have hempty3 : ∀ t ∈ st.tokens, t.shift = Shift.morning →
      inDay (getDayBounds n3) t = false := by rw [hb3]; exact hempty
  have hno3 : existingToken S2.tokens n3 c Shift.morning = none := by
    rw [hS2t, existingToken_append_of_empty hempty3]
    unfold existingToken
    have hp : (setServing A).patientId = a := by rw [hA]; rfl
    have hq : B.patientId = b := by rw [hB]; rfl
    simp [List.find?, hp, hq, hca.symm, hcb.symm]
  have hcount3 : regularCount S2.tokens n3 Shift.morning = 2 := by
    rw [hS2t, regularCount_append_of_empty hempty3]
    unfold regularCount
    have e1 : (setServing A).shift = Shift.morning := by rw [hA]; rfl
    have e2 : (setServing A).isEmergency = false := by rw [hA]; rfl
    have e3 : inDay (getDayBounds n3) (setServing A) = true := by rw [hb3]; exact hAd
    have e4 : B.shift = Shift.morning := by rw [hB]; rfl
    have e5 : B.isEmergency = false := by rw [hB]; rfl
    have e6 : inDay (getDayBounds n3) B = true := by rw [hb3]; exact hBd
    simp [List.filter, e1, e2, e3, e4, e5, e6]
  have hg3 := @generateToken_full S2 n3 c Shift.morning hno3 (by rw [hcount3, hS2c]; decide)
  have hresp : capacityResponse S2.config Shift.morning =
      Response.msg 400 "Maximum tokens (2) for morning shift reached" := by
    unfold capacityResponse
    rw [hS2c]
    decide
  rw [hresp] at hg3
  -- completion of the first token
  have hu1 : UniqueIds S1.tokens := by
    have := step_uniqueIds st (Op.generate n1 a (some Shift.morning) false) hu
    have hstep : step st (Op.generate n1 a (some Shift.morning) false) = S1 := by
      show (generateToken st n1 a (some Shift.morning) false).2 = S1
      rw [hg1]
    rw [hstep] at this
    exact this
  have hu2 : UniqueIds S2.tokens := by
    have := step_uniqueIds S1 (Op.generate n2 b (some Shift.morning) false) hu1
    have hstep : step S1 (Op.generate n2 b (some Shift.morning) false) = S2 := by
      show (generateToken S1 n2 b (some Shift.morning) false).2 = S2
      rw [hg2]
    rw [hstep] at this
    exact this
  have hAmem : setServing A ∈ S2.tokens := by rw [hS2t]; simp
  have hfind : findById S2.tokens A.id = some (setServing A) := findById_of_mem hu2 hAmem
  have hst : (setServing A).status ≠ Status.completed := by
    intro h; cases h
  have hempty4 : ∀ t ∈ st.tokens, t.shift = Shift.morning →
      inDay (getDayBounds n4) t = false := by rw [hb4]; exact hempty
  have hTs : (setServing A).shift = Shift.morning := by rw [hA]; rfl
  have hsplit : findSorted S2.tokens (getDayBounds n4) (setServing A).shift =
      [] ++ setServing A :: [B] := by
    rw [hTs, hS2t, findSorted_append_of_empty hempty4]
    exact findSorted_pair hTs (by rw [hB]; rfl) (by rw [hb4]; exact hAd)
      (by rw [hb4]; exact hBd)
      (sortLe_one_two (by rw [hA]; rfl) (by rw [hB]; rfl) (by rw [hA]; rfl) (by rw [hB]; rfl)
        hA1 hB1)
  have hBp : B.status = Status.pending := by rw [hB]; rfl
  have hnext : completeNextToken S2 n4 A.id (setServing A).shift = some B := by
    rw [completeNextToken_split hu2 hfind hsplit]
    simp [List.find?, hBp]
  have hmiss : completeMissedIds S2 n4 A.id (setServing A).shift = [] := by
    rw [completeMissedIds_split hu2 hfind hsplit]
    rfl
  have hBgt : ∀ t ∈ st.tokens ++ [setServing A], t.id ≠ B.id := by
    intro t ht
    have := freshId_gt (st.tokens ++ [setServing A]) t ht
    omega
  have hAB : A.id ≠ B.id := hBgt (setServing A) (by simp)
  have htokens : (markComplete S2 n4 (some A.id)).2.tokens =
      st.tokens ++ [setCompleted n4 (setServing A), setServing B] := by
    rw [markComplete_tokens hfind hst, hnext, hmiss, hS2t, List.map_append]
    congr 1
    · conv_rhs => rw [← List.map_id st.tokens]
      apply List.map_congr_left
      intro t ht
      have h1 : t.id ≠ A.id := hfreshA t ht
      have h2 : t.id ≠ B.id := hBgt t (List.mem_append_left _ ht)
      unfold completeMap
      simp [h1, h2]
    · unfold completeMap
      have hsa : (setServing A).id = A.id := rfl
      simp [hsa, hAB, hAB.symm]
  have hptr : (markComplete S2 n4 (some A.id)).2.config.currentTokenId = some B.id := by
    rw [markComplete_config hfind hst, hnext]
    rfl
  refine ⟨A, B, hA1, by rw [hA]; rfl, by rw [hA]; rfl, hB1, hBp, by rw [hB]; rfl, ?_, ?_, ?_,
    ?_, ?_, ?_, ?_⟩
  · rw [hg1, hA]; rfl
  · rw [hg1]; exact hS1t
  · rw [hg1]; dsimp only; rw [hg2, hB]; rfl
  · rw [hg1]; dsimp only; rw [hg2]; exact hS2t
  · rw [hg1]; dsimp only; rw [hg2]; exact hg3
  · rw [hg1]; dsimp only; rw [hg2]; exact htokens
  · rw [hg1]; dsimp only; rw [hg2]; exact hptr

/-- Witness of C15: the scenario from the empty ledger after the morning capacity was set to 2,
with patients 1, 2 and 3 at the instants 1000, 2000, 3000 and the completion at 4000. -/
theorem capacity_two_scenario_witness :
    ∃ A B : Token,
      A.tokenNumber = "1" ∧ A.status = Status.pending ∧ A.patientId = 1 ∧
      B.tokenNumber = "2" ∧ B.status = Status.pending ∧ B.patientId = 2 ∧
      (generateToken capacityTwoStart 1000 1 (some Shift.morning) false).1 =
        { status := 201, message := "Token generated successfully", token := some A,
          nextToken := none, config := none, isPaused := none } ∧
      (generateToken capacityTwoStart 1000 1 (some Shift.morning) false).2.tokens =
        capacityTwoStart.tokens ++ [setServing A] ∧
      (generateToken (generateToken capacityTwoStart 1000 1 (some Shift.morning) false).2 2000 2
          (some Shift.morning) false).1 =
        { status := 201, message := "Token generated successfully", token := some B,
          nextToken := none, config := none, isPaused := none } ∧
      (generateToken (generateToken capacityTwoStart 1000 1 (some Shift.morning) false).2 2000 2
          (some Shift.morning) false).2.tokens = capacityTwoStart.tokens ++ [setServing A, B] ∧
      generateToken (generateToken (generateToken capacityTwoStart 1000 1 (some Shift.morning) false).2 2000 2
          (some Shift.morning) false).2 3000 3 (some Shift.morning) false =
        (Response.msg 400 "Maximum tokens (2) for morning shift reached",
          (generateToken (generateToken capacityTwoStart 1000 1 (some Shift.morning) false).2 2000 2
            (some Shift.morning) false).2) ∧
      (markComplete (generateToken (generateToken capacityTwoStart 1000 1 (some Shift.morning) false).2 2000 2
          (some Shift.morning) false).2 4000 (some A.id)).2.tokens =
        capacityTwoStart.tokens ++ [setCompleted 4000 (setServing A), setServing B] ∧
      (markComplete (generateToken (generateToken capacityTwoStart 1000 1 (some Shift.morning) false).2 2000 2
          (some Shift.morning) false).2 4000 (some A.id)).2.config.currentTokenId =
        some B.id :=
  capacity_two_scenario capacityTwoStart 1000 2000 3000 4000 1 2 3
    (by decide) (by decide) (by decide) (by decide) (by decide) (by decide) (by decide)
    (by decide) (by decide)

/-- C22: if `markComplete` of a token `T` of the current day that is not yet completed finds no
token to promote (the response carries no `nextToken`), then `currentTokenId` is null and
afterwards no stored token of the day and shift of `T` is pending. -/
theorem markComplete_queue_empty (st : State) (now tokenId : Nat) (T : Token)
    (hfind : findById st.tokens tokenId = some T) (hst : T.status ≠ Status.completed)
    (hday : inDay (getDayBounds now) T = true)
    (hnone : (markComplete st now (some tokenId)).1.nextToken = none) :
    (markComplete st now (some tokenId)).2.config.currentTokenId = none ∧
    ∀ t ∈ (markComplete st now (some tokenId)).2.tokens, t.shift = T.shift →
      t.date / msPerDay = T.date / msPerDay → t.status ≠ Status.pending := by
  rw [markComplete_response hfind hst] at hnone
  have hn : completeNextToken st now tokenId T.shift = none := by
    cases h : completeNextToken st now tokenId T.shift with
    | none => rfl
    | some n => rw [h] at hnone; cases hnone
  constructor
  · rw [markComplete_config hfind hst, hn]
    rfl
  · intro t ht hs hd
    apply markComplete_no_pending hfind hst hn t ht hs
    rw [inDay_getDayBounds] at hday ⊢
    have hT : T.date / msPerDay = now / msPerDay := by simpa using hday
    simp [hd, hT]

/-- Witness of C22: in the sample ledger the doctor completes the last token, 3; nothing
follows it, token 2 before it is marked missed, and no morning token of the day is pending. -/
theorem markComplete_queue_empty_witness :
    (markComplete sampleState 4000 (some 3)).2.config.currentTokenId = none ∧
    ∀ t ∈ (markComplete sampleState 4000 (some 3)).2.tokens, t.shift = sampleC.shift →
      t.date / msPerDay = sampleC.date / msPerDay → t.status ≠ Status.pending :=
  markComplete_queue_empty sampleState 4000 3 sampleC (by decide) (by decide) (by decide)
    (by decide)

/-- C26: in every state reached from the empty ledger with the default configuration, if
`currentTokenId` is not null then it is the id of exactly one stored token, and the status of
that token is serving (so it is not pending, completed or missed). -/
theorem pointer_existing_serving (ops : List Op) (i : Nat)
    (hp : (run State.empty ops).config.currentTokenId = some i) :
    ∃ t, findById (run State.empty ops).tokens i = some t ∧ t.id = i ∧
      t.status = Status.serving ∧ t.status ≠ Status.pending ∧
      t.status ≠ Status.completed ∧ t.status ≠ Status.missed ∧
      ∀ u ∈ (run State.empty ops).tokens, u.id = i → u = t := by
  obtain ⟨t, htm, hti, hts⟩ := reachable_pointerValid ops i hp
  have hu := reachable_uniqueIds ops
  refine ⟨t, ?_, hti, hts, ?_, ?_, ?_, ?_⟩
  · rw [← hti]; exact findById_of_mem hu htm
  · rw [hts]; decide
  · rw [hts]; decide
  · rw [hts]; decide
  · intro u hum hui
    exact hu.eq_of_id hum htm (by rw [hui, hti])

/-- Witness of C26: after `scenarioCompletePending` the pointer is 3 and token 3 is serving. -/
theorem pointer_existing_serving_witness :
    ∃ t, findById (run State.empty scenarioCompletePending).tokens 3 = some t ∧ t.id = 3 ∧
      t.status = Status.serving ∧ t.status ≠ Status.pending ∧
      t.status ≠ Status.completed ∧ t.status ≠ Status.missed ∧
      ∀ u ∈ (run State.empty scenarioCompletePending).tokens, u.id = 3 → u = t :=
  pointer_existing_serving scenarioCompletePending 3 (by decide)

/-- C24 (evaluation at the failing input): the first `generateToken` on the empty ledger
answers 201 with a token whose status is pending, while the ledger stores that token, promoted
by the same call, as serving. -/
theorem generateToken_response_stale :
    (generateToken State.empty 1000 1 (some Shift.morning) false).1.status = 201 ∧
    (generateToken State.empty 1000 1 (some Shift.morning) false).1.token.map
        (fun t => (t.id, t.status)) = some (1, Status.pending) ∧
    (findById (generateToken State.empty 1000 1 (some Shift.morning) false).2.tokens 1).map
        (fun t => (t.id, t.status)) = some (1, Status.serving) := by
  decide


/-- C21: in the ordered token list of any day and shift, whenever a token `x` stands before a
token `y`, `y` being an emergency token makes `x` one too (no regular token precedes an
emergency token), and if both are emergency tokens then a null emergency number never follows
a number and the emergency numbers ascend. -/
theorem findSorted_emergency_first (tokens : List Token) (b : DayBounds) (shift : Shift) :
    (findSorted tokens b shift).Pairwise (fun x y =>
      (y.isEmergency = true → x.isEmergency = true) ∧
      (x.isEmergency = true → y.isEmergency = true →
        (y.emergencyNumber = none → x.emergencyNumber = none) ∧
        ∀ m n, x.emergencyNumber = some m → y.emergencyNumber = some n → m ≤ n)) := by
  refine List.Pairwise.imp ?_ (findSorted_sorted tokens b shift)
  intro x y h
  obtain ⟨h1, h2⟩ := sortLe_ranks h
  unfold emergencyRank at h1 h2
  constructor
  · intro hy
    rw [hy] at h1
    cases hx : x.isEmergency
    · rw [hx] at h1; simp at h1
    · rfl
  · intro hx hy
    rw [hx, hy] at h2
    have h3 := h2 rfl
    unfold numberRank at h3
    constructor
    · intro hn
      rw [hn] at h3
      cases hxn : x.emergencyNumber with
      | none => rfl
      | some k => rw [hxn] at h3; simp at h3
    · intro m n hm hn
      rw [hm, hn] at h3
      simpa using h3

/-- C25: for every ledger, instant and shift, the helper `calculateQueueStatus` of
`doctorController`, which sorts by three keys without `createdAt`, returns the same
`currentServing` and the same `totalTokens` as the helper of `tokenController` called with no
patient token. -/
theorem doctor_status_agrees (st : State) (now : Nat) (avgServiceMinutes : Option Int)
    (shift : Shift) :
    (doctorCalculateQueueStatus st now shift).currentServing =
      (calculateQueueStatus st now avgServiceMinutes shift none).currentServing ∧
    (doctorCalculateQueueStatus st now shift).totalTokens =
      (calculateQueueStatus st now avgServiceMinutes shift none).totalTokens := by
  have hperm := findSorted_perm_doctor st.tokens (getDayBounds now) shift
  have h1 := findSortedDoctor_sorted st.tokens (getDayBounds now) shift
  have h2 : (findSorted st.tokens (getDayBounds now) shift).Sorted sortLeDoctor :=
    List.Pairwise.imp (fun h => sortLe_sortLeDoctor h)
      (findSorted_sorted st.tokens (getDayBounds now) shift)
  have hf : ∀ a b : Token, sortLeDoctor a b → sortLeDoctor b a →
      (ServingInfo.mk a.tokenNumber a.isEmergency) = ServingInfo.mk b.tokenNumber b.isEmergency := by
    intro a b hab hba
    obtain ⟨e1, e2⟩ := sortLeDoctor_antisymm hab hba
    rw [e1, e2]
  constructor
  · unfold doctorCalculateQueueStatus calculateQueueStatus
    dsimp only
    exact or_map_congr _ (find_map_sorted_perm _ hperm h1 h2 hf _)
      (or_map_congr _ (find_map_sorted_perm _ hperm h1 h2 hf _)
        (find_map_sorted_perm _ hperm h1 h2 hf _))
  · unfold doctorCalculateQueueStatus calculateQueueStatus
    dsimp only
    exact hperm.length_eq


/-- C27: let the requests `ops`, handled from the empty ledger, be `generateToken` and
`markComplete` calls of one day `d`, every `markComplete` naming a token that is serving when
the call is handled. Then the reached state has at most one serving token per shift; and each
`markComplete` of the sequence, on the serving token `T`, leaves exactly one serving token in
the shift of `T` whenever a pending token follows `T` in the ordered list of that shift. -/
theorem serving_at_most_one (d : Nat) (ops : List Op)
    (h : servingOnly d State.empty ops = true) :
    (∀ shift, servingCount (run State.empty ops).tokens shift ≤ 1) ∧
    ∀ (before after : List Op) (now i : Nat),
      ops = before ++ Op.complete now (some i) :: after →
      ∃ T, findById (run State.empty before).tokens i = some T ∧ T.status = Status.serving ∧
        ∀ (l1 l2 : List Token) (P : Token),
          findSorted (run State.empty before).tokens (getDayBounds now) T.shift =
            l1 ++ T :: l2 →
          P ∈ l2 → P.status = Status.pending →
          servingCount (run State.empty (before ++ [Op.complete now (some i)])).tokens
            T.shift = 1 := by
  constructor
  · have hr := run_oneServing d ops [] State.empty (oneServing_empty d)
      (by rw [List.append_nil]; exact h)
    exact hr.1.2.2
  · intro before after now i hops
    rw [hops] at h
    obtain ⟨hinv, hrest⟩ := run_oneServing d before _ State.empty (oneServing_empty d) h
    rw [servingOnly, Bool.and_eq_true] at hrest
    have hop := hrest.1
    have hinv2 := step_oneServing d _ _ hinv hop
    unfold servingOnlyOp at hop
    rw [Bool.and_eq_true] at hop
    have h2 := hop.2
    dsimp only at h2
    cases hfind : findById (run State.empty before).tokens i with
    | none => rw [hfind] at h2; exact absurd h2 (by simp)
    | some T =>
      rw [hfind] at h2
      have hT : T.status = Status.serving := by simpa using h2
      refine ⟨T, rfl, hT, ?_⟩
      intro l1 l2 P hsplit hP hPs
      have hrun : run State.empty (before ++ [Op.complete now (some i)]) =
          step (run State.empty before) (Op.complete now (some i)) := by
        unfold run
        rw [List.foldl_append]
        rfl
      rw [hrun]
      apply le_antisymm (hinv2.2.2 T.shift)
      exact markComplete_servingCount_pos hinv.1 hfind (by rw [hT]; decide) hsplit hP hPs

/-- Witness of C27: in `scenarioServingOnly` every `markComplete` names the serving token; the
reached state has at most one serving token in each shift, and the first `markComplete`, on
token 1 with the pending tokens 2 and 3 after it, leaves exactly one serving morning token. -/
theorem serving_at_most_one_witness :
    servingOnly 0 State.empty scenarioServingOnly = true ∧
    servingCount (run State.empty scenarioServingOnly).tokens Shift.morning ≤ 1 ∧
    servingCount (run State.empty scenarioServingOnly).tokens Shift.evening ≤ 1 ∧
    servingCount (run State.empty (scenarioServingOnly.take 5)).tokens Shift.morning = 1 := by
  have h := serving_at_most_one 0 scenarioServingOnly (by decide)
  refine ⟨by decide, h.1 Shift.morning, h.1 Shift.evening, ?_⟩
  obtain ⟨T, hfind, _, hT⟩ := h.2 (scenarioServingOnly.take 4) (scenarioServingOnly.drop 5)
    4000 1 (by decide)
  have hTe : T = sampleA := by
    have hf : findById (run State.empty (scenarioServingOnly.take 4)).tokens 1 =
        some sampleA := by decide
    rw [hf] at hfind
    exact (Option.some.inj hfind).symm
  subst hTe
  exact hT [] [sampleB, sampleC] sampleB (by decide)
    (by decide) (by decide)


/-- C23 (evaluation at the failing input): two concurrent `generateToken` calls for regular
morning tokens on the empty ledger, both reading the ledger before either creates its
document, both succeed, and the two tokens issued carry the same number 1. -/
theorem generateToken_interleaved_duplicate :
    interleavedPair.map (fun st => st.tokens.map (fun t => (t.id, t.patientId))) =
      some [(1, 1), (2, 2)] ∧
    interleavedPair.map (fun st => regularNumbers st.tokens Shift.morning) =
      some ["1", "1"] := by
  decide

end Queuease
